import Mathlib

/-!
Verification development for the chess rules engine in `src/chess/model.py`
(gamelib-chess).  The Python classes `Player`, `PieceInfo`, `Piece`, `Move`
and `Board` are embedded shallowly below; stateful methods become functions
from `Board` to `Board` (returning `Option Board` where the Python code can
raise: `AttributeError` on a missing piece, `StopIteration` in the
insufficient-material scan).

Modelling notes, recorded where they matter:
* Python `PieceInfo` objects are mutable and shared between the grid and the
  cached king references (`_black_king` / `_white_king`).  The embedding keeps
  the cached king as a `Piece` value inside `Board` and re-applies every
  mutation of a piece to the cache when the ids agree (`touchKingCache`),
  which is exactly what the aliasing achieves in Python.
* gamelib entity identity (`en_passant == board.last_piece_to_move`,
  `Piece.destroy(id)`) is modelled by a numeric `id` on each piece, unique on
  the board; entity equality is id equality.
* The global per-class entity populations (`len(Pawn)` etc.) equal the pieces
  reachable from the grid, because captured and promoted-away pieces have
  their grid square cleared before they are destroyed; the embedding counts
  from the grid.
* `hash(self)` hashes `repr(self)`, which lists occupant kind + player per
  square; the embedding uses that kind/player grid itself as the repetition
  key (`Sig`), i.e. it treats the hash as injective.
* `_logical_move`, `_logical_unmove` and `_finalize_move` recurse once for
  castling.  The recursive call operates on the paired rook move, whose
  initial file is 1 or 8, so `_is_castles` / `_is_finalize_castles` (which
  require initial file 5) is false inside the recursive call and the
  recursion depth is at most 2.  The embedding therefore uses a non-recursive
  variant (suffix `NC`) for the inner call.
-/

namespace Chess

inductive Player where
  | black
  | white
deriving DecidableEq, Repr

def Player.other : Player → Player
  | .white => .black
  | .black => .white

inductive PieceKind where
  | pawn
  | knight
  | bishop
  | rook
  | queen
  | king
deriving DecidableEq, Repr

structure PieceInfo where
  player : Player
  file : Int
  rank : Int
  prevFile : Int
  prevRank : Int
deriving DecidableEq, Repr

structure Piece where
  id : Nat
  kind : PieceKind
  info : PieceInfo
deriving DecidableEq, Repr

/-- Python `Piece.has_moved`: current square differs from previous square. -/
def Piece.hasMoved (p : Piece) : Bool :=
  decide (p.info.rank ≠ p.info.prevRank) || decide (p.info.file ≠ p.info.prevFile)

structure Move where
  initialFile : Int
  initialRank : Int
  targetFile : Int
  targetRank : Int
  capture : Option Piece := none
  promotion : Option PieceKind := none
deriving DecidableEq, Repr

inductive Winner where
  | player (p : Player)
  | draw
deriving DecidableEq, Repr

/-- Repetition key: occupant kind + player per square (the content of the
Python `repr` that gets hashed). -/
abbrev Sig := List (List (Option (PieceKind × Player)))

abbrev Grid := List (List (Option Piece))

structure Board where
  grid : Grid
  turn : Player
  winner : Option Winner
  previousMove : Option Move
  prevPositions : List (Sig × Nat)
  whiteKing : Piece
  blackKing : Piece
  nextId : Nat
deriving DecidableEq, Repr

/-- Python `Board.in_range`. -/
def inRange (file rank : Int) : Bool :=
  decide (1 ≤ file) && decide (file ≤ 8) && decide (1 ≤ rank) && decide (rank ≤ 8)

/-- Raw grid read `self._board[rank - 1][file - 1]`; all in-scope uses are
guarded by `inRange`, so the Python negative-index wraparound is never hit. -/
def cellGet (g : Grid) (file rank : Int) : Option Piece :=
  match g[(rank - 1).toNat]? with
  | some row => row[(file - 1).toNat]?.join
  | none => none

/-- Raw grid write `self._board[rank - 1][file - 1] = v` (same guard remark
as `cellGet`; writes with an out-of-range index leave the grid unchanged). -/
def setCell (g : Grid) (file rank : Int) (v : Option Piece) : Grid :=
  match g[(rank - 1).toNat]? with
  | some row => g.set (rank - 1).toNat (row.set (file - 1).toNat v)
  | none => g

/-- Python `Board.is_empty`: out-of-range squares read as empty. -/
def Board.is_empty (b : Board) (file rank : Int) : Bool :=
  if inRange file rank then (cellGet b.grid file rank).isNone else true

/-- Python `Board.piece_at`: `None` whenever `is_empty` is true. -/
def Board.piece_at (b : Board) (file rank : Int) : Option Piece :=
  if b.is_empty file rank then none else cellGet b.grid file rank

/-- Python `Board.is_turn`. -/
def Board.is_turn (b : Board) (pl : Player) : Bool :=
  decide (b.turn = pl)

/-- Python `Board.last_piece_to_move`. -/
def Board.last_piece_to_move (b : Board) : Option Piece :=
  match b.previousMove with
  | none => none
  | some pm => b.piece_at pm.targetFile pm.targetRank

/-- The ray loop of `Board.is_controlled`: walk from (f, r) in direction
(dx, dy) until out of range or a piece is hit, returning the final
coordinates and the blocking piece.  Any such walk leaves the 8x8 board in at
most 8 steps, so fuel 16 is never exhausted. -/
def rayWalk (b : Board) (dx dy : Int) : Nat → Int → Int → Int × Int × Option Piece
  | 0, f, r => (f, r, none)
  | fuel + 1, f, r =>
    if inRange f r then
      match b.piece_at f r with
      | some p => (f, r, some p)
      | none => rayWalk b dx dy fuel (f + dx) (r + dy)
    else (f, r, none)

/-- Diagonal arm of `Board.is_controlled` for one direction. -/
def diagControl (b : Board) (file rank : Int) (pl : Player) (dx dy : Int) : Bool :=
  let w := rayWalk b dx dy 16 (file + dx) (rank + dy)
  let f := w.1
  let r := w.2.1
  let forward : Int := if pl = .white then 1 else -1
  let kinds : List PieceKind :=
    [.bishop, .queen]
      ++ (if (f - file).natAbs = 1 ∧ (r - rank).natAbs = 1 then
            [.king] ++ (if r = rank - forward then [.pawn] else [])
          else [])
  match w.2.2 with
  | some p => decide (p.kind ∈ kinds) && decide (p.info.player = pl)
  | none => false

/-- Rank/file arm of `Board.is_controlled` for one direction. -/
def lineControl (b : Board) (file rank : Int) (pl : Player) (dx dy : Int) : Bool :=
  let w := rayWalk b dx dy 16 (file + dx) (rank + dy)
  let f := w.1
  let r := w.2.1
  let kinds : List PieceKind :=
    if (f - file).natAbs ≤ 1 ∧ (r - rank).natAbs ≤ 1 then [.rook, .queen, .king]
    else [.queen, .rook]
  match w.2.2 with
  | some p => decide (p.kind ∈ kinds) && decide (p.info.player = pl)
  | none => false

/-- Python `Board.is_controlled`. -/
def Board.is_controlled (b : Board) (file rank : Int) (pl : Player) : Bool :=
  ([(file - 2, rank - 1), (file - 2, rank + 1), (file - 1, rank - 2), (file - 1, rank + 2),
      (file + 1, rank + 2), (file + 1, rank - 2), (file + 2, rank + 1), (file + 2, rank - 1)].any
    (fun c =>
      match b.piece_at c.1 c.2 with
      | some p => decide (p.kind = .knight) && decide (p.info.player = pl)
      | none => false))
  || ([((-1 : Int), (-1 : Int)), (-1, 1), (1, -1), (1, 1)].any
      (fun d => diagControl b file rank pl d.1 d.2))
  || ([((0 : Int), (1 : Int)), (0, -1), (1, 0), (-1, 0)].any
      (fun d => lineControl b file rank pl d.1 d.2))

/-- Python `Board.in_check`: reads the cached king's current coordinates. -/
def Board.in_check (b : Board) (pl : Player) : Bool :=
  let kg := if pl = .black then b.blackKing else b.whiteKing
  let op := if pl = .black then Player.white else Player.black
  b.is_controlled kg.info.file kg.info.rank op

/-- One cached reference updated by an aliased info mutation: replaced
exactly when the mutated piece is the cached entity (same id). -/
def touch1 (w p : Piece) : Piece := if p.id = w.id then p else w

/-- Mutating a piece's (shared) `PieceInfo` in Python is visible through the
cached king references; re-apply the mutation to the cache when ids agree. -/
def Board.touchKingCache (b : Board) (p : Piece) : Board :=
  { b with
    whiteKing := touch1 b.whiteKing p,
    blackKing := touch1 b.blackKing p }

/-- Python `Board._swap` (simultaneous two-cell exchange). -/
def swapCells (g : Grid) (f1 r1 f2 r2 : Int) : Grid :=
  let a := cellGet g f1 r1
  let c := cellGet g f2 r2
  setCell (setCell g f1 r1 c) f2 r2 a

/-- Python `Board._is_castles`. -/
def Board.isCastles (b : Board) (m : Move) : Bool :=
  (match b.piece_at m.initialFile m.initialRank with
    | some p => decide (p.kind = .king)
    | none => false)
  && decide ((m.initialFile - m.targetFile).natAbs = 2)
  && decide (m.initialFile = 5)

/-- Python `Board._is_finalize_castles` (same test, but the king is probed at
the target square because the logical move already happened). -/
def Board.isFinalizeCastles (b : Board) (m : Move) : Bool :=
  (match b.piece_at m.targetFile m.targetRank with
    | some p => decide (p.kind = .king)
    | none => false)
  && decide ((m.initialFile - m.targetFile).natAbs = 2)
  && decide (m.initialFile = 5)

/-- Python `Board._get_castles_rook_move`. -/
def castlesRookMove (m : Move) : Move :=
  if m.targetFile = 3 then
    { initialFile := 1, initialRank := m.initialRank, targetFile := 4, targetRank := m.targetRank }
  else
    { initialFile := 8, initialRank := m.initialRank, targetFile := 6, targetRank := m.targetRank }

/-- First half of `Board._logical_move`: capture detection (overwriting
`move.capture` when the destination is occupied) and removal of the captured
piece from its recorded square.  Returns the new board and the mutated move. -/
def capturePhase (b : Board) (m : Move) : Board × Move :=
  let cap0 := b.piece_at m.targetFile m.targetRank
  let m1 := if cap0.isSome then { m with capture := cap0 } else m
  let b1 :=
    match m1.capture with
    | some q => { b with grid := setCell b.grid q.info.file q.info.rank none }
    | none => b
  (b1, m1)

/-- The coordinate mutation `piece.info.file = ...; piece.info.rank = ...`. -/
def reloc (p : Piece) (f r : Int) : Piece :=
  { p with info := { p.info with file := f, rank := r } }

/-- Second half of `Board._logical_move`: read the source piece (Python
raises `AttributeError` if it is missing, hence `Option`), update its
coordinates (visible through the king cache) and swap the two grid cells. -/
def moveTail (b : Board) (m m1 : Move) : Option (Board × Move) :=
  match b.piece_at m.initialFile m.initialRank with
  | none => none
  | some p =>
    let p' := reloc p m.targetFile m.targetRank
    let b1 := Board.touchKingCache { b with grid := setCell b.grid m.initialFile m.initialRank (some p') } p'
    some ({ b1 with grid := swapCells b1.grid m.initialFile m.initialRank m.targetFile m.targetRank }, m1)

/-- `Board._logical_move` restricted to the non-castling part; this is what
the recursive call on the paired rook move amounts to (see header note). -/
def logicalNC (b : Board) (m : Move) : Option (Board × Move) :=
  let cm := capturePhase b m
  moveTail cm.1 m cm.2

/-- Python `Board._logical_move`. -/
def logicalMove (b : Board) (m : Move) : Option (Board × Move) :=
  let cm := capturePhase b m
  match (if cm.1.isCastles m then (logicalNC cm.1 (castlesRookMove m)).map Prod.fst else some cm.1) with
  | none => none
  | some b2 => moveTail b2 m cm.2

/-- Python `Move(...)` built inside `_logical_unmove`: source and destination
swapped, no capture, no promotion. -/
def inverseMove (m : Move) : Move :=
  { initialFile := m.targetFile, initialRank := m.targetRank,
    targetFile := m.initialFile, targetRank := m.initialRank }

/-- Restoration of the captured piece reference to its recorded square
(`self._board[ri][fi] = move.capture`). -/
def restoreCapture (b : Board) (m : Move) : Board :=
  match m.capture with
  | some q => { b with grid := setCell b.grid q.info.file q.info.rank (some q) }
  | none => b

/-- `Board._logical_unmove` restricted to the non-castling part, used for the
recursive call on the paired rook move (see header note). -/
def unmoveNC (b : Board) (m : Move) : Option Board :=
  match logicalMove b (inverseMove m) with
  | none => none
  | some bm => some (restoreCapture bm.1 m)

/-- Python `Board._logical_unmove`. -/
def unmove (b : Board) (m : Move) : Option Board :=
  match logicalMove b (inverseMove m) with
  | none => none
  | some bm =>
    match (if bm.1.isCastles m then unmoveNC bm.1 (castlesRookMove m) else some bm.1) with
    | none => none
    | some b2 => some (restoreCapture b2 m)

/-- Python `Board.is_valid`, kept with its full effect: the returned board is
the state after the speculative apply/undo and the returned move is the
(possibly capture-mutated) move object. -/
def Board.is_validFull (b : Board) (m : Move) : Option (Bool × Board × Move) :=
  match b.piece_at m.initialFile m.initialRank with
  | none => some (false, b, m)
  | some p =>
    let tp := b.piece_at m.targetFile m.targetRank
    if (match tp with
        | some t => decide (t.info.player = p.info.player)
        | none => false) then
      some (false, b, m)
    else
      match logicalMove b m with
      | none => none
      | some bm =>
        let chk := bm.1.in_check p.info.player
        match unmove bm.1 bm.2 with
        | none => none
        | some b2 => some (!chk, b2, bm.2)

/-- `is_valid` as the move generators consume it: the boolean verdict plus
the mutated move that Python's generators yield.  Dropping the returned board
is justified by the round-trip theorem below: on every candidate a generator
builds, the apply/undo restores the board exactly. -/
def Board.is_validB (b : Board) (m : Move) : Option (Bool × Move) :=
  (b.is_validFull m).map (fun x => (x.1, x.2.2))

/-- The `if board.is_valid(move): yield move` step shared by all generators
(a candidate on which Python would raise yields nothing; no generator
candidate can raise, see the round-trip theorem). -/
def validated (b : Board) (m : Move) : List Move :=
  match b.is_validB m with
  | some (true, m1) => [m1]
  | _ => []

/-- Python `Pawn.possible_moves`. -/
def pawnMoves (b : Board) (p : Piece) : List Move :=
  let file := p.info.file
  let rank := p.info.rank
  let pl := p.info.player
  let forward : Int := if pl = .white then 1 else -1
  let pushes :=
    if b.is_empty file (rank + forward) then
      validated b { initialFile := file, initialRank := rank, targetFile := file, targetRank := rank + forward }
        ++ (if !p.hasMoved && b.is_empty file (rank + 2 * forward) then
              validated b { initialFile := file, initialRank := rank, targetFile := file, targetRank := rank + 2 * forward }
            else [])
    else []
  let caps := ([(-1 : Int), 1]).flatMap (fun dx =>
    (match b.piece_at (file + dx) (rank + forward) with
      | some nc =>
        if nc.info.player ≠ pl then
          validated b { initialFile := file, initialRank := rank,
                        targetFile := file + dx, targetRank := rank + forward, capture := some nc }
        else []
      | none => [])
    ++ (match b.piece_at (file + dx) rank with
      | some ep =>
        if decide (ep.kind = .pawn)
            && (match b.last_piece_to_move with
                | some lp => decide (ep.id = lp.id)
                | none => false)
            && decide (ep.info.player ≠ pl)
            && decide ((ep.info.rank - ep.info.prevRank).natAbs = 2) then
          validated b { initialFile := file, initialRank := rank,
                        targetFile := file + dx, targetRank := rank + forward, capture := some ep }
        else []
      | none => []))
  pushes ++ caps

/-- Python `Knight.possible_moves`. -/
def knightMoves (b : Board) (p : Piece) : List Move :=
  let file := p.info.file
  let rank := p.info.rank
  ([((-2 : Int), (-1 : Int)), (-2, 1), (-1, -2), (-1, 2), (1, 2), (1, -2), (2, 1), (2, -1)]).flatMap
    (fun d =>
      let f := file + d.1
      let r := rank + d.2
      if inRange f r then
        validated b { initialFile := file, initialRank := rank, targetFile := f, targetRank := r }
      else [])

/-- The sliding-piece generator loop (`Bishop`/`Rook`/`Queen.possible_moves`):
walk one direction, offering each square through `is_valid`, stopping after
the first occupied square.  Fuel 16 is never exhausted (at most 8 in-range
steps). -/
def rayGen (b : Board) (file rank dx dy : Int) : Nat → Int → Int → List Move
  | 0, _, _ => []
  | fuel + 1, f, r =>
    if inRange f r then
      let pc := b.piece_at f r
      validated b { initialFile := file, initialRank := rank, targetFile := f, targetRank := r }
        ++ (if pc.isSome then [] else rayGen b file rank dx dy fuel (f + dx) (r + dy))
    else []

/-- Python `Bishop.possible_moves`. -/
def bishopMoves (b : Board) (p : Piece) : List Move :=
  ([((-1 : Int), (-1 : Int)), (-1, 1), (1, -1), (1, 1)]).flatMap
    (fun d => rayGen b p.info.file p.info.rank d.1 d.2 16 (p.info.file + d.1) (p.info.rank + d.2))

/-- Python `Rook.possible_moves`. -/
def rookMoves (b : Board) (p : Piece) : List Move :=
  ([((0 : Int), (-1 : Int)), (0, 1), (1, 0), (-1, 0)]).flatMap
    (fun d => rayGen b p.info.file p.info.rank d.1 d.2 16 (p.info.file + d.1) (p.info.rank + d.2))

/-- Python `Queen.possible_moves`. -/
def queenMoves (b : Board) (p : Piece) : List Move :=
  ([((-1 : Int), (-1 : Int)), (-1, 1), (1, -1), (1, 1), (0, -1), (0, 1), (1, 0), (-1, 0)]).flatMap
    (fun d => rayGen b p.info.file p.info.rank d.1 d.2 16 (p.info.file + d.1) (p.info.rank + d.2))

/-- Python `King.possible_moves` (single steps plus castling). -/
def kingMoves (b : Board) (p : Piece) : List Move :=
  let file := p.info.file
  let rank := p.info.rank
  let pl := p.info.player
  let op := Player.other pl
  let standard :=
    ([((-1 : Int), (-1 : Int)), (-1, 1), (1, -1), (1, 1), (0, -1), (0, 1), (1, 0), (-1, 0)]).flatMap
      (fun d =>
        let f := file + d.1
        let r := rank + d.2
        if inRange f r then
          validated b { initialFile := file, initialRank := rank, targetFile := f, targetRank := r }
        else [])
  let castles :=
    if p.hasMoved then []
    else
      ([(1 : Int), 8]).flatMap (fun corner =>
        let rook := b.piece_at corner rank
        let dx : Int := if corner = 1 then -1 else 1
        let rookDestinationFile := file + dx
        if (match rook with
              | some rk => decide (rk.kind = .rook) && decide (rk.info.player = pl) && !rk.hasMoved
              | none => false)
            && !(b.in_check pl)
            && !(b.is_controlled rookDestinationFile rank op)
            && b.is_empty rookDestinationFile rank then
          validated b { initialFile := file, initialRank := rank, targetFile := file + 2 * dx, targetRank := rank }
        else [])
  standard ++ castles

/-- Dispatch of `piece.possible_moves(board)` over the piece kind. -/
def possible_moves (b : Board) (p : Piece) : List Move :=
  match p.kind with
  | .pawn => pawnMoves b p
  | .knight => knightMoves b p
  | .bishop => bishopMoves b p
  | .rook => rookMoves b p
  | .queen => queenMoves b p
  | .king => kingMoves b p

/-- Python `Board.is_promotion`. -/
def Board.is_promotion (b : Board) (m : Move) : Bool :=
  match b.piece_at m.initialFile m.initialRank with
  | some p =>
    decide (p.kind = .pawn)
      && decide (m.targetRank = (if p.info.player = .white then (8 : Int) else 1))
  | none => false

/-- The kind/player pattern hashed for repetition detection. -/
def signature (b : Board) : Sig :=
  b.grid.map (fun row => row.map (fun c => c.map (fun p => (p.kind, p.info.player))))

def sigCount (l : List (Sig × Nat)) (s : Sig) : Nat :=
  match l.find? (fun e => decide (e.1 = s)) with
  | some e => e.2
  | none => 0

def sigBump (l : List (Sig × Nat)) (s : Sig) : List (Sig × Nat) :=
  if l.any (fun e => decide (e.1 = s)) then
    l.map (fun e => if e.1 = s then (e.1, e.2 + 1) else e)
  else l ++ [(s, 1)]

/-- Python `Board._handle_drawn_by_repitition`. -/
def handleRep (b : Board) : Board :=
  let s := signature b
  let c := sigCount b.prevPositions s + 1
  { b with prevPositions := sigBump b.prevPositions s,
           winner := if 3 ≤ c then some .draw else b.winner }

/-- Python `Board.__iter__`: the live pieces in grid order. -/
def boardPieces (b : Board) : List Piece :=
  (b.grid.map (fun row => row.filterMap id)).flatten

/-- Live pieces of one kind (the population `len(Pawn)` etc. reads). -/
def kindPieces (b : Board) (k : PieceKind) : List Piece :=
  (boardPieces b).filter (fun p => decide (p.kind = k))

/-- Python `Board._handle_checkmate`. -/
def handleCheckmate (b : Board) : Board :=
  let victim := b.turn.other
  let drawn := !(b.in_check victim)
  if (boardPieces b).any (fun p => decide (p.info.player = victim) && !(possible_moves b p).isEmpty) then
    b
  else
    { b with winner := some (if drawn then .draw else .player b.turn) }

/-- Python `Board._handle_insufficient_material`; `none` models the
`StopIteration` escape of `next(iter(Bishop))` on an empty population. -/
def handleInsufficientMaterial (b : Board) : Option Board :=
  if 0 < (kindPieces b .pawn).length ∨ 0 < (kindPieces b .rook).length
      ∨ 0 < (kindPieces b .queen).length then
    some b
  else if 2 < (kindPieces b .bishop).length + (kindPieces b .knight).length then
    some b
  else if (kindPieces b .bishop).length + (kindPieces b .knight).length = 1 then
    some { b with winner := some .draw }
  else
    let bl := kindPieces b .bishop
    let nl := kindPieces b .knight
    let pq : Option (Piece × Piece) :=
      if bl.length = 2 then
        match bl with
        | [x, y] => some (x, y)
        | _ => none
      else if nl.length = 2 then
        match nl with
        | [x, y] => some (x, y)
        | _ => none
      else
        match bl.head?, nl.head? with
        | some x, some y => some (x, y)
        | _, _ => none
    match pq with
    | none => none
    | some (x, y) =>
      if x.info.player ≠ y.info.player then some { b with winner := some .draw }
      else some b

/-- Python `Board._handle_end_state`. -/
def handleEndState (b : Board) : Option Board :=
  let b1 := handleRep b
  if b1.winner.isSome then some b1
  else
    let b2 := handleCheckmate b1
    if b2.winner.isSome then some b2
    else handleInsufficientMaterial b2

/-- The `prev_file`/`prev_rank` bookkeeping of `Board._finalize_move`
(`piece.transform.position` is pure rendering state and is not modelled). -/
def finalizeCore (b : Board) (m : Move) : Option Board :=
  match b.piece_at m.targetFile m.targetRank with
  | none => none
  | some p =>
    let p' := { p with info := { p.info with prevFile := m.initialFile, prevRank := m.initialRank } }
    some (Board.touchKingCache { b with grid := setCell b.grid m.targetFile m.targetRank (some p') } p')

/-- Python `Board._handle_promotion`: destroy the pawn entity (a pure
entity-system effect; its grid cell is overwritten below) and create the
promoted piece, with a fresh id, on (target_file, promotion_rank). -/
def handlePromotion (b : Board) (m : Move) : Option Board :=
  match b.piece_at m.targetFile m.targetRank with
  | none => none
  | some p =>
    let pl := p.info.player
    let promotionRank : Int := if pl = .white then 8 else 1
    match m.promotion with
    | none => none
    | some k =>
      let np : Piece :=
        { id := b.nextId, kind := k,
          info := { player := pl, file := m.targetFile, rank := promotionRank,
                    prevFile := m.targetFile, prevRank := promotionRank } }
      some { b with grid := setCell b.grid m.targetFile promotionRank (some np),
                    nextId := b.nextId + 1 }

/-- `Board._finalize_move` without the castling recursion: this is exactly
what the recursive call on the paired rook move performs (the rook move never
satisfies `_is_finalize_castles`), including its own `_handle_end_state`
run.  `Piece.destroy(move.capture.id)` is an entity-system effect with no
grid component (the captured piece's square was already cleared). -/
def finalizeNC (b : Board) (m : Move) : Option Board :=
  match finalizeCore b m with
  | none => none
  | some b1 =>
    match (if m.promotion.isSome then handlePromotion b1 m else some b1) with
    | none => none
    | some b2 => handleEndState b2

/-- Python `Board._finalize_move`. -/
def finalizeMove (b : Board) (m : Move) : Option Board :=
  match (if b.isFinalizeCastles m then finalizeNC b (castlesRookMove m) else some b) with
  | none => none
  | some b1 =>
    match finalizeCore b1 m with
    | none => none
    | some b2 =>
      match (if m.promotion.isSome then handlePromotion b2 m else some b2) with
      | none => none
      | some b3 => handleEndState b3

/-- Python `Board.make_move`. -/
def make_move (b : Board) (m : Move) : Option Board :=
  match logicalMove b m with
  | none => none
  | some bm =>
    match finalizeMove bm.1 bm.2 with
    | none => none
    | some b2 => some { b2 with turn := b2.turn.other, previousMove := some bm.2 }

/-- Folding `make_move` over a move list (used to express applied-move runs). -/
def applyMoves (b : Board) : List Move → Option Board
  | [] => some b
  | m :: ms =>
    match make_move b m with
    | none => none
    | some b1 => applyMoves b1 ms

/-- Like `applyMoves`, but keeping every intermediate board: element `i` of
the resulting list is the position after the first `i` moves. -/
def applyScan (b : Board) : List Move → Option (List Board)
  | [] => some [b]
  | m :: ms =>
    match make_move b m with
    | none => none
    | some b1 => (applyScan b1 ms).map (fun l => b :: l)

/-- Helper for the initial layout: a piece that has not moved yet. -/
def mkP (id : Nat) (k : PieceKind) (pl : Player) (file rank : Int) : Piece :=
  { id := id, kind := k, info := { player := pl, file := file, rank := rank, prevFile := file, prevRank := rank } }

def emptyRow : List (Option Piece) := [none, none, none, none, none, none, none, none]

def emptyGrid : Grid := [emptyRow, emptyRow, emptyRow, emptyRow, emptyRow, emptyRow, emptyRow, emptyRow]

/-- Place a piece on its own recorded square (board-construction helper). -/
def place (g : Grid) (p : Piece) : Grid := setCell g p.info.file p.info.rank (some p)

/-- Board-construction helper for concrete test positions. -/
def mkBoard (ps : List Piece) (wk bk : Piece) (t : Player) : Board :=
  { grid := (ps ++ [wk, bk]).foldl place emptyGrid,
    turn := t,
    winner := none,
    previousMove := none,
    prevPositions := [],
    whiteKing := wk,
    blackKing := bk,
    nextId := 100 }

/-- Move-record helper (source square to destination square, no capture). -/
def mv (a b c d : Int) : Move :=
  { initialFile := a, initialRank := b, targetFile := c, targetRank := d }

/-- The standard initial board built by `Board.__init__` / `_init_entities`.
Ids follow entity creation order (`Piece.__subclasses__()` is definition
order: Pawn, Knight, Bishop, Rook, Queen, King; per initial position the
white piece is created, then the black one). -/
def initBoard : Board :=
  let wP := fun (f : Int) (i : Nat) => some (mkP i .pawn .white f 2)
  let bP := fun (f : Int) (i : Nat) => some (mkP i .pawn .black f 7)
  let wk : Piece := mkP 30 .king .white 5 1
  let bk : Piece := mkP 31 .king .black 5 8
  { grid :=
      [[some (mkP 24 .rook .white 1 1), some (mkP 16 .knight .white 2 1), some (mkP 20 .bishop .white 3 1),
        some (mkP 28 .queen .white 4 1), some wk, some (mkP 22 .bishop .white 6 1),
        some (mkP 18 .knight .white 7 1), some (mkP 26 .rook .white 8 1)],
       [wP 1 0, wP 2 2, wP 3 4, wP 4 6, wP 5 8, wP 6 10, wP 7 12, wP 8 14],
       [none, none, none, none, none, none, none, none],
       [none, none, none, none, none, none, none, none],
       [none, none, none, none, none, none, none, none],
       [none, none, none, none, none, none, none, none],
       [bP 1 1, bP 2 3, bP 3 5, bP 4 7, bP 5 9, bP 6 11, bP 7 13, bP 8 15],
       [some (mkP 25 .rook .black 1 8), some (mkP 17 .knight .black 2 8), some (mkP 21 .bishop .black 3 8),
        some (mkP 29 .queen .black 4 8), some bk, some (mkP 23 .bishop .black 6 8),
        some (mkP 19 .knight .black 7 8), some (mkP 27 .rook .black 8 8)]],
    turn := .white,
    winner := none,
    previousMove := none,
    prevPositions := [],
    whiteKing := wk,
    blackKing := bk,
    nextId := 32 }

/-- Grid shape: 8 rows of 8 cells (established by `__init__`, preserved by
every write). -/
def gridShape (g : Grid) : Bool :=
  decide (g.length = 8) && g.all (fun row => decide (row.length = 8))

/-- Placement well-formedness: every piece reachable from the grid records
exactly the square it occupies. -/
def cellsOK (g : Grid) : Bool :=
  (List.range 8).all (fun ri => (List.range 8).all (fun fi =>
    match cellGet g ((fi : Int) + 1) ((ri : Int) + 1) with
    | some p => decide (p.info.file = (fi : Int) + 1) && decide (p.info.rank = (ri : Int) + 1)
    | none => true))

/-- Id uniqueness: pieces on distinct squares have distinct entity ids. -/
def idsOK (g : Grid) : Bool :=
  (List.range 8).all (fun ri => (List.range 8).all (fun fi =>
    (List.range 8).all (fun ri' => (List.range 8).all (fun fi' =>
      match cellGet g ((fi : Int) + 1) ((ri : Int) + 1),
          cellGet g ((fi' : Int) + 1) ((ri' : Int) + 1) with
      | some p, some q => decide (p.id = q.id → (fi = fi' ∧ ri = ri'))
      | _, _ => true))))

/-- Id freshness: every id on the grid is below the entity-creation counter. -/
def idsBelow (b : Board) : Bool :=
  (boardPieces b).all (fun p => decide (p.id < b.nextId))

/-- Cache well-formedness: each cached king is the piece the grid holds on
its recorded square (the Python aliasing invariant), of the right kind and
player. -/
def cacheOK (b : Board) : Bool :=
  decide (b.piece_at b.whiteKing.info.file b.whiteKing.info.rank = some b.whiteKing)
    && decide (b.whiteKing.kind = .king) && decide (b.whiteKing.info.player = .white)
    && decide (b.piece_at b.blackKing.info.file b.blackKing.info.rank = some b.blackKing)
    && decide (b.blackKing.kind = .king) && decide (b.blackKing.info.player = .black)

/-- The standing state invariant the theorems assume; it holds for the
initial board and for every position legal play reaches. -/
def wfBoard (b : Board) : Bool :=
  gridShape b.grid && cellsOK b.grid && idsOK b.grid && cacheOK b && idsBelow b

/-- Pawn-placement reachability invariant: no pawn sits on its promotion
rank, and a pawn that has never moved sits on its home rank. -/
def pawnsOK (g : Grid) : Bool :=
  (List.range 8).all (fun ri => (List.range 8).all (fun fi =>
    match cellGet g ((fi : Int) + 1) ((ri : Int) + 1) with
    | some p =>
      if p.kind = .pawn then
        if p.info.player = .white then
          decide ((ri : Int) + 1 ≤ 7) && (p.hasMoved || decide ((ri : Int) + 1 = 2))
        else
          decide (2 ≤ (ri : Int) + 1) && (p.hasMoved || decide ((ri : Int) + 1 = 7))
      else true
    | none => true))

/-- The castling shape of `_is_castles`, phrased on the moving piece. -/
def castleShape (m : Move) (p : Piece) : Bool :=
  decide (p.kind = .king) && decide ((m.initialFile - m.targetFile).natAbs = 2)
    && decide (m.initialFile = 5)

/-- The capture `_logical_move` ends up acting on: the destination occupant
if there is one, else the capture already recorded on the move. -/
def capResolved (b : Board) (m : Move) : Option Piece :=
  if (b.piece_at m.targetFile m.targetRank).isSome then b.piece_at m.targetFile m.targetRank
  else m.capture

/-- Corner square file of the rook paired with a castle-shaped move. -/
def cornerFile (m : Move) : Int := if m.targetFile = 3 then 1 else 8

/-- Destination file of the rook paired with a castle-shaped move. -/
def rookDestFile (m : Move) : Int := if m.targetFile = 3 then 4 else 6

/-- Side conditions under which a castle-shaped move's speculative

apply/undo is exact: the corner is occupied and the rook's destination
square is free (both hold for every castle the king generator offers). -/
structure CastleOK (b : Board) (m : Move) : Prop where
  corner : ∃ x, b.piece_at (cornerFile m) m.initialRank = some x
  destEmpty : b.piece_at (rookDestFile m) m.targetRank = none
  capAway : ∀ q, m.capture = some q → b.piece_at m.targetFile m.targetRank = none →
    ¬(q.info.file = cornerFile m ∧ q.info.rank = m.initialRank)
      ∧ ¬(q.info.file = rookDestFile m ∧ q.info.rank = m.targetRank)

/-- Sanity of a move record fed to `is_valid`, beyond the two checks the
method itself performs: an in-range destination, a `capture` field that (when
the destination is empty) points at a piece actually standing on its recorded
square away from the source, and the castling side conditions; also the
swapped move must not be castle-shaped (a two-file king move INTO file 5),
since `_logical_unmove` would then pair a spurious rook move.  Every
candidate the piece generators build satisfies all of this. -/
structure MoveOK (b : Board) (m : Move) (p : Piece) : Prop where
  src : b.piece_at m.initialFile m.initialRank = some p
  tgtIn : inRange m.targetFile m.targetRank = true
  noOwn : ∀ t, b.piece_at m.targetFile m.targetRank = some t → t.info.player ≠ p.info.player
  capSane : b.piece_at m.targetFile m.targetRank = none →
    m.capture = none ∨ ∃ q, m.capture = some q ∧ b.piece_at q.info.file q.info.rank = some q
      ∧ ¬(q.info.file = m.initialFile ∧ q.info.rank = m.initialRank)
  castle : castleShape m p = true → CastleOK b m
  invCastle : ¬(p.kind = .king ∧ m.targetFile = 5 ∧ (m.initialFile - m.targetFile).natAbs = 2)

/-- Cell-level description of a completed non-castling `_logical_move`:
where the mover now stands, which squares were vacated, and that every other
square, the turn, the winner, the histories and the caches (up to the king
aliasing) are untouched. -/
structure PlainMoveFacts (b : Board) (m : Move) (p : Piece) (B1 : Board) : Prop where
  shape : gridShape B1.grid = true
  tgt : B1.piece_at m.targetFile m.targetRank = some (reloc p m.targetFile m.targetRank)
  srcE : B1.piece_at m.initialFile m.initialRank = none
  capCell : ∀ q, b.piece_at m.targetFile m.targetRank = none → m.capture = some q →
    B1.piece_at q.info.file q.info.rank = none
  others : ∀ f r, inRange f r = true →
    ¬(f = m.initialFile ∧ r = m.initialRank) → ¬(f = m.targetFile ∧ r = m.targetRank) →
    (∀ q, capResolved b m = some q → ¬(f = q.info.file ∧ r = q.info.rank)) →
    B1.piece_at f r = b.piece_at f r
  wk : B1.whiteKing = touch1 b.whiteKing (reloc p m.targetFile m.targetRank)
  bk : B1.blackKing = touch1 b.blackKing (reloc p m.targetFile m.targetRank)
  turn : B1.turn = b.turn
  winner : B1.winner = b.winner
  prevMove : B1.previousMove = b.previousMove
  prevPos : B1.prevPositions = b.prevPositions
  nid : B1.nextId = b.nextId

/-- Cell-level description of a completed castle-shaped `_logical_move` with
corner piece `x`: like `PlainMoveFacts` plus the paired rook displacement,
with the cache touched by the rook's mutation first and the king's second. -/
structure CastleMoveFacts (b : Board) (m : Move) (p x : Piece) (B1 : Board) : Prop where
  shape : gridShape B1.grid = true
  tgt : B1.piece_at m.targetFile m.targetRank = some (reloc p m.targetFile m.targetRank)
  srcE : B1.piece_at m.initialFile m.initialRank = none
  cornerE : B1.piece_at (cornerFile m) m.initialRank = none
  rookD : B1.piece_at (rookDestFile m) m.targetRank
    = some (reloc x (rookDestFile m) m.targetRank)
  capCell : ∀ q, b.piece_at m.targetFile m.targetRank = none → m.capture = some q →
    B1.piece_at q.info.file q.info.rank = none
  others : ∀ f r, inRange f r = true →
    ¬(f = m.initialFile ∧ r = m.initialRank) → ¬(f = m.targetFile ∧ r = m.targetRank) →
    ¬(f = cornerFile m ∧ r = m.initialRank) → ¬(f = rookDestFile m ∧ r = m.targetRank) →
    (∀ q, capResolved b m = some q → ¬(f = q.info.file ∧ r = q.info.rank)) →
    B1.piece_at f r = b.piece_at f r
  wk : B1.whiteKing = touch1 (touch1 b.whiteKing (reloc x (rookDestFile m) m.targetRank))
    (reloc p m.targetFile m.targetRank)
  bk : B1.blackKing = touch1 (touch1 b.blackKing (reloc x (rookDestFile m) m.targetRank))
    (reloc p m.targetFile m.targetRank)
  turn : B1.turn = b.turn
  winner : B1.winner = b.winner
  prevMove : B1.previousMove = b.previousMove
  prevPos : B1.prevPositions = b.prevPositions
  nid : B1.nextId = b.nextId

/-- Position used against claim C1: White Ke1 and Rh1 are placed for a
kingside castle, but an enemy knight stands on f1.  The castle-shaped move
e1-g1 is not offered by the generator here, yet `is_valid` accepts it as an
argument. -/
def c1Board : Board :=
  mkBoard [mkP 1 .rook .white 8 1, mkP 2 .knight .black 6 1]
    (mkP 10 .king .white 5 1) (mkP 11 .king .black 5 8) .white

/-- Position used against claim C4: White has an unmoved rook on a1 and an
unmoved king on e1, but a white knight still occupies b1.  On this position
the queenside castle would pass the king through and land on squares that
are empty, yet the b1 square the rook must cross is occupied. -/
def c4Board : Board :=
  mkBoard [mkP 1 .rook .white 1 1, mkP 2 .knight .white 2 1]
    (mkP 10 .king .white 5 1) (mkP 11 .king .black 5 8) .white

/-- Fool's mate: four plies ending with Qh4#, after which Black has won. -/
def foolsMate : List Move := [mv 6 2 6 3, mv 5 7 5 5, mv 7 2 7 4, mv 4 8 8 4]

/-- Four knight-shuffle plies (Nb1-a3, ... twice each side), which repeat the
mated position after the fool's mate. -/
def shuffle4 : List Move := [mv 2 1 1 3, mv 1 3 2 1, mv 2 1 1 3, mv 1 3 2 1]

/-- Game used against claim C5: both sides prepare and White castles
kingside (ply 7); afterwards White un-develops the castled pieces back to
their post-castle squares while Black shuffles a knight.  The position after
ply 7 recurs genuinely only once more (after ply 11), yet the game is
declared drawn there, because the castle ply recorded its resulting position
twice. -/
def c5Run : List Move :=
  [mv 7 1 6 3, mv 7 8 6 6, mv 7 2 7 3, mv 7 7 7 6, mv 6 1 7 2, mv 6 8 7 7,
   mv 5 1 7 1, mv 2 8 1 6, mv 6 3 5 1, mv 1 6 2 8, mv 5 1 6 3]

/-- Position used against claim C3: Black to move can capture the undefended
white rook on d4 with the king, leaving two bare kings on the board. -/
def c3Board : Board :=
  mkBoard [mkP 1 .rook .white 4 4]
    (mkP 10 .king .white 5 1) (mkP 11 .king .black 4 5) .black

/-- Kings plus a single white bishop. -/
def kbk : Board :=
  mkBoard [mkP 1 .bishop .white 3 1]
    (mkP 10 .king .white 5 1) (mkP 11 .king .black 5 8) .white

/-- Kings plus two white bishops (both minors on the same side). -/
def kbbSame : Board :=
  mkBoard [mkP 1 .bishop .white 3 1, mkP 2 .bishop .white 6 1]
    (mkP 10 .king .white 5 1) (mkP 11 .king .black 5 8) .white

/-- Kings plus one bishop per side standing on mismatched square-color
complexes (c1 is dark, c8 is light). -/
def kbkbOpp : Board :=
  mkBoard [mkP 1 .bishop .white 3 1, mkP 2 .bishop .black 3 8]
    (mkP 10 .king .white 5 1) (mkP 11 .king .black 5 8) .white

/-- Two bare kings. -/
def kk : Board :=
  mkBoard [] (mkP 10 .king .white 5 1) (mkP 11 .king .black 5 8) .white

/-- Position used for the claim C6 witness: a back-rank mate.  White's rook
has just arrived on a8; the black king on g8 is checked along the eighth
rank and boxed in by its own pawns on f7, g7 and h7. -/
def mateBoard : Board :=
  mkBoard [mkP 1 .rook .white 1 8, mkP 2 .pawn .black 6 7, mkP 3 .pawn .black 7 7,
      mkP 4 .pawn .black 8 7]
    (mkP 10 .king .white 7 1) (mkP 11 .king .black 7 8) .white

/-- The pawn's forward rank direction. -/
def pawnForward (p : Piece) : Int := if p.info.player = .white then 1 else -1

/-- A candidate built by the push part of `Pawn.possible_moves`. -/
def PawnPush (b : Board) (p : Piece) (cand : Move) : Prop :=
  cand.capture = none ∧ cand.targetFile = p.info.file
    ∧ b.is_empty p.info.file (p.info.rank + pawnForward p) = true
    ∧ (cand.targetRank = p.info.rank + pawnForward p
        ∨ (p.hasMoved = false ∧ cand.targetRank = p.info.rank + 2 * pawnForward p))

/-- A candidate built by the ordinary diagonal-capture part of
`Pawn.possible_moves`. -/
def PawnDiag (b : Board) (p : Piece) (cand : Move) : Prop :=
  ∃ nc dx, (dx = (-1 : Int) ∨ dx = 1) ∧ cand.targetFile = p.info.file + dx
    ∧ cand.targetRank = p.info.rank + pawnForward p
    ∧ b.piece_at (p.info.file + dx) (p.info.rank + pawnForward p) = some nc
    ∧ nc.info.player ≠ p.info.player ∧ cand.capture = some nc

/-- A candidate built by the en-passant part of `Pawn.possible_moves`: the
laterally adjacent enemy pawn was the most recent mover (compared by entity
id through `last_piece_to_move`) and advanced two ranks. -/
def PawnEP (b : Board) (p : Piece) (cand : Move) : Prop :=
  ∃ ep dx, (dx = (-1 : Int) ∨ dx = 1) ∧ cand.targetFile = p.info.file + dx
    ∧ cand.targetRank = p.info.rank + pawnForward p
    ∧ b.piece_at (p.info.file + dx) p.info.rank = some ep
    ∧ ep.kind = .pawn
    ∧ (∃ lp, b.last_piece_to_move = some lp ∧ ep.id = lp.id)
    ∧ ep.info.player ≠ p.info.player
    ∧ (ep.info.rank - ep.info.prevRank).natAbs = 2
    ∧ cand.capture = some ep

/-- A black pawn that has just advanced two squares, d7-d5. -/
def epQ : Piece :=
  { id := 1, kind := .pawn,
    info := { player := .black, file := 4, rank := 5, prevFile := 4, prevRank := 7 } }

/-- A white pawn on e5, laterally adjacent to `epQ`. -/
def epP : Piece :=
  { id := 2, kind := .pawn,
    info := { player := .white, file := 5, rank := 5, prevFile := 5, prevRank := 4 } }

/-- Position used for the claim C8 witness: Black's d-pawn has just advanced
two squares past White's e5 pawn, and the board's previous move records that
advance. -/
def epBoard : Board :=
  { mkBoard [epQ, epP] (mkP 10 .king .white 5 1) (mkP 11 .king .black 5 8) .white with
      previousMove := some (mv 4 7 4 5) }

/-- The cached king record `in_check` reads for a player. -/
def kgOf (b : Board) (pl : Player) : Piece :=
  if pl = .black then b.blackKing else b.whiteKing

/-- The `prev_file`/`prev_rank` rewrite `_finalize_move` applies to the
moved piece (its square, kind, owner and id are untouched). -/
def prevUpd (p : Piece) (f r : Int) : Piece :=
  { p with info := { p.info with prevFile := f, prevRank := r } }

/-- The replacement piece `_handle_promotion` creates. -/
def promoPiece (n : Nat) (k : PieceKind) (pl : Player) (tf pr : Int) : Piece :=
  { id := n, kind := k,
    info := { player := pl, file := tf, rank := pr, prevFile := tf, prevRank := pr } }

/-- Attack-relevant similarity of two cell contents with respect to the
attacking player `op`: same occupancy, same occupant owner, and the same
kind whenever the occupant belongs to `op` — pieces of the other owner only
ever act as blockers inside `is_controlled`, where their kind is never
read. -/
def simCell (op : Player) : Option Piece → Option Piece → Prop
  | none, none => True
  | some x, some y =>
      x.info.player = y.info.player ∧ (x.info.player = op → x.kind = y.kind)
  | _, _ => False

/-- Coherence of the cached king reference for one player: any grid occupant
carrying the cached king's entity id stands on the square the cache
records.  It follows from `wfBoard` and is maintained by the finalization
steps, which only rewrite a cell with a piece of the same id and
coordinates. -/
def KCoh (b : Board) (pl : Player) : Prop :=
  ∀ f r q, b.piece_at f r = some q → q.id = (kgOf b pl).id →
    q.info.file = (kgOf b pl).info.file ∧ q.info.rank = (kgOf b pl).info.rank

/-- King-placement reachability invariant: a king that has never moved still
stands on its initial square (file 5 of its back rank); legal play preserves
this because `has_moved` compares current and previous coordinates and the
previous coordinates are rewritten on every applied move. -/
def kingsOK (g : Grid) : Bool :=
  (List.range 8).all (fun ri => (List.range 8).all (fun fi =>
    match cellGet g ((fi : Int) + 1) ((ri : Int) + 1) with
    | some p =>
      if p.kind = .king && !p.hasMoved then
        decide (p.info.file = 5)
          && decide (p.info.rank = (if p.info.player = .white then (1 : Int) else 8))
      else true
    | none => true))

/-- What the move generators guarantee about every candidate they feed to
`is_valid`, beyond what the validation call itself checks: the candidate
starts at the generating piece's square, its destination is on the board,
a capture recorded on an empty-destination candidate points at a piece
standing on its recorded square away from the source, castle-shaped
candidates satisfy the castling side conditions, and no candidate is a
two-file king move into file 5. -/
structure GenOK (b : Board) (m : Move) (p : Piece) : Prop where
  srcF : m.initialFile = p.info.file
  srcR : m.initialRank = p.info.rank
  tgtIn : inRange m.targetFile m.targetRank = true
  capSane : b.piece_at m.targetFile m.targetRank = none →
    m.capture = none ∨ ∃ q, m.capture = some q ∧ b.piece_at q.info.file q.info.rank = some q
      ∧ ¬(q.info.file = m.initialFile ∧ q.info.rank = m.initialRank)
  castle : castleShape m p = true → CastleOK b m
  invCastle : ¬(p.kind = .king ∧ m.targetFile = 5 ∧ (m.initialFile - m.targetFile).natAbs = 2)

-- ===================== theorems =====================

theorem inRange_iff {f r : Int} : inRange f r = true ↔ 1 ≤ f ∧ f ≤ 8 ∧ 1 ≤ r ∧ r ≤ 8 := by
  simp [inRange, and_assoc]

theorem piece_at_def (b : Board) (f r : Int) :
    b.piece_at f r = if inRange f r then cellGet b.grid f r else none := by
  simp only [Board.piece_at, Board.is_empty]
  by_cases h : inRange f r = true
  · simp only [h, if_true]
    cases cellGet b.grid f r <;> simp
  · simp only [h, if_false, Bool.false_eq_true]
    simp

theorem piece_at_inRange {b : Board} {f r : Int} (h : inRange f r = true) :
    b.piece_at f r = cellGet b.grid f r := by
  rw [piece_at_def, if_pos h]

theorem piece_at_out {b : Board} {f r : Int} (h : ¬inRange f r = true) :
    b.piece_at f r = none := by
  rw [piece_at_def, if_neg h]

theorem inRange_of_piece_at {b : Board} {f r : Int} {p : Piece}
    (h : b.piece_at f r = some p) : inRange f r = true := by
  by_contra hc
  rw [piece_at_out hc] at h
  exact Option.noConfusion h

theorem toNat_lt_of_inRange {f r : Int} (h : inRange f r = true) :
    (f - 1).toNat < 8 ∧ (r - 1).toNat < 8 := by
  rw [inRange_iff] at h
  omega

theorem gridShape_iff {g : Grid} :
    gridShape g = true ↔ g.length = 8 ∧ ∀ row ∈ g, row.length = 8 := by
  simp [gridShape, List.all_eq_true]

theorem exists_row {g : Grid} (hg : gridShape g = true) {n : Nat} (hn : n < 8) :
    ∃ row, g[n]? = some row ∧ row.length = 8 := by
  rw [gridShape_iff] at hg
  have hlen : n < g.length := by omega
  exact ⟨g[n], List.getElem?_eq_getElem hlen, hg.2 _ (List.getElem_mem hlen)⟩

theorem cellGet_of_row {g : Grid} {r : Int} {row : List (Option Piece)}
    (h : g[(r - 1).toNat]? = some row) (f : Int) :
    cellGet g f r = row[(f - 1).toNat]?.join := by
  unfold cellGet
  rw [h]

theorem setCell_of_row {g : Grid} {r : Int} {row : List (Option Piece)}
    (h : g[(r - 1).toNat]? = some row) (f : Int) (v : Option Piece) :
    setCell g f r v = g.set (r - 1).toNat (row.set (f - 1).toNat v) := by
  unfold setCell
  rw [h]

theorem gridShape_setCell {g : Grid} (hg : gridShape g = true) (f r : Int) (v : Option Piece) :
    gridShape (setCell g f r v) = true := by
  unfold setCell
  cases h : g[(r - 1).toNat]? with
  | none => exact hg
  | some row =>
    rw [gridShape_iff] at hg ⊢
    refine ⟨by simp [hg.1], ?_⟩
    intro row' hrow'
    rcases List.mem_or_eq_of_mem_set hrow' with h1 | h2
    · exact hg.2 _ h1
    · subst h2
      have hmem : row ∈ g := List.getElem?_mem h
      simp [hg.2 _ hmem]

theorem cellGet_setCell_same {g : Grid} (hg : gridShape g = true) {f r : Int}
    (hfr : inRange f r = true) (v : Option Piece) : cellGet (setCell g f r v) f r = v := by
  obtain ⟨hf8, hr8⟩ := toNat_lt_of_inRange hfr
  obtain ⟨row, hrow, hlen⟩ := exists_row hg hr8
  have hglen : (r - 1).toNat < g.length := by
    rw [gridShape_iff] at hg
    omega
  rw [setCell_of_row hrow]
  rw [cellGet_of_row (by rw [List.getElem?_set_eq_of_lt _ hglen])]
  rw [List.getElem?_set_eq_of_lt _ (by omega : (f - 1).toNat < row.length)]
  rfl

theorem cellGet_setCell_ne {g : Grid} (hg : gridShape g = true) {f r f' r' : Int}
    (h1 : inRange f r = true) (h2 : inRange f' r' = true)
    (hne : ¬(f = f' ∧ r = r')) (v : Option Piece) :
    cellGet (setCell g f r v) f' r' = cellGet g f' r' := by
  have h1' := inRange_iff.1 h1
  have h2' := inRange_iff.1 h2
  obtain ⟨hf8, hr8⟩ := toNat_lt_of_inRange h1
  obtain ⟨row, hrow, hlen⟩ := exists_row hg hr8
  rw [setCell_of_row hrow]
  by_cases hr : r = r'
  · subst hr
    have hf : f ≠ f' := fun hfe => hne ⟨hfe, rfl⟩
    have hglen : (r - 1).toNat < g.length := by
      rw [gridShape_iff] at hg
      omega
    rw [cellGet_of_row (by rw [List.getElem?_set_eq_of_lt _ hglen]),
        cellGet_of_row hrow]
    rw [List.getElem?_set_ne (by omega : (f - 1).toNat ≠ (f' - 1).toNat)]
  · unfold cellGet
    rw [List.getElem?_set_ne (by omega : (r - 1).toNat ≠ (r' - 1).toNat)]

theorem grid_ext {g g' : Grid} (hg : gridShape g = true) (hg' : gridShape g' = true)
    (h : ∀ f r : Int, inRange f r = true → cellGet g f r = cellGet g' f r) : g = g' := by
  apply List.ext_getElem?
  intro n
  by_cases hn : n < 8
  · obtain ⟨row, hrow, hlen⟩ := exists_row hg hn
    obtain ⟨row', hrow', hlen'⟩ := exists_row hg' hn
    rw [hrow, hrow']
    congr 1
    apply List.ext_getElem?
    intro k
    by_cases hk : k < 8
    · have hcell := h ((k : Int) + 1) ((n : Int) + 1) (by rw [inRange_iff]; omega)
      rw [cellGet_of_row (by rw [show (((n : Int) + 1) - 1).toNat = n by omega]; exact hrow),
          cellGet_of_row (by rw [show (((n : Int) + 1) - 1).toNat = n by omega]; exact hrow')] at hcell
      rw [show ((((k : Int) + 1) - 1)).toNat = k by omega] at hcell
      rw [List.getElem?_eq_getElem (by omega : k < row.length),
          List.getElem?_eq_getElem (by omega : k < row'.length)] at hcell ⊢
      simpa using hcell
    · rw [List.getElem?_eq_none (by omega), List.getElem?_eq_none (by omega)]
  · have hl : g.length = 8 := (gridShape_iff.1 hg).1
    have hl' : g'.length = 8 := (gridShape_iff.1 hg').1
    rw [List.getElem?_eq_none (by omega), List.getElem?_eq_none (by omega)]

theorem cellsOK_spec {g : Grid} (hc : cellsOK g = true) {f r : Int}
    (hfr : inRange f r = true) {p : Piece} (hp : cellGet g f r = some p) :
    p.info.file = f ∧ p.info.rank = r := by
  have hfr' := inRange_iff.1 hfr
  simp only [cellsOK, List.all_eq_true, List.mem_range] at hc
  have := hc (r - 1).toNat (by omega) (f - 1).toNat (by omega)
  rw [show ((((f - 1).toNat : Int)) + 1) = f by omega,
      show ((((r - 1).toNat : Int)) + 1) = r by omega, hp] at this
  simpa using this

theorem idsOK_spec {g : Grid} (hi : idsOK g = true) {f r f' r' : Int}
    (h1 : inRange f r = true) (h2 : inRange f' r' = true)
    {p q : Piece} (hp : cellGet g f r = some p) (hq : cellGet g f' r' = some q)
    (hid : p.id = q.id) : f = f' ∧ r = r' := by
  have h1' := inRange_iff.1 h1
  have h2' := inRange_iff.1 h2
  simp only [idsOK, List.all_eq_true, List.mem_range] at hi
  have := hi (r - 1).toNat (by omega) (f - 1).toNat (by omega)
    (r' - 1).toNat (by omega) (f' - 1).toNat (by omega)
  rw [show ((((f - 1).toNat : Int)) + 1) = f by omega,
      show ((((r - 1).toNat : Int)) + 1) = r by omega,
      show ((((f' - 1).toNat : Int)) + 1) = f' by omega,
      show ((((r' - 1).toNat : Int)) + 1) = r' by omega, hp, hq] at this
  simp only [decide_eq_true_iff] at this
  have hres := this hid
  omega

theorem wfBoard_spec {b : Board} (h : wfBoard b = true) :
    gridShape b.grid = true ∧ cellsOK b.grid = true ∧ idsOK b.grid = true
      ∧ cacheOK b = true ∧ idsBelow b = true := by
  simp only [wfBoard, Bool.and_eq_true] at h
  tauto

theorem cacheOK_spec {b : Board} (h : cacheOK b = true) :
    b.piece_at b.whiteKing.info.file b.whiteKing.info.rank = some b.whiteKing
      ∧ b.whiteKing.kind = .king ∧ b.whiteKing.info.player = .white
      ∧ b.piece_at b.blackKing.info.file b.blackKing.info.rank = some b.blackKing
      ∧ b.blackKing.kind = .king ∧ b.blackKing.info.player = .black := by
  simp only [cacheOK, Bool.and_eq_true, decide_eq_true_iff] at h
  tauto

theorem setCell_setCell_same {g : Grid} (hg : gridShape g = true) {f r : Int}
    (hfr : inRange f r = true) (v w : Option Piece) :
    setCell (setCell g f r v) f r w = setCell g f r w := by
  have hg1 := gridShape_setCell hg f r v
  apply grid_ext (gridShape_setCell hg1 f r w) (gridShape_setCell hg f r w)
  intro f' r' h'
  by_cases hc : f = f' ∧ r = r'
  · obtain ⟨rfl, rfl⟩ := hc
    rw [cellGet_setCell_same hg1 hfr, cellGet_setCell_same hg hfr]
  · rw [cellGet_setCell_ne hg1 hfr h' hc, cellGet_setCell_ne hg hfr h' hc,
      cellGet_setCell_ne hg hfr h' hc]

theorem capResolved_occupied {b : Board} {m : Move} {t : Piece}
    (ht : b.piece_at m.targetFile m.targetRank = some t) :
    capResolved b m = some t := by
  simp [capResolved, ht]

theorem capResolved_empty {b : Board} {m : Move}
    (ht : b.piece_at m.targetFile m.targetRank = none) :
    capResolved b m = m.capture := by
  simp [capResolved, ht]

theorem capturePhase_occupied {b : Board} {m : Move} {t : Piece}
    (ht : b.piece_at m.targetFile m.targetRank = some t) :
    capturePhase b m
      = ({ b with grid := setCell b.grid t.info.file t.info.rank none },
         { m with capture := some t }) := by
  simp [capturePhase, ht]

theorem capturePhase_empty_none {b : Board} {m : Move}
    (ht : b.piece_at m.targetFile m.targetRank = none) (hc : m.capture = none) :
    capturePhase b m = (b, m) := by
  simp [capturePhase, ht, hc]

theorem capturePhase_empty_some {b : Board} {m : Move} {q : Piece}
    (ht : b.piece_at m.targetFile m.targetRank = none) (hc : m.capture = some q) :
    capturePhase b m = ({ b with grid := setCell b.grid q.info.file q.info.rank none }, m) := by
  simp [capturePhase, ht, hc]

theorem MoveOK.srcNeTgt {b : Board} {m : Move} {p : Piece} (h : MoveOK b m p) :
    ¬(m.initialFile = m.targetFile ∧ m.initialRank = m.targetRank) := by
  rintro ⟨h1, h2⟩
  have hsrc := h.src
  rw [h1, h2] at hsrc
  exact h.noOwn p hsrc rfl

theorem moveTail_spec {b : Board} {m : Move} {p : Piece} (m1 : Move)
    (hg : gridShape b.grid = true)
    (hp : b.piece_at m.initialFile m.initialRank = some p)
    (htr : inRange m.targetFile m.targetRank = true)
    (hne : ¬(m.initialFile = m.targetFile ∧ m.initialRank = m.targetRank)) :
    moveTail b m m1
      = some (Board.touchKingCache
          { b with grid := setCell (setCell b.grid m.initialFile m.initialRank
                              (cellGet b.grid m.targetFile m.targetRank))
                     m.targetFile m.targetRank (some (reloc p m.targetFile m.targetRank)) }
          (reloc p m.targetFile m.targetRank), m1) := by
  have hsr := inRange_of_piece_at hp
  have hswap : swapCells (setCell b.grid m.initialFile m.initialRank
        (some (reloc p m.targetFile m.targetRank)))
        m.initialFile m.initialRank m.targetFile m.targetRank
      = setCell (setCell b.grid m.initialFile m.initialRank
          (cellGet b.grid m.targetFile m.targetRank))
          m.targetFile m.targetRank (some (reloc p m.targetFile m.targetRank)) := by
    simp only [swapCells]
    rw [cellGet_setCell_same hg hsr, cellGet_setCell_ne hg hsr htr hne,
        setCell_setCell_same hg hsr]
  simp only [moveTail, hp, Board.touchKingCache]
  rw [hswap]

theorem capturePhase_spec {b : Board} {m : Move} {p : Piece}
    (hw : wfBoard b = true) (hm : MoveOK b m p) :
    ∃ gc, capturePhase b m = ({ b with grid := gc }, { m with capture := capResolved b m })
      ∧ gridShape gc = true
      ∧ cellGet gc m.initialFile m.initialRank = some p
      ∧ cellGet gc m.targetFile m.targetRank = none
      ∧ (∀ q, capResolved b m = some q → inRange q.info.file q.info.rank = true
          ∧ cellGet gc q.info.file q.info.rank = none
          ∧ (b.piece_at m.targetFile m.targetRank = none →
              ¬(q.info.file = m.initialFile ∧ q.info.rank = m.initialRank)
              ∧ ¬(q.info.file = m.targetFile ∧ q.info.rank = m.targetRank)))
      ∧ (∀ f r, inRange f r = true →
          (∀ q, capResolved b m = some q → ¬(f = q.info.file ∧ r = q.info.rank)) →
          cellGet gc f r = cellGet b.grid f r) := by
  obtain ⟨hg, hcells, hids, hcache, hbelow⟩ := wfBoard_spec hw
  have hsrcIn := inRange_of_piece_at hm.src
  have hsrcCell : cellGet b.grid m.initialFile m.initialRank = some p := by
    rw [← piece_at_inRange hsrcIn]; exact hm.src
  have hne := hm.srcNeTgt
  cases ht : b.piece_at m.targetFile m.targetRank with
  | some t =>
    have htIn := hm.tgtIn
    have htCell : cellGet b.grid m.targetFile m.targetRank = some t := by
      rw [← piece_at_inRange htIn]; exact ht
    obtain ⟨htf, htr⟩ := cellsOK_spec hcells htIn htCell
    have hres : capResolved b m = some t := capResolved_occupied ht
    refine ⟨setCell b.grid m.targetFile m.targetRank none, ?_, ?_, ?_, ?_, ?_, ?_⟩
    · have hco := capturePhase_occupied ht
      rw [htf, htr] at hco
      rw [hres]
      exact hco
    · exact gridShape_setCell hg _ _ _
    · rw [cellGet_setCell_ne hg htIn hsrcIn
        (fun hc => hne ⟨hc.1.symm, hc.2.symm⟩)]
      exact hsrcCell
    · exact cellGet_setCell_same hg htIn _
    · intro q hq
      rw [hres] at hq
      cases hq
      refine ⟨by rw [htf, htr]; exact htIn, ?_, ?_⟩
      · rw [htf, htr]; exact cellGet_setCell_same hg htIn _
      · intro hcontra
        simp [ht] at hcontra
    · intro f r hfr hq
      have := hq t hres
      rw [htf, htr] at this
      exact cellGet_setCell_ne hg htIn hfr (fun hc => this ⟨hc.1.symm, hc.2.symm⟩) none
  | none =>
    have hres : capResolved b m = m.capture := capResolved_empty ht
    have htCell : cellGet b.grid m.targetFile m.targetRank = none := by
      rw [← piece_at_inRange hm.tgtIn]; exact ht
    rcases hm.capSane ht with hc | ⟨q, hc, hqgrid, hqsrc⟩
    · refine ⟨b.grid, ?_, hg, hsrcCell, htCell, ?_, fun f r _ _ => rfl⟩
      · rw [hres]
        exact capturePhase_empty_none ht hc
      · intro q hq
        rw [hres, hc] at hq
        exact Option.noConfusion hq
    · have hqIn := inRange_of_piece_at hqgrid
      have hqCell : cellGet b.grid q.info.file q.info.rank = some q := by
        rw [← piece_at_inRange hqIn]; exact hqgrid
      have hqtgt : ¬(q.info.file = m.targetFile ∧ q.info.rank = m.targetRank) := by
        rintro ⟨h1, h2⟩
        rw [h1, h2, htCell] at hqCell
        exact Option.noConfusion hqCell
      refine ⟨setCell b.grid q.info.file q.info.rank none, ?_, ?_, ?_, ?_, ?_, ?_⟩
      · rw [hres]
        exact capturePhase_empty_some ht hc
      · exact gridShape_setCell hg _ _ _
      · rw [cellGet_setCell_ne hg hqIn hsrcIn hqsrc]
        exact hsrcCell
      · rw [cellGet_setCell_ne hg hqIn hm.tgtIn hqtgt]
        exact htCell
      · intro q' hq'
        rw [hres, hc] at hq'
        cases hq'
        exact ⟨hqIn, cellGet_setCell_same hg hqIn _, fun _ => ⟨hqsrc, hqtgt⟩⟩
      · intro f r hfr hq'
        have := hq' q (by rw [hres, hc])
        exact cellGet_setCell_ne hg hqIn hfr (fun hc' => this ⟨hc'.1.symm, hc'.2.symm⟩) none

theorem logicalMove_plain {b : Board} {m : Move} {p : Piece}
    (hw : wfBoard b = true) (hm : MoveOK b m p) (hsh : castleShape m p = false) :
    ∃ B1, logicalMove b m = some (B1, { m with capture := capResolved b m })
      ∧ PlainMoveFacts b m p B1 := by
  obtain ⟨hg, hcells, hids, hcache, hbelow⟩ := wfBoard_spec hw
  obtain ⟨gc, hcp, hgc, hsrc, htgtE, hqfact, hother⟩ := capturePhase_spec hw hm
  have hsrcIn := inRange_of_piece_at hm.src
  have hne := hm.srcNeTgt
  have hne2 : ¬(m.targetFile = m.initialFile ∧ m.targetRank = m.initialRank) :=
    fun hc => hne ⟨hc.1.symm, hc.2.symm⟩
  have hbc_src : Board.piece_at { b with grid := gc } m.initialFile m.initialRank = some p := by
    rw [piece_at_inRange hsrcIn]; exact hsrc
  have hcast : Board.isCastles { b with grid := gc } m = false := by
    unfold Board.isCastles
    rw [hbc_src]
    unfold castleShape at hsh
    exact hsh
  have hmt := moveTail_spec (b := { b with grid := gc })
    { m with capture := capResolved b m } hgc hbc_src hm.tgtIn hne
  rw [htgtE] at hmt
  have hlm : logicalMove b m
      = some (Board.touchKingCache
          { b with grid := setCell (setCell gc m.initialFile m.initialRank none)
                     m.targetFile m.targetRank (some (reloc p m.targetFile m.targetRank)) }
          (reloc p m.targetFile m.targetRank),
        { m with capture := capResolved b m }) := by
    simp only [logicalMove, hcp]
    rw [hcast]
    simp only [Bool.false_eq_true, if_false]
    exact hmt
  refine ⟨_, hlm, ?_⟩
  · have hg2 := gridShape_setCell hgc m.initialFile m.initialRank (none : Option Piece)
    have hg3 := gridShape_setCell hg2 m.targetFile m.targetRank
      (some (reloc p m.targetFile m.targetRank))
    refine ⟨hg3, ?_, ?_, ?_, ?_, rfl, rfl, rfl, rfl, rfl, rfl, rfl⟩
    · simp only [Board.touchKingCache, piece_at_inRange hm.tgtIn]
      exact cellGet_setCell_same hg2 hm.tgtIn _
    · simp only [Board.touchKingCache, piece_at_inRange hsrcIn]
      rw [cellGet_setCell_ne hg2 hm.tgtIn hsrcIn hne2]
      exact cellGet_setCell_same hgc hsrcIn _
    · intro q htE hcapq
      have hres : capResolved b m = some q := by
        rw [capResolved_empty htE, hcapq]
      obtain ⟨hqIn, hqgc, hqaway⟩ := hqfact q hres
      obtain ⟨hqs, hqt⟩ := hqaway htE
      simp only [Board.touchKingCache, piece_at_inRange hqIn]
      rw [cellGet_setCell_ne hg2 hm.tgtIn hqIn (fun hc => hqt ⟨hc.1.symm, hc.2.symm⟩),
        cellGet_setCell_ne hgc hsrcIn hqIn (fun hc => hqs ⟨hc.1.symm, hc.2.symm⟩)]
      exact hqgc
    · intro f r hfr hnsrc hntgt hnq
      simp only [Board.touchKingCache, piece_at_inRange hfr]
      rw [cellGet_setCell_ne hg2 hm.tgtIn hfr (fun hc => hntgt ⟨hc.1.symm, hc.2.symm⟩),
        cellGet_setCell_ne hgc hsrcIn hfr (fun hc => hnsrc ⟨hc.1.symm, hc.2.symm⟩)]
      exact hother f r hfr hnq

theorem castlesRookMove_fields (m : Move) :
    (castlesRookMove m).initialFile = cornerFile m
      ∧ (castlesRookMove m).initialRank = m.initialRank
      ∧ (castlesRookMove m).targetFile = rookDestFile m
      ∧ (castlesRookMove m).targetRank = m.targetRank
      ∧ (castlesRookMove m).capture = none
      ∧ (castlesRookMove m).promotion = none := by
  unfold castlesRookMove cornerFile rookDestFile
  split <;> exact ⟨rfl, rfl, rfl, rfl, rfl, rfl⟩

theorem castleShape_files {m : Move} {p : Piece} (hsh : castleShape m p = true) :
    p.kind = .king ∧ m.initialFile = 5 ∧ (m.targetFile = 3 ∨ m.targetFile = 7) := by
  simp only [castleShape, Bool.and_eq_true, decide_eq_true_iff] at hsh
  refine ⟨hsh.1.1, hsh.2, ?_⟩
  have h1 := hsh.1.2
  have h2 := hsh.2
  omega

theorem logicalMove_castle {b : Board} {m : Move} {p : Piece}
    (hw : wfBoard b = true) (hm : MoveOK b m p) (hsh : castleShape m p = true) :
    ∃ B1 x, b.piece_at (cornerFile m) m.initialRank = some x
      ∧ logicalMove b m = some (B1, { m with capture := capResolved b m })
      ∧ CastleMoveFacts b m p x B1 := by
  obtain ⟨hg, hcells, hids, hcache, hbelow⟩ := wfBoard_spec hw
  obtain ⟨gc, hcp, hgc, hsrc, htgtE, hqfact, hother⟩ := capturePhase_spec hw hm
  obtain ⟨hking, hif5, htf37⟩ := castleShape_files hsh
  obtain ⟨⟨x, hxat⟩, hdestE, hcapAway⟩ := hm.castle hsh
  obtain ⟨hrmIF, hrmIR, hrmTF, hrmTR, hrmCap, hrmProm⟩ := castlesRookMove_fields m
  have hsrcIn := inRange_of_piece_at hm.src
  have hne := hm.srcNeTgt
  have hne2 : ¬(m.targetFile = m.initialFile ∧ m.targetRank = m.initialRank) :=
    fun hc => hne ⟨hc.1.symm, hc.2.symm⟩
  have hcornIn : inRange (cornerFile m) m.initialRank = true := inRange_of_piece_at hxat
  have hcf : cornerFile m = 1 ∨ cornerFile m = 8 := by
    unfold cornerFile
    split <;> simp
  have hrdf : rookDestFile m = 4 ∨ rookDestFile m = 6 := by
    unfold rookDestFile
    split <;> simp
  have hrdIn : inRange (rookDestFile m) m.targetRank = true := by
    rw [inRange_iff]
    have := inRange_iff.1 hm.tgtIn
    omega
  -- every capture the move resolves to stays away from the corner and the
  -- rook destination square
  have hqAway : ∀ q, capResolved b m = some q →
      ¬(cornerFile m = q.info.file ∧ m.initialRank = q.info.rank)
        ∧ ¬(rookDestFile m = q.info.file ∧ m.targetRank = q.info.rank) := by
    intro q hq
    cases ht : b.piece_at m.targetFile m.targetRank with
    | some t =>
      rw [capResolved_occupied ht] at hq
      cases hq
      have htCell : cellGet b.grid m.targetFile m.targetRank = some q := by
        rw [← piece_at_inRange hm.tgtIn]; exact ht
      obtain ⟨htf, htr⟩ := cellsOK_spec hcells hm.tgtIn htCell
      constructor
      · rintro ⟨h1, _⟩
        rw [htf] at h1
        obtain h3 | h3 := htf37 <;> obtain h4 | h4 := hcf <;> omega
      · rintro ⟨h1, _⟩
        rw [htf] at h1
        obtain h3 | h3 := htf37 <;> obtain h4 | h4 := hrdf <;> omega
    | none =>
      rw [capResolved_empty ht] at hq
      obtain ⟨ha, hb⟩ := hcapAway q hq ht
      exact ⟨fun hc => ha ⟨hc.1.symm, hc.2.symm⟩, fun hc => hb ⟨hc.1.symm, hc.2.symm⟩⟩
  have hxCell : cellGet b.grid (cornerFile m) m.initialRank = some x := by
    rw [← piece_at_inRange hcornIn]; exact hxat
  have hdCell : cellGet b.grid (rookDestFile m) m.targetRank = none := by
    rw [← piece_at_inRange hrdIn]; exact hdestE
  -- corner and rook destination in the post-capture grid
  have hgcCorn : cellGet gc (cornerFile m) m.initialRank = some x := by
    rw [hother _ _ hcornIn (fun q hq => (hqAway q hq).1)]
    exact hxCell
  have hgcDest : cellGet gc (rookDestFile m) m.targetRank = none := by
    rw [hother _ _ hrdIn (fun q hq => (hqAway q hq).2)]
    exact hdCell
  -- file arithmetic used for all the cell separations
  have hcfne : ∀ a : Int, (a = 5 ∨ a = m.targetFile ∨ a = rookDestFile m) →
      cornerFile m ≠ a := by
    intro a ha
    obtain h4 | h4 := hcf <;> obtain h3 | h3 := htf37 <;> obtain h5 | h5 := hrdf <;> omega
  have hrdne : ∀ a : Int, (a = 5 ∨ a = m.targetFile) → rookDestFile m ≠ a := by
    intro a ha
    obtain h5 | h5 := hrdf <;> obtain h3 | h3 := htf37 <;> omega
  -- the rook leg: capture phase is trivial, then the rook slides
  have hbc_dest : Board.piece_at { b with grid := gc } (rookDestFile m) m.targetRank = none := by
    rw [piece_at_inRange hrdIn]
    exact hgcDest
  have hbc_corn : Board.piece_at { b with grid := gc } (cornerFile m) m.initialRank = some x := by
    rw [piece_at_inRange hcornIn]
    exact hgcCorn
  have hbc_src : Board.piece_at { b with grid := gc } m.initialFile m.initialRank = some p := by
    rw [piece_at_inRange hsrcIn]; exact hsrc
  have hcastT : Board.isCastles { b with grid := gc } m = true := by
    unfold Board.isCastles
    rw [hbc_src]
    unfold castleShape at hsh
    exact hsh
  have hrt_src : Board.piece_at { b with grid := gc } (castlesRookMove m).initialFile
      (castlesRookMove m).initialRank = some x := by
    rw [hrmIF, hrmIR]
    exact hbc_corn
  have hrt_tIn : inRange (castlesRookMove m).targetFile (castlesRookMove m).targetRank = true := by
    rw [hrmTF, hrmTR]
    exact hrdIn
  have hrt_ne : ¬((castlesRookMove m).initialFile = (castlesRookMove m).targetFile
      ∧ (castlesRookMove m).initialRank = (castlesRookMove m).targetRank) := by
    rw [hrmIF, hrmTF]
    rintro ⟨h1, _⟩
    exact hcfne (rookDestFile m) (Or.inr (Or.inr rfl)) h1
  have hmtR := moveTail_spec (b := { b with grid := gc }) (m := castlesRookMove m)
    (castlesRookMove m) hgc hrt_src hrt_tIn hrt_ne
  have hNC : logicalNC { b with grid := gc } (castlesRookMove m)
      = some (Board.touchKingCache
          { b with grid := setCell (setCell gc (cornerFile m) m.initialRank none)
                     (rookDestFile m) m.targetRank
                     (some (reloc x (rookDestFile m) m.targetRank)) }
          (reloc x (rookDestFile m) m.targetRank), castlesRookMove m) := by
    have hcpR : capturePhase { b with grid := gc } (castlesRookMove m)
        = ({ b with grid := gc }, castlesRookMove m) := by
      apply capturePhase_empty_none
      · rw [hrmTF, hrmTR]
        exact hbc_dest
      · exact hrmCap
    simp only [logicalNC, hcpR]
    rw [hmtR, hrmIF, hrmIR, hrmTF, hrmTR]
    rw [show cellGet gc (rookDestFile m) m.targetRank = none from hgcDest]
  -- the king leg on top of the rook-shuffled board
  have hgr : gridShape (setCell (setCell gc (cornerFile m) m.initialRank none)
      (rookDestFile m) m.targetRank (some (reloc x (rookDestFile m) m.targetRank))) = true :=
    gridShape_setCell (gridShape_setCell hgc _ _ _) _ _ _
  have hgr1 : gridShape (setCell gc (cornerFile m) m.initialRank (none : Option Piece)) = true :=
    gridShape_setCell hgc _ _ _
  have hgrSrc : cellGet (setCell (setCell gc (cornerFile m) m.initialRank none)
      (rookDestFile m) m.targetRank (some (reloc x (rookDestFile m) m.targetRank)))
      m.initialFile m.initialRank = some p := by
    rw [cellGet_setCell_ne hgr1 hrdIn hsrcIn
        (fun hc => hrdne 5 (Or.inl rfl) (hif5 ▸ hc.1)),
      cellGet_setCell_ne hgc hcornIn hsrcIn
        (fun hc => hcfne 5 (Or.inl rfl) (hif5 ▸ hc.1))]
    exact hsrc
  have hgrTgt : cellGet (setCell (setCell gc (cornerFile m) m.initialRank none)
      (rookDestFile m) m.targetRank (some (reloc x (rookDestFile m) m.targetRank)))
      m.targetFile m.targetRank = none := by
    rw [cellGet_setCell_ne hgr1 hrdIn hm.tgtIn
        (fun hc => hrdne m.targetFile (Or.inr rfl) hc.1),
      cellGet_setCell_ne hgc hcornIn hm.tgtIn
        (fun hc => hcfne m.targetFile (Or.inr (Or.inl rfl)) hc.1)]
    exact htgtE
  have hbr_src : Board.piece_at (Board.touchKingCache
      { b with
          grid := setCell (setCell gc (cornerFile m) m.initialRank none) (rookDestFile m)
                    m.targetRank (some (reloc x (rookDestFile m) m.targetRank)) }
      (reloc x (rookDestFile m) m.targetRank)) m.initialFile m.initialRank = some p := by
    simp only [Board.touchKingCache, piece_at_inRange hsrcIn]
    exact hgrSrc
  have hmtK := moveTail_spec (b := Board.touchKingCache
      { b with
          grid := setCell (setCell gc (cornerFile m) m.initialRank none) (rookDestFile m)
                    m.targetRank (some (reloc x (rookDestFile m) m.targetRank)) }
      (reloc x (rookDestFile m) m.targetRank)) (m := m)
    { m with capture := capResolved b m } hgr hbr_src hm.tgtIn hne
  rw [show cellGet (Board.touchKingCache
      { b with
          grid := setCell (setCell gc (cornerFile m) m.initialRank none) (rookDestFile m)
                    m.targetRank (some (reloc x (rookDestFile m) m.targetRank)) }
      (reloc x (rookDestFile m) m.targetRank)).grid m.targetFile m.targetRank = none
      from hgrTgt] at hmtK
  have hlm : logicalMove b m
      = some (Board.touchKingCache
          { b with
            grid := setCell (setCell (setCell (setCell gc (cornerFile m) m.initialRank none)
                      (rookDestFile m) m.targetRank
                      (some (reloc x (rookDestFile m) m.targetRank)))
                      m.initialFile m.initialRank none)
                      m.targetFile m.targetRank (some (reloc p m.targetFile m.targetRank)),
            whiteKing := touch1 b.whiteKing (reloc x (rookDestFile m) m.targetRank),
            blackKing := touch1 b.blackKing (reloc x (rookDestFile m) m.targetRank) }
          (reloc p m.targetFile m.targetRank),
        { m with capture := capResolved b m }) := by
    simp only [logicalMove, hcp]
    rw [hcastT]
    simp only [if_true, hNC, Option.map_some]
    exact hmtK
  refine ⟨_, x, hxat, hlm, ?_⟩
  have hg4 := gridShape_setCell hgr m.initialFile m.initialRank (none : Option Piece)
  have hg5 := gridShape_setCell hg4 m.targetFile m.targetRank
    (some (reloc p m.targetFile m.targetRank))
  refine ⟨hg5, ?_, ?_, ?_, ?_, ?_, ?_, rfl, rfl, rfl, rfl, rfl, rfl, rfl⟩
  · simp only [Board.touchKingCache, piece_at_inRange hm.tgtIn]
    exact cellGet_setCell_same hg4 hm.tgtIn _
  · simp only [Board.touchKingCache, piece_at_inRange hsrcIn]
    rw [cellGet_setCell_ne hg4 hm.tgtIn hsrcIn hne2]
    exact cellGet_setCell_same hgr hsrcIn _
  · simp only [Board.touchKingCache, piece_at_inRange hcornIn]
    rw [cellGet_setCell_ne hg4 hm.tgtIn hcornIn
        (fun hc => hcfne m.targetFile (Or.inr (Or.inl rfl)) hc.1.symm),
      cellGet_setCell_ne hgr hsrcIn hcornIn
        (fun hc => hcfne 5 (Or.inl rfl) (hif5 ▸ hc.1.symm)),
      cellGet_setCell_ne hgr1 hrdIn hcornIn
        (fun hc => hcfne (rookDestFile m) (Or.inr (Or.inr rfl)) hc.1.symm)]
    exact cellGet_setCell_same hgc hcornIn _
  · simp only [Board.touchKingCache, piece_at_inRange hrdIn]
    rw [cellGet_setCell_ne hg4 hm.tgtIn hrdIn
        (fun hc => hrdne m.targetFile (Or.inr rfl) hc.1.symm),
      cellGet_setCell_ne hgr hsrcIn hrdIn
        (fun hc => hrdne 5 (Or.inl rfl) (hif5 ▸ hc.1.symm))]
    exact cellGet_setCell_same hgr1 hrdIn _
  · intro q htE hcapq
    have hres : capResolved b m = some q := by
      rw [capResolved_empty htE, hcapq]
    obtain ⟨hqIn, hqgc, hqaway⟩ := hqfact q hres
    obtain ⟨hqs, hqt⟩ := hqaway htE
    obtain ⟨hqc, hqd⟩ := hqAway q hres
    simp only [Board.touchKingCache, piece_at_inRange hqIn]
    rw [cellGet_setCell_ne hg4 hm.tgtIn hqIn (fun hc => hqt ⟨hc.1.symm, hc.2.symm⟩),
      cellGet_setCell_ne hgr hsrcIn hqIn (fun hc => hqs ⟨hc.1.symm, hc.2.symm⟩),
      cellGet_setCell_ne hgr1 hrdIn hqIn (fun hc => hqd ⟨hc.1, hc.2⟩),
      cellGet_setCell_ne hgc hcornIn hqIn (fun hc => hqc ⟨hc.1, hc.2⟩)]
    exact hqgc
  · intro f r hfr hnsrc hntgt hncorn hnrd hnq
    simp only [Board.touchKingCache, piece_at_inRange hfr]
    rw [cellGet_setCell_ne hg4 hm.tgtIn hfr (fun hc => hntgt ⟨hc.1.symm, hc.2.symm⟩),
      cellGet_setCell_ne hgr hsrcIn hfr (fun hc => hnsrc ⟨hc.1.symm, hc.2.symm⟩),
      cellGet_setCell_ne hgr1 hrdIn hfr (fun hc => hnrd ⟨hc.1.symm, hc.2.symm⟩),
      cellGet_setCell_ne hgc hcornIn hfr (fun hc => hncorn ⟨hc.1.symm, hc.2.symm⟩)]
    exact hother f r hfr hnq

theorem reloc_reloc (p : Piece) (a c : Int) (e d : Int) :
    reloc (reloc p a c) e d = reloc p e d := rfl

theorem reloc_id (p : Piece) (a c : Int) : (reloc p a c).id = p.id := rfl

theorem reloc_self {p : Piece} {f r : Int} (hf : p.info.file = f) (hr : p.info.rank = r) :
    reloc p f r = p := by
  cases p with
  | mk id kind info =>
    cases info
    simp_all [reloc]

theorem Board.ext_fields {b1 b2 : Board} (hg : b1.grid = b2.grid) (ht : b1.turn = b2.turn)
    (hw : b1.winner = b2.winner) (hpm : b1.previousMove = b2.previousMove)
    (hpp : b1.prevPositions = b2.prevPositions) (hwk : b1.whiteKing = b2.whiteKing)
    (hbk : b1.blackKing = b2.blackKing) (hn : b1.nextId = b2.nextId) : b1 = b2 := by
  cases b1
  cases b2
  simp_all

theorem grid_id_eq {b : Board} (hw : wfBoard b = true) {f r f' r' : Int} {p q : Piece}
    (hp : b.piece_at f r = some p) (hq : b.piece_at f' r' = some q)
    (hid : p.id = q.id) : p = q := by
  obtain ⟨hg, hcells, hids, hcache, hbelow⟩ := wfBoard_spec hw
  have hfIn := inRange_of_piece_at hp
  have hfIn' := inRange_of_piece_at hq
  have hpc : cellGet b.grid f r = some p := by rw [← piece_at_inRange hfIn]; exact hp
  have hqc : cellGet b.grid f' r' = some q := by rw [← piece_at_inRange hfIn']; exact hq
  obtain ⟨he1, he2⟩ := idsOK_spec hids hfIn hfIn' hpc hqc hid
  rw [he1, he2, hqc] at hpc
  exact (Option.some_injective _ hpc).symm

theorem touch1_roundtrip {w p : Piece} (hwp : p.id = w.id → p = w) {p' : Piece}
    (hp' : p'.id = p.id) : touch1 (touch1 w p') p = w := by
  by_cases h1 : p.id = w.id
  · have hin : touch1 w p' = p' := by
      unfold touch1
      rw [if_pos (hp'.trans h1)]
    rw [hin]
    unfold touch1
    rw [if_pos hp'.symm]
    exact hwp h1
  · have hin : touch1 w p' = w := by
      unfold touch1
      rw [if_neg (fun hc => h1 (hp'.symm.trans hc))]
    rw [hin]
    unfold touch1
    rw [if_neg h1]

theorem touch1_roundtrip2 {w p x : Piece} (hpx : p.id ≠ x.id)
    (hwp : p.id = w.id → p = w) (hwx : x.id = w.id → x = w)
    {p' x' : Piece} (hp' : p'.id = p.id) (hx' : x'.id = x.id) :
    touch1 (touch1 (touch1 (touch1 w x') p') p) x = w := by
  by_cases h1 : p.id = w.id
  · have hxw : ¬x.id = w.id := fun hc => hpx (h1.trans hc.symm)
    have e1 : touch1 w x' = w := by
      unfold touch1
      rw [if_neg (fun hc => hxw (hx'.symm.trans hc))]
    have e2 : touch1 w p' = p' := by
      unfold touch1
      rw [if_pos (hp'.trans h1)]
    have e3 : touch1 p' p = p := by
      unfold touch1
      rw [if_pos hp'.symm]
    have e4 : touch1 p x = p := by
      unfold touch1
      rw [if_neg (fun hc => hpx hc.symm)]
    rw [e1, e2, e3, e4]
    exact hwp h1
  · by_cases h2 : x.id = w.id
    · have e1 : touch1 w x' = x' := by
        unfold touch1
        rw [if_pos (hx'.trans h2)]
      have e2 : touch1 x' p' = x' := by
        unfold touch1
        rw [if_neg (fun hc => h1 ((hp'.symm.trans hc).trans (hx'.trans h2)))]
      have e3 : touch1 x' p = x' := by
        unfold touch1
        rw [if_neg (fun hc => h1 (hc.trans (hx'.trans h2)))]
      have e4 : touch1 x' x = x := by
        unfold touch1
        rw [if_pos hx'.symm]
      rw [e1, e2, e3, e4]
      exact hwx h2
    · have e1 : touch1 w x' = w := by
        unfold touch1
        rw [if_neg (fun hc => h2 (hx'.symm.trans hc))]
      have e2 : touch1 w p' = w := by
        unfold touch1
        rw [if_neg (fun hc => h1 (hp'.symm.trans hc))]
      have e3 : touch1 w p = w := by
        unfold touch1
        rw [if_neg h1]
      have e4 : touch1 w x = w := by
        unfold touch1
        rw [if_neg h2]
      rw [e1, e2, e3, e4]

theorem restoreCapture_fields (b : Board) (m : Move) :
    (restoreCapture b m).turn = b.turn ∧ (restoreCapture b m).winner = b.winner
      ∧ (restoreCapture b m).previousMove = b.previousMove
      ∧ (restoreCapture b m).prevPositions = b.prevPositions
      ∧ (restoreCapture b m).whiteKing = b.whiteKing
      ∧ (restoreCapture b m).blackKing = b.blackKing
      ∧ (restoreCapture b m).nextId = b.nextId := by
  unfold restoreCapture
  cases m.capture <;> exact ⟨rfl, rfl, rfl, rfl, rfl, rfl, rfl⟩

theorem unmove_plain {b : Board} {m : Move} {p : Piece} {B1 : Board}
    (hw : wfBoard b = true) (hm : MoveOK b m p) (hsh : castleShape m p = false)
    (F : PlainMoveFacts b m p B1) :
    unmove B1 { m with capture := capResolved b m } = some b := by
  obtain ⟨hg, hcells, hids, hcache, hbelow⟩ := wfBoard_spec hw
  obtain ⟨hcWg, hcWk, hcWp, hcBg, hcBk, hcBp⟩ := cacheOK_spec hcache
  have hsrcIn := inRange_of_piece_at hm.src
  have hne := hm.srcNeTgt
  have hne2 : ¬(m.targetFile = m.initialFile ∧ m.targetRank = m.initialRank) :=
    fun hc => hne ⟨hc.1.symm, hc.2.symm⟩
  have hsrcCell : cellGet b.grid m.initialFile m.initialRank = some p := by
    rw [← piece_at_inRange hsrcIn]
    exact hm.src
  obtain ⟨hpf, hpr⟩ := cellsOK_spec hcells hsrcIn hsrcCell
  have hB1srcCell : cellGet B1.grid m.initialFile m.initialRank = none := by
    rw [← piece_at_inRange hsrcIn]
    exact F.srcE
  -- the inverse king slide
  have hcap1 : capturePhase B1 (inverseMove { m with capture := capResolved b m })
      = (B1, inverseMove { m with capture := capResolved b m }) :=
    capturePhase_empty_none F.srcE rfl
  have hmtI := moveTail_spec (b := B1)
    (m := inverseMove { m with capture := capResolved b m })
    (inverseMove { m with capture := capResolved b m }) F.shape F.tgt hsrcIn hne2
  rw [show cellGet B1.grid (inverseMove { m with capture := capResolved b m }).targetFile
        (inverseMove { m with capture := capResolved b m }).targetRank = none
      from hB1srcCell] at hmtI
  rw [show reloc (reloc p m.targetFile m.targetRank)
        (inverseMove { m with capture := capResolved b m }).targetFile
        (inverseMove { m with capture := capResolved b m }).targetRank = p
      from (reloc_reloc ..).trans (reloc_self hpf hpr)] at hmtI
  have hcastInv : Board.isCastles B1 (inverseMove { m with capture := capResolved b m })
      = false := by
    unfold Board.isCastles
    rw [show B1.piece_at (inverseMove { m with capture := capResolved b m }).initialFile
          (inverseMove { m with capture := capResolved b m }).initialRank
        = some (reloc p m.targetFile m.targetRank) from F.tgt]
    rw [Bool.eq_false_iff]
    intro hcon
    simp only [Bool.and_eq_true, decide_eq_true_iff, reloc, inverseMove] at hcon
    refine hm.invCastle ⟨hcon.1.1, hcon.2, ?_⟩
    have := hcon.1.2
    omega
  have hlmInv : logicalMove B1 (inverseMove { m with capture := capResolved b m })
      = some (Board.touchKingCache
          { B1 with grid := setCell (setCell B1.grid m.targetFile m.targetRank none)
                      m.initialFile m.initialRank (some p) } p,
        inverseMove { m with capture := capResolved b m }) := by
    simp only [logicalMove, hcap1]
    rw [hcastInv]
    simp only [Bool.false_eq_true, if_false]
    exact hmtI
  have hG1 := gridShape_setCell F.shape m.targetFile m.targetRank (none : Option Piece)
  have hG2 := gridShape_setCell hG1 m.initialFile m.initialRank (some p)
  have hb1src : Board.piece_at (Board.touchKingCache
      { B1 with grid := setCell (setCell B1.grid m.targetFile m.targetRank none)
                  m.initialFile m.initialRank (some p) } p)
      m.initialFile m.initialRank = some p := by
    simp only [Board.touchKingCache, piece_at_inRange hsrcIn]
    exact cellGet_setCell_same hG1 hsrcIn _
  have hcast2 : Board.isCastles (Board.touchKingCache
      { B1 with grid := setCell (setCell B1.grid m.targetFile m.targetRank none)
                  m.initialFile m.initialRank (some p) } p)
      { m with capture := capResolved b m } = false := by
    unfold Board.isCastles
    rw [show Board.piece_at (Board.touchKingCache
        { B1 with grid := setCell (setCell B1.grid m.targetFile m.targetRank none)
                    m.initialFile m.initialRank (some p) } p)
        ({ m with capture := capResolved b m } : Move).initialFile
        ({ m with capture := capResolved b m } : Move).initialRank = some p from hb1src]
    exact hsh
  simp only [unmove, hlmInv, hcast2, Bool.false_eq_true, if_false]
  -- it remains to see that restoring the capture recreates the original board
  refine congrArg some (Board.ext_fields ?_
    (((restoreCapture_fields _ _).1).trans F.turn)
    (((restoreCapture_fields _ _).2.1).trans F.winner)
    (((restoreCapture_fields _ _).2.2.1).trans F.prevMove)
    (((restoreCapture_fields _ _).2.2.2.1).trans F.prevPos)
    (((restoreCapture_fields _ _).2.2.2.2.1).trans ?_)
    (((restoreCapture_fields _ _).2.2.2.2.2.1).trans ?_)
    (((restoreCapture_fields _ _).2.2.2.2.2.2).trans F.nid))
  · -- the grid is restored cell by cell
    simp only [restoreCapture]
    cases hcr : capResolved b m with
    | none =>
      have htE : b.piece_at m.targetFile m.targetRank = none := by
        cases ht : b.piece_at m.targetFile m.targetRank with
        | none => rfl
        | some t => rw [capResolved_occupied ht] at hcr; exact Option.noConfusion hcr
      show setCell (setCell B1.grid m.targetFile m.targetRank none)
          m.initialFile m.initialRank (some p) = b.grid
      apply grid_ext hG2 hg
      intro f r hfr
      by_cases hfsrc : f = m.initialFile ∧ r = m.initialRank
      · obtain ⟨rfl, rfl⟩ := hfsrc
        rw [cellGet_setCell_same hG1 hsrcIn, hsrcCell]
      · rw [cellGet_setCell_ne hG1 hsrcIn hfr (fun hc => hfsrc ⟨hc.1.symm, hc.2.symm⟩)]
        by_cases hftgt : f = m.targetFile ∧ r = m.targetRank
        · obtain ⟨rfl, rfl⟩ := hftgt
          rw [cellGet_setCell_same F.shape hm.tgtIn, ← piece_at_inRange hm.tgtIn, htE]
        · rw [cellGet_setCell_ne F.shape hm.tgtIn hfr (fun hc => hftgt ⟨hc.1.symm, hc.2.symm⟩),
            ← piece_at_inRange (b := B1) hfr, ← piece_at_inRange (b := b) hfr]
          exact F.others f r hfr hfsrc hftgt
            (fun q hq => by rw [hcr] at hq; exact Option.noConfusion hq)
    | some q =>
      have hqIn : inRange q.info.file q.info.rank = true
          ∧ b.piece_at q.info.file q.info.rank = some q := by
        cases ht : b.piece_at m.targetFile m.targetRank with
        | some t =>
          rw [capResolved_occupied ht] at hcr
          cases hcr
          have htCell : cellGet b.grid m.targetFile m.targetRank = some q := by
            rw [← piece_at_inRange hm.tgtIn]; exact ht
          obtain ⟨hqf, hqr⟩ := cellsOK_spec hcells hm.tgtIn htCell
          rw [hqf, hqr]
          exact ⟨hm.tgtIn, ht⟩
        | none =>
          rw [capResolved_empty ht] at hcr
          rcases hm.capSane ht with hc | ⟨q', hc, hq', _⟩
          · rw [hc] at hcr; exact Option.noConfusion hcr
          · rw [hc] at hcr
            cases hcr
            exact ⟨inRange_of_piece_at hq', hq'⟩
      show setCell (setCell (setCell B1.grid m.targetFile m.targetRank none)
          m.initialFile m.initialRank (some p)) q.info.file q.info.rank (some q) = b.grid
      apply grid_ext (gridShape_setCell hG2 _ _ _) hg
      intro f r hfr
      by_cases hfq : f = q.info.file ∧ r = q.info.rank
      · obtain ⟨rfl, rfl⟩ := hfq
        rw [cellGet_setCell_same hG2 hqIn.1, ← piece_at_inRange hqIn.1, hqIn.2]
      · rw [cellGet_setCell_ne hG2 hqIn.1 hfr (fun hc => hfq ⟨hc.1.symm, hc.2.symm⟩)]
        by_cases hfsrc : f = m.initialFile ∧ r = m.initialRank
        · obtain ⟨rfl, rfl⟩ := hfsrc
          rw [cellGet_setCell_same hG1 hsrcIn, hsrcCell]
        · rw [cellGet_setCell_ne hG1 hsrcIn hfr (fun hc => hfsrc ⟨hc.1.symm, hc.2.symm⟩)]
          by_cases hftgt : f = m.targetFile ∧ r = m.targetRank
          · obtain ⟨rfl, rfl⟩ := hftgt
            rw [cellGet_setCell_same F.shape hm.tgtIn]
            cases ht : b.piece_at m.targetFile m.targetRank with
            | some t =>
              rw [capResolved_occupied ht] at hcr
              cases hcr
              have htCell : cellGet b.grid m.targetFile m.targetRank = some q := by
                rw [← piece_at_inRange hm.tgtIn]; exact ht
              obtain ⟨hqf, hqr⟩ := cellsOK_spec hcells hm.tgtIn htCell
              exact absurd ⟨hqf.symm, hqr.symm⟩ hfq
            | none =>
              rw [← piece_at_inRange hm.tgtIn, ht]
          · rw [cellGet_setCell_ne F.shape hm.tgtIn hfr
                (fun hc => hftgt ⟨hc.1.symm, hc.2.symm⟩),
              ← piece_at_inRange (b := B1) hfr, ← piece_at_inRange (b := b) hfr]
            exact F.others f r hfr hfsrc hftgt
              (fun q' hq' => by
                rw [hcr] at hq'
                cases hq'
                exact hfq)
  · show touch1 B1.whiteKing p = b.whiteKing
    rw [F.wk]
    exact touch1_roundtrip (fun hid => grid_id_eq hw hm.src hcWg hid) (reloc_id ..)
  · show touch1 B1.blackKing p = b.blackKing
    rw [F.bk]
    exact touch1_roundtrip (fun hid => grid_id_eq hw hm.src hcBg hid) (reloc_id ..)

theorem unmove_castle {b : Board} {m : Move} {p x : Piece} {B1 : Board}
    (hw : wfBoard b = true) (hm : MoveOK b m p) (hsh : castleShape m p = true)
    (hxat : b.piece_at (cornerFile m) m.initialRank = some x)
    (F : CastleMoveFacts b m p x B1) :
    unmove B1 { m with capture := capResolved b m } = some b := by
  obtain ⟨hg, hcells, hids, hcache, hbelow⟩ := wfBoard_spec hw
  obtain ⟨hcWg, hcWk, hcWp, hcBg, hcBk, hcBp⟩ := cacheOK_spec hcache
  obtain ⟨hking, hif5, htf37⟩ := castleShape_files hsh
  have hdestE := (hm.castle hsh).destEmpty
  have hcapAway := (hm.castle hsh).capAway
  obtain ⟨hrmIF, hrmIR, hrmTF, hrmTR, hrmCap, hrmProm⟩ := castlesRookMove_fields m
  have hsrcIn := inRange_of_piece_at hm.src
  have hcornIn := inRange_of_piece_at hxat
  have hne := hm.srcNeTgt
  have hne2 : ¬(m.targetFile = m.initialFile ∧ m.targetRank = m.initialRank) :=
    fun hc => hne ⟨hc.1.symm, hc.2.symm⟩
  have hsrcCell : cellGet b.grid m.initialFile m.initialRank = some p := by
    rw [← piece_at_inRange hsrcIn]
    exact hm.src
  have hxCell : cellGet b.grid (cornerFile m) m.initialRank = some x := by
    rw [← piece_at_inRange hcornIn]
    exact hxat
  obtain ⟨hpf, hpr⟩ := cellsOK_spec hcells hsrcIn hsrcCell
  obtain ⟨hxf, hxr⟩ := cellsOK_spec hcells hcornIn hxCell
  have hcf : cornerFile m = 1 ∨ cornerFile m = 8 := by
    unfold cornerFile
    split <;> simp
  have hrdf : rookDestFile m = 4 ∨ rookDestFile m = 6 := by
    unfold rookDestFile
    split <;> simp
  have hrdIn : inRange (rookDestFile m) m.targetRank = true := by
    rw [inRange_iff]
    have := inRange_iff.1 hm.tgtIn
    omega
  have hB1srcCell : cellGet B1.grid m.initialFile m.initialRank = none := by
    rw [← piece_at_inRange hsrcIn]
    exact F.srcE
  -- the inverse king slide
  have hcap1 : capturePhase B1 (inverseMove { m with capture := capResolved b m })
      = (B1, inverseMove { m with capture := capResolved b m }) :=
    capturePhase_empty_none F.srcE rfl
  have hmtI := moveTail_spec (b := B1)
    (m := inverseMove { m with capture := capResolved b m })
    (inverseMove { m with capture := capResolved b m }) F.shape F.tgt hsrcIn hne2
  rw [show cellGet B1.grid (inverseMove { m with capture := capResolved b m }).targetFile
        (inverseMove { m with capture := capResolved b m }).targetRank = none
      from hB1srcCell] at hmtI
  rw [show reloc (reloc p m.targetFile m.targetRank)
        (inverseMove { m with capture := capResolved b m }).targetFile
        (inverseMove { m with capture := capResolved b m }).targetRank = p
      from (reloc_reloc ..).trans (reloc_self hpf hpr)] at hmtI
  have hcastInv : Board.isCastles B1 (inverseMove { m with capture := capResolved b m })
      = false := by
    unfold Board.isCastles
    rw [show B1.piece_at (inverseMove { m with capture := capResolved b m }).initialFile
          (inverseMove { m with capture := capResolved b m }).initialRank
        = some (reloc p m.targetFile m.targetRank) from F.tgt]
    rw [Bool.eq_false_iff]
    intro hcon
    simp only [Bool.and_eq_true, decide_eq_true_iff, reloc, inverseMove] at hcon
    have := hcon.2
    omega
  have hlmInv : logicalMove B1 (inverseMove { m with capture := capResolved b m })
      = some (Board.touchKingCache
          { B1 with grid := setCell (setCell B1.grid m.targetFile m.targetRank none)
                      m.initialFile m.initialRank (some p) } p,
        inverseMove { m with capture := capResolved b m }) := by
    simp only [logicalMove, hcap1]
    rw [hcastInv]
    simp only [Bool.false_eq_true, if_false]
    exact hmtI
  have hG1 := gridShape_setCell F.shape m.targetFile m.targetRank (none : Option Piece)
  have hG2 := gridShape_setCell hG1 m.initialFile m.initialRank (some p)
  have hb1src : Board.piece_at (Board.touchKingCache
      { B1 with grid := setCell (setCell B1.grid m.targetFile m.targetRank none)
                  m.initialFile m.initialRank (some p) } p)
      m.initialFile m.initialRank = some p := by
    simp only [Board.touchKingCache, piece_at_inRange hsrcIn]
    exact cellGet_setCell_same hG1 hsrcIn _
  have hcast2 : Board.isCastles (Board.touchKingCache
      { B1 with grid := setCell (setCell B1.grid m.targetFile m.targetRank none)
                  m.initialFile m.initialRank (some p) } p)
      { m with capture := capResolved b m } = true := by
    unfold Board.isCastles
    rw [show Board.piece_at (Board.touchKingCache
        { B1 with grid := setCell (setCell B1.grid m.targetFile m.targetRank none)
                    m.initialFile m.initialRank (some p) } p)
        ({ m with capture := capResolved b m } : Move).initialFile
        ({ m with capture := capResolved b m } : Move).initialRank = some p from hb1src]
    exact hsh
  -- the rook slides back: reads of the intermediate grid
  have hG1corn : cellGet (setCell (setCell B1.grid m.targetFile m.targetRank none)
      m.initialFile m.initialRank (some p)) (cornerFile m) m.initialRank = none := by
    rw [cellGet_setCell_ne hG1 hsrcIn hcornIn
        (fun hc => by obtain h4 | h4 := hcf <;> omega),
      cellGet_setCell_ne F.shape hm.tgtIn hcornIn
        (fun hc => by obtain h4 | h4 := hcf <;> obtain h3 | h3 := htf37 <;> omega),
      ← piece_at_inRange hcornIn]
    exact F.cornerE
  have hG1rd : cellGet (setCell (setCell B1.grid m.targetFile m.targetRank none)
      m.initialFile m.initialRank (some p)) (rookDestFile m) m.targetRank
      = some (reloc x (rookDestFile m) m.targetRank) := by
    rw [cellGet_setCell_ne hG1 hsrcIn hrdIn
        (fun hc => by obtain h5 | h5 := hrdf <;> omega),
      cellGet_setCell_ne F.shape hm.tgtIn hrdIn
        (fun hc => by obtain h5 | h5 := hrdf <;> obtain h3 | h3 := htf37 <;> omega),
      ← piece_at_inRange hrdIn]
    exact F.rookD
  have hinvR : inverseMove (castlesRookMove { m with capture := capResolved b m })
      = { initialFile := rookDestFile m, initialRank := m.targetRank,
          targetFile := cornerFile m, targetRank := m.initialRank } := by
    show inverseMove (castlesRookMove m) = _
    unfold castlesRookMove inverseMove cornerFile rookDestFile
    split <;> rfl
  have hb1corn : Board.piece_at (Board.touchKingCache
      { B1 with grid := setCell (setCell B1.grid m.targetFile m.targetRank none)
                  m.initialFile m.initialRank (some p) } p)
      (cornerFile m) m.initialRank = none := by
    simp only [Board.touchKingCache, piece_at_inRange hcornIn]
    exact hG1corn
  have hb1rd : Board.piece_at (Board.touchKingCache
      { B1 with grid := setCell (setCell B1.grid m.targetFile m.targetRank none)
                  m.initialFile m.initialRank (some p) } p)
      (rookDestFile m) m.targetRank = some (reloc x (rookDestFile m) m.targetRank) := by
    simp only [Board.touchKingCache, piece_at_inRange hrdIn]
    exact hG1rd
  have hcapR : capturePhase (Board.touchKingCache
      { B1 with grid := setCell (setCell B1.grid m.targetFile m.targetRank none)
                  m.initialFile m.initialRank (some p) } p)
      { initialFile := rookDestFile m, initialRank := m.targetRank,
        targetFile := cornerFile m, targetRank := m.initialRank }
      = (Board.touchKingCache
          { B1 with grid := setCell (setCell B1.grid m.targetFile m.targetRank none)
                      m.initialFile m.initialRank (some p) } p,
        { initialFile := rookDestFile m, initialRank := m.targetRank,
          targetFile := cornerFile m, targetRank := m.initialRank }) :=
    capturePhase_empty_none hb1corn rfl
  have hcastR : Board.isCastles (Board.touchKingCache
      { B1 with grid := setCell (setCell B1.grid m.targetFile m.targetRank none)
                  m.initialFile m.initialRank (some p) } p)
      { initialFile := rookDestFile m, initialRank := m.targetRank,
        targetFile := cornerFile m, targetRank := m.initialRank } = false := by
    unfold Board.isCastles
    rw [show Board.piece_at (Board.touchKingCache
        { B1 with grid := setCell (setCell B1.grid m.targetFile m.targetRank none)
                    m.initialFile m.initialRank (some p) } p)
        (rookDestFile m) m.targetRank = some (reloc x (rookDestFile m) m.targetRank)
      from hb1rd]
    rw [Bool.eq_false_iff]
    intro hcon
    simp only [Bool.and_eq_true, decide_eq_true_iff] at hcon
    have := hcon.2
    obtain h5 | h5 := hrdf <;> omega
  have hmtR := moveTail_spec (b := Board.touchKingCache
      { B1 with grid := setCell (setCell B1.grid m.targetFile m.targetRank none)
                  m.initialFile m.initialRank (some p) } p)
    (m := { initialFile := rookDestFile m, initialRank := m.targetRank,
            targetFile := cornerFile m, targetRank := m.initialRank })
    { initialFile := rookDestFile m, initialRank := m.targetRank,
      targetFile := cornerFile m, targetRank := m.initialRank }
    hG2 hb1rd hcornIn
    (fun hc => by
      have h1 : rookDestFile m = cornerFile m := hc.1
      obtain h5 | h5 := hrdf <;> obtain h4 | h4 := hcf <;> omega)
  simp only [Board.touchKingCache] at hmtR
  rw [show cellGet (setCell (setCell B1.grid m.targetFile m.targetRank none)
        m.initialFile m.initialRank (some p)) (cornerFile m) m.initialRank = none
      from hG1corn] at hmtR
  rw [show reloc (reloc x (rookDestFile m) m.targetRank) (cornerFile m) m.initialRank = x
      from (reloc_reloc ..).trans (reloc_self hxf hxr)] at hmtR
  have hlmR : logicalMove (Board.touchKingCache
      { B1 with grid := setCell (setCell B1.grid m.targetFile m.targetRank none)
                  m.initialFile m.initialRank (some p) } p)
      { initialFile := rookDestFile m, initialRank := m.targetRank,
        targetFile := cornerFile m, targetRank := m.initialRank }
      = some (Board.touchKingCache
          { B1 with
              grid := setCell (setCell (setCell (setCell B1.grid m.targetFile m.targetRank none)
                        m.initialFile m.initialRank (some p))
                        (rookDestFile m) m.targetRank none)
                        (cornerFile m) m.initialRank (some x),
              whiteKing := touch1 B1.whiteKing p,
              blackKing := touch1 B1.blackKing p } x,
        { initialFile := rookDestFile m, initialRank := m.targetRank,
          targetFile := cornerFile m, targetRank := m.initialRank }) := by
    simp only [logicalMove, hcapR]
    rw [hcastR]
    simp only [Bool.false_eq_true, if_false]
    exact hmtR
  have hNC2 : unmoveNC (Board.touchKingCache
      { B1 with grid := setCell (setCell B1.grid m.targetFile m.targetRank none)
                  m.initialFile m.initialRank (some p) } p)
      (castlesRookMove { m with capture := capResolved b m })
      = some (Board.touchKingCache
          { B1 with
              grid := setCell (setCell (setCell (setCell B1.grid m.targetFile m.targetRank none)
                        m.initialFile m.initialRank (some p))
                        (rookDestFile m) m.targetRank none)
                        (cornerFile m) m.initialRank (some x),
              whiteKing := touch1 B1.whiteKing p,
              blackKing := touch1 B1.blackKing p } x) := by
    simp only [unmoveNC, hinvR, hlmR]
    show some (restoreCapture _ _) = _
    unfold restoreCapture
    rw [show (castlesRookMove { m with capture := capResolved b m }).capture = none
      from hrmCap]
  simp only [unmove, hlmInv, hcast2, if_true,
    show castlesRookMove { m with capture := capResolved b m }
      = castlesRookMove { m with capture := capResolved b m } from rfl, hNC2]
  -- restore the capture and compare with the original board field by field
  have hpx : p.id ≠ x.id := by
    intro hid
    have hpx' := grid_id_eq hw hm.src hxat hid
    rw [hpx', hxf] at hpf
    obtain h4 | h4 := hcf <;> omega
  have hG3 := gridShape_setCell hG2 (rookDestFile m) m.targetRank (none : Option Piece)
  have hG4 := gridShape_setCell hG3 (cornerFile m) m.initialRank (some x)
  have hqAway : ∀ q, capResolved b m = some q →
      ¬(cornerFile m = q.info.file ∧ m.initialRank = q.info.rank)
        ∧ ¬(rookDestFile m = q.info.file ∧ m.targetRank = q.info.rank) := by
    intro q hq
    cases ht : b.piece_at m.targetFile m.targetRank with
    | some t =>
      rw [capResolved_occupied ht] at hq
      cases hq
      have htCell : cellGet b.grid m.targetFile m.targetRank = some q := by
        rw [← piece_at_inRange hm.tgtIn]; exact ht
      obtain ⟨hqf, hqr⟩ := cellsOK_spec hcells hm.tgtIn htCell
      constructor
      · rintro ⟨h1, _⟩
        rw [hqf] at h1
        obtain h3 | h3 := htf37 <;> obtain h4 | h4 := hcf <;> omega
      · rintro ⟨h1, _⟩
        rw [hqf] at h1
        obtain h3 | h3 := htf37 <;> obtain h5 | h5 := hrdf <;> omega
    | none =>
      rw [capResolved_empty ht] at hq
      obtain ⟨ha, hb'⟩ := hcapAway q hq ht
      exact ⟨fun hc => ha ⟨hc.1.symm, hc.2.symm⟩, fun hc => hb' ⟨hc.1.symm, hc.2.symm⟩⟩
  refine congrArg some (Board.ext_fields ?_
    (((restoreCapture_fields _ _).1).trans F.turn)
    (((restoreCapture_fields _ _).2.1).trans F.winner)
    (((restoreCapture_fields _ _).2.2.1).trans F.prevMove)
    (((restoreCapture_fields _ _).2.2.2.1).trans F.prevPos)
    (((restoreCapture_fields _ _).2.2.2.2.1).trans ?_)
    (((restoreCapture_fields _ _).2.2.2.2.2.1).trans ?_)
    (((restoreCapture_fields _ _).2.2.2.2.2.2).trans F.nid))
  · -- the grid is restored cell by cell
    simp only [restoreCapture]
    cases hcr : capResolved b m with
    | none =>
      have htE : b.piece_at m.targetFile m.targetRank = none := by
        cases ht : b.piece_at m.targetFile m.targetRank with
        | none => rfl
        | some t => rw [capResolved_occupied ht] at hcr; exact Option.noConfusion hcr
      show setCell (setCell (setCell (setCell B1.grid m.targetFile m.targetRank none)
          m.initialFile m.initialRank (some p)) (rookDestFile m) m.targetRank none)
          (cornerFile m) m.initialRank (some x) = b.grid
      apply grid_ext hG4 hg
      intro f r hfr
      by_cases hfcorn : f = cornerFile m ∧ r = m.initialRank
      · obtain ⟨rfl, rfl⟩ := hfcorn
        rw [cellGet_setCell_same hG3 hcornIn, hxCell]
      · rw [cellGet_setCell_ne hG3 hcornIn hfr (fun hc => hfcorn ⟨hc.1.symm, hc.2.symm⟩)]
        by_cases hfrd : f = rookDestFile m ∧ r = m.targetRank
        · obtain ⟨rfl, rfl⟩ := hfrd
          rw [cellGet_setCell_same hG2 hrdIn, ← piece_at_inRange hrdIn, hdestE]
        · rw [cellGet_setCell_ne hG2 hrdIn hfr (fun hc => hfrd ⟨hc.1.symm, hc.2.symm⟩)]
          by_cases hfsrc : f = m.initialFile ∧ r = m.initialRank
          · obtain ⟨rfl, rfl⟩ := hfsrc
            rw [cellGet_setCell_same hG1 hsrcIn, hsrcCell]
          · rw [cellGet_setCell_ne hG1 hsrcIn hfr (fun hc => hfsrc ⟨hc.1.symm, hc.2.symm⟩)]
            by_cases hftgt : f = m.targetFile ∧ r = m.targetRank
            · obtain ⟨rfl, rfl⟩ := hftgt
              rw [cellGet_setCell_same F.shape hm.tgtIn, ← piece_at_inRange hm.tgtIn, htE]
            · rw [cellGet_setCell_ne F.shape hm.tgtIn hfr
                  (fun hc => hftgt ⟨hc.1.symm, hc.2.symm⟩),
                ← piece_at_inRange (b := B1) hfr, ← piece_at_inRange (b := b) hfr]
              exact F.others f r hfr hfsrc hftgt hfcorn hfrd
                (fun q hq => by rw [hcr] at hq; exact Option.noConfusion hq)
    | some q =>
      have hqIn : inRange q.info.file q.info.rank = true
          ∧ b.piece_at q.info.file q.info.rank = some q := by
        cases ht : b.piece_at m.targetFile m.targetRank with
        | some t =>
          rw [capResolved_occupied ht] at hcr
          cases hcr
          have htCell : cellGet b.grid m.targetFile m.targetRank = some q := by
            rw [← piece_at_inRange hm.tgtIn]; exact ht
          obtain ⟨hqf, hqr⟩ := cellsOK_spec hcells hm.tgtIn htCell
          rw [hqf, hqr]
          exact ⟨hm.tgtIn, ht⟩
        | none =>
          rw [capResolved_empty ht] at hcr
          rcases hm.capSane ht with hc | ⟨q', hc, hq', _⟩
          · rw [hc] at hcr; exact Option.noConfusion hcr
          · rw [hc] at hcr
            cases hcr
            exact ⟨inRange_of_piece_at hq', hq'⟩
      obtain ⟨hqc, hqd⟩ := hqAway q hcr
      show setCell (setCell (setCell (setCell (setCell B1.grid m.targetFile m.targetRank none)
          m.initialFile m.initialRank (some p)) (rookDestFile m) m.targetRank none)
          (cornerFile m) m.initialRank (some x)) q.info.file q.info.rank (some q) = b.grid
      apply grid_ext (gridShape_setCell hG4 _ _ _) hg
      intro f r hfr
      by_cases hfq : f = q.info.file ∧ r = q.info.rank
      · obtain ⟨rfl, rfl⟩ := hfq
        rw [cellGet_setCell_same hG4 hqIn.1, ← piece_at_inRange hqIn.1, hqIn.2]
      · rw [cellGet_setCell_ne hG4 hqIn.1 hfr (fun hc => hfq ⟨hc.1.symm, hc.2.symm⟩)]
        by_cases hfcorn : f = cornerFile m ∧ r = m.initialRank
        · obtain ⟨rfl, rfl⟩ := hfcorn
          rw [cellGet_setCell_same hG3 hcornIn, hxCell]
        · rw [cellGet_setCell_ne hG3 hcornIn hfr (fun hc => hfcorn ⟨hc.1.symm, hc.2.symm⟩)]
          by_cases hfrd : f = rookDestFile m ∧ r = m.targetRank
          · obtain ⟨rfl, rfl⟩ := hfrd
            rw [cellGet_setCell_same hG2 hrdIn, ← piece_at_inRange hrdIn, hdestE]
          · rw [cellGet_setCell_ne hG2 hrdIn hfr (fun hc => hfrd ⟨hc.1.symm, hc.2.symm⟩)]
            by_cases hfsrc : f = m.initialFile ∧ r = m.initialRank
            · obtain ⟨rfl, rfl⟩ := hfsrc
              rw [cellGet_setCell_same hG1 hsrcIn, hsrcCell]
            · rw [cellGet_setCell_ne hG1 hsrcIn hfr (fun hc => hfsrc ⟨hc.1.symm, hc.2.symm⟩)]
              by_cases hftgt : f = m.targetFile ∧ r = m.targetRank
              · obtain ⟨rfl, rfl⟩ := hftgt
                rw [cellGet_setCell_same F.shape hm.tgtIn]
                cases ht : b.piece_at m.targetFile m.targetRank with
                | some t =>
                  rw [capResolved_occupied ht] at hcr
                  cases hcr
                  have htCell : cellGet b.grid m.targetFile m.targetRank = some q := by
                    rw [← piece_at_inRange hm.tgtIn]; exact ht
                  obtain ⟨hqf, hqr⟩ := cellsOK_spec hcells hm.tgtIn htCell
                  exact absurd ⟨hqf.symm, hqr.symm⟩ hfq
                | none =>
                  rw [← piece_at_inRange hm.tgtIn, ht]
              · rw [cellGet_setCell_ne F.shape hm.tgtIn hfr
                    (fun hc => hftgt ⟨hc.1.symm, hc.2.symm⟩),
                  ← piece_at_inRange (b := B1) hfr, ← piece_at_inRange (b := b) hfr]
                exact F.others f r hfr hfsrc hftgt hfcorn hfrd
                  (fun q' hq' => by
                    rw [hcr] at hq'
                    cases hq'
                    exact hfq)
  · show touch1 (touch1 B1.whiteKing p) x = b.whiteKing
    rw [F.wk]
    exact touch1_roundtrip2 hpx
      (fun hid => grid_id_eq hw hm.src hcWg hid)
      (fun hid => grid_id_eq hw hxat hcWg hid)
      (reloc_id ..) (reloc_id ..)
  · show touch1 (touch1 B1.blackKing p) x = b.blackKing
    rw [F.bk]
    exact touch1_roundtrip2 hpx
      (fun hid => grid_id_eq hw hm.src hcBg hid)
      (fun hid => grid_id_eq hw hxat hcBg hid)
      (reloc_id ..) (reloc_id ..)

theorem is_valid_exact {b : Board} {m : Move} {p : Piece}
    (hw : wfBoard b = true) (hm : MoveOK b m p) :
    ∃ B1, logicalMove b m = some (B1, { m with capture := capResolved b m })
      ∧ b.is_validFull m = some (!(B1.in_check p.info.player), b,
          { m with capture := capResolved b m }) := by
  have hnoOwn : (match b.piece_at m.targetFile m.targetRank with
      | some t => decide (t.info.player = p.info.player)
      | none => false) = false := by
    cases ht : b.piece_at m.targetFile m.targetRank with
    | none => rfl
    | some t => simpa using hm.noOwn t ht
  cases hsh : castleShape m p with
  | false =>
    obtain ⟨B1, hlm, F⟩ := logicalMove_plain hw hm hsh
    refine ⟨B1, hlm, ?_⟩
    simp only [Board.is_validFull, hm.src, hnoOwn, Bool.false_eq_true, if_false, hlm,
      unmove_plain hw hm hsh F]
  | true =>
    obtain ⟨B1, x, hxat, hlm, F⟩ := logicalMove_castle hw hm hsh
    refine ⟨B1, hlm, ?_⟩
    simp only [Board.is_validFull, hm.src, hnoOwn, Bool.false_eq_true, if_false, hlm,
      unmove_castle hw hm hsh hxat F]

/-- Claim C1 as frozen is false: `is_valid` does not leave every board
unchanged on every move whose source is occupied and whose destination holds
no friendly piece.  On `c1Board` the castle-shaped move e1-g1 satisfies the
claim's premises (the king stands on e1, g1 is empty), `is_valid` returns a
verdict, yet the black knight on f1 has vanished from the board: the
speculative rook move captures it and `_logical_unmove` rebuilds the rook
move from scratch with an empty capture field, so the knight is never
restored. -/
theorem C1_counterexample :
    (c1Board.piece_at 5 1).isSome = true
      ∧ c1Board.piece_at 7 1 = none
      ∧ (c1Board.is_validFull (mv 5 1 7 1)).isSome = true
      ∧ (c1Board.is_validFull (mv 5 1 7 1)).map (fun z => z.2.1) ≠ some c1Board
      ∧ (c1Board.is_validFull (mv 5 1 7 1)).map (fun z => z.2.1.piece_at 6 1) = some none
      ∧ c1Board.piece_at 6 1 ≠ none := by
  decide

/-- Claim C1, amended: for a well-formed board and a move that additionally
satisfies the sanity conditions every generator-built candidate has (an
in-range destination; a capture recorded on an empty-destination move points
at an on-board piece away from the source square; a castle-shaped move has
its corner occupied and the rook's destination square empty; the reversed
move is not itself castle-shaped), `is_valid` returns the negation of
whether the mover's king is in check in the speculatively-moved position and
leaves the entire board state exactly as it was before the call. -/
theorem C1_is_valid_apply_undo_exact (b : Board) (m : Move) (p : Piece)
    (hw : wfBoard b = true) (hm : MoveOK b m p) :
    ∃ B1 m1, logicalMove b m = some (B1, m1)
      ∧ b.is_validFull m = some (!(B1.in_check p.info.player), b, m1) := by
  obtain ⟨B1, hlm, hv⟩ := is_valid_exact hw hm
  exact ⟨B1, { m with capture := capResolved b m }, hlm, hv⟩

/-- Witness for the amended claim C1 at a concrete input: the double pawn
push e2-e4 on the initial board. -/
theorem C1_witness :
    wfBoard initBoard = true
      ∧ ∃ B1 m1, logicalMove initBoard (mv 5 2 5 4) = some (B1, m1)
        ∧ initBoard.is_validFull (mv 5 2 5 4)
          = some (!(B1.in_check (mkP 8 .pawn .white 5 2).info.player), initBoard, m1) := by
  refine ⟨by decide, ?_⟩
  refine C1_is_valid_apply_undo_exact initBoard (mv 5 2 5 4) (mkP 8 .pawn .white 5 2)
    (by decide) ⟨by decide, by decide, ?_, fun _ => Or.inl rfl, ?_, by decide⟩
  · intro t ht
    rw [show initBoard.piece_at (mv 5 2 5 4).targetFile (mv 5 2 5 4).targetRank = none
      by decide] at ht
    exact Option.noConfusion ht
  · intro h
    exact absurd h (by decide)

/-- Claim C10: `is_empty` and `piece_at` are total on all integer inputs;
out-of-range coordinates read as empty and as no piece, with no exception
and no access to the grid. -/
theorem C10_out_of_range_total (b : Board) (f r : Int)
    (h : ¬(1 ≤ f ∧ f ≤ 8 ∧ 1 ≤ r ∧ r ≤ 8)) :
    b.is_empty f r = true ∧ b.piece_at f r = none := by
  have hn : ¬inRange f r = true := fun hc => h (inRange_iff.1 hc)
  constructor
  · unfold Board.is_empty
    rw [if_neg hn]
  · exact piece_at_out hn

/-- Witness for claim C10: the off-board square (0, 9) on the initial
board. -/
theorem C10_witness :
    ¬(1 ≤ (0 : Int) ∧ (0 : Int) ≤ 8 ∧ 1 ≤ (9 : Int) ∧ (9 : Int) ≤ 8)
      ∧ initBoard.is_empty 0 9 = true ∧ initBoard.piece_at 0 9 = none := by
  refine ⟨by decide, ?_, ?_⟩
  · exact (C10_out_of_range_total initBoard 0 9 (by decide)).1
  · exact (C10_out_of_range_total initBoard 0 9 (by decide)).2

theorem capturePhase_turn (b : Board) (m : Move) : (capturePhase b m).1.turn = b.turn := by
  unfold capturePhase
  dsimp only
  split <;> rfl

theorem moveTail_turn {b : Board} {m m1 : Move} {bm : Board × Move}
    (h : moveTail b m m1 = some bm) : bm.1.turn = b.turn := by
  unfold moveTail at h
  split at h
  · exact Option.noConfusion h
  · cases h; rfl

theorem logicalNC_turn {b : Board} {m : Move} {bm : Board × Move}
    (h : logicalNC b m = some bm) : bm.1.turn = b.turn := by
  unfold logicalNC at h
  exact (moveTail_turn h).trans (capturePhase_turn b m)

theorem logicalMove_turn {b : Board} {m : Move} {bm : Board × Move}
    (h : logicalMove b m = some bm) : bm.1.turn = b.turn := by
  unfold logicalMove at h
  dsimp only at h
  split at h
  · exact Option.noConfusion h
  · next b2 heq =>
    have h2 : b2.turn = b.turn := by
      split at heq
      · rw [Option.map_eq_some'] at heq
        obtain ⟨pr, hpr, hb2⟩ := heq
        rw [← hb2]
        exact (logicalNC_turn hpr).trans (capturePhase_turn b m)
      · cases heq; exact capturePhase_turn b m
    exact (moveTail_turn h).trans h2

theorem finalizeCore_turn {b b1 : Board} {m : Move}
    (h : finalizeCore b m = some b1) : b1.turn = b.turn := by
  unfold finalizeCore at h
  split at h
  · exact Option.noConfusion h
  · cases h; rfl

theorem handlePromotion_turn {b b1 : Board} {m : Move}
    (h : handlePromotion b m = some b1) : b1.turn = b.turn := by
  unfold handlePromotion at h
  split at h
  · exact Option.noConfusion h
  · split at h
    · exact Option.noConfusion h
    · cases h; rfl

theorem handleRep_turn (b : Board) : (handleRep b).turn = b.turn := rfl

theorem handleCheckmate_turn (b : Board) : (handleCheckmate b).turn = b.turn := by
  unfold handleCheckmate
  dsimp only
  split <;> rfl

theorem handleInsufficientMaterial_turn {b b1 : Board}
    (h : handleInsufficientMaterial b = some b1) : b1.turn = b.turn := by
  unfold handleInsufficientMaterial at h
  dsimp only at h
  split at h
  · cases h; rfl
  · split at h
    · cases h; rfl
    · split at h
      · cases h; rfl
      · split at h
        · exact Option.noConfusion h
        · split at h <;> (cases h; rfl)

theorem handleEndState_turn {b b1 : Board}
    (h : handleEndState b = some b1) : b1.turn = b.turn := by
  unfold handleEndState at h
  dsimp only at h
  split at h
  · cases h; exact handleRep_turn b
  · split at h
    · cases h; exact (handleCheckmate_turn _).trans (handleRep_turn b)
    · exact (handleInsufficientMaterial_turn h).trans
        ((handleCheckmate_turn _).trans (handleRep_turn b))

theorem finalizeNC_turn {b b1 : Board} {m : Move}
    (h : finalizeNC b m = some b1) : b1.turn = b.turn := by
  unfold finalizeNC at h
  split at h
  · exact Option.noConfusion h
  · next bA hA =>
    split at h
    · exact Option.noConfusion h
    · next bB hB =>
      have hBt : bB.turn = bA.turn := by
        split at hB
        · exact handlePromotion_turn hB
        · cases hB; rfl
      exact (handleEndState_turn h).trans (hBt.trans (finalizeCore_turn hA))

theorem finalizeMove_turn {b b1 : Board} {m : Move}
    (h : finalizeMove b m = some b1) : b1.turn = b.turn := by
  unfold finalizeMove at h
  split at h
  · exact Option.noConfusion h
  · next bA hA =>
    have hAt : bA.turn = b.turn := by
      split at hA
      · exact finalizeNC_turn hA
      · cases hA; rfl
    split at h
    · exact Option.noConfusion h
    · next bB hB =>
      split at h
      · exact Option.noConfusion h
      · next bC hC =>
        have hCt : bC.turn = bB.turn := by
          split at hC
          · exact handlePromotion_turn hC
          · cases hC; rfl
        exact (handleEndState_turn h).trans
          (hCt.trans ((finalizeCore_turn hB).trans hAt))

theorem make_move_turn {b b1 : Board} {m : Move}
    (h : make_move b m = some b1) : b1.turn = b.turn.other := by
  unfold make_move at h
  split at h
  · exact Option.noConfusion h
  · next bm hbm =>
    split at h
    · exact Option.noConfusion h
    · next b2 h2 =>
      cases h
      show b2.turn.other = b.turn.other
      rw [(finalizeMove_turn h2).trans (logicalMove_turn hbm)]

/-- Claim C7 (amended): the turn-alternation half of the claim holds — every
successful `make_move` flips the turn owner exactly once, since no phase of
the move pipeline touches `turn` and the final assignment negates it.  The
winner-terminality half is false (see the counterexample). -/
theorem C7_turn_alternates (b b1 : Board) (m : Move)
    (h : make_move b m = some b1) : b1.turn = b.turn.other :=
  make_move_turn h

/-- Witness for claim C7 at a concrete input: e2-e4 on the initial board. -/
theorem C7_witness :
    ((make_move initBoard (mv 5 2 5 4)).getD initBoard).turn
      = initBoard.turn.other :=
  C7_turn_alternates initBoard ((make_move initBoard (mv 5 2 5 4)).getD initBoard)
    (mv 5 2 5 4) (by decide)

/-- Counterexample to the winner-terminality half of claim C7: after the
fool's mate Black has won, yet `make_move` keeps accepting moves (it never
inspects `winner`), and four further white-knight shuffle plies make the
repetition rule overwrite the recorded winner with a draw. -/
theorem C7_counterexample :
    (applyMoves initBoard foolsMate).map Board.winner = some (some (.player .black))
      ∧ (applyMoves initBoard (foolsMate ++ shuffle4)).map Board.winner
          = some (some .draw)
      ∧ Winner.player .black ≠ .draw := by
  refine ⟨by decide, by decide, by decide⟩

/-- Claim C4 fails in the code: on `c4Board` the b1 square is occupied by a
white knight, yet `King.possible_moves` still yields the queenside castle
e1-c1 — the castling branch checks only the rook-destination square d1 for
emptiness and never probes b1. -/
theorem C4_code_bug :
    c4Board.piece_at 2 1 ≠ none
      ∧ mv 5 1 3 1 ∈ kingMoves c4Board c4Board.whiteKing := by
  refine ⟨by decide, by decide⟩

set_option maxHeartbeats 1000000 in
/-- Claim C5 fails in the code: in the run `c5Run`, White castles on ply 7;
`_finalize_move`'s castling recursion runs `_handle_end_state` twice for that
single ply, so the post-castle position is recorded twice on creation.  The
final position's signature occurs only at plies 7 and 11 of the run, yet
after ply 10 the game is undecided and ply 11 — only the second genuine
occurrence — is declared a draw by repetition.  The first component lists
the winner after each ply, the second marks which positions of the run share
the final position's signature, and the third is the recorded occurrence
count of the post-castle position immediately after the castle ply. -/
theorem C5_code_bug :
    (applyScan initBoard c5Run).map (fun l =>
        (l.map Board.winner,
         l.map (fun b => decide (signature b = signature (l.getD 11 initBoard))),
         sigCount (l.getD 7 initBoard).prevPositions (signature (l.getD 7 initBoard))))
      = some ([none, none, none, none, none, none, none, none, none, none, none, some .draw],
              [false, false, false, false, false, false, false, true, false, false, false, true],
              2) := by
  decide

/-- Claim C3 fails in the code: a legal king capture on `c3Board` leaves two
bare kings, and `make_move` then dies inside `_handle_insufficient_material`
(`next(iter(Bishop))` raises `StopIteration` when no bishop and no knight
exists) instead of declaring the draw; moreover two same-side minor pieces
(`kbbSame`) do not draw although the claim requires a draw for every
combined minor count ≤ 2.  The single-minor case does draw. -/
theorem C3_code_bug :
    { mv 4 5 4 4 with capture := some (mkP 1 .rook .white 4 4) }
        ∈ kingMoves c3Board c3Board.blackKing
      ∧ make_move c3Board { mv 4 5 4 4 with capture := some (mkP 1 .rook .white 4 4) } = none
      ∧ handleInsufficientMaterial kk = none
      ∧ handleInsufficientMaterial kbbSame = some kbbSame
      ∧ (handleInsufficientMaterial kbk).map Board.winner = some (some .draw) := by
  refine ⟨by decide, by decide, by decide, by decide, by decide⟩

theorem two_bishops_branch (b : Board) (x y : Piece)
    (hp : (kindPieces b .pawn).length = 0)
    (hr : (kindPieces b .rook).length = 0)
    (hq : (kindPieces b .queen).length = 0)
    (hn : (kindPieces b .knight).length = 0)
    (hb : kindPieces b .bishop = [x, y]) :
    handleInsufficientMaterial b
      = some (if x.info.player ≠ y.info.player
          then { b with winner := some .draw } else b) := by
  simp only [handleInsufficientMaterial, hp, hr, hq, hn, hb]
  norm_num
  split <;> rfl

/-- Claim C9 (amended): for a position with no pawns, rooks, queens or
knights and exactly two bishops, the insufficient-material branch compares
the bishops' owners, not their square-color complexes: it draws precisely
when the two bishops belong to opposite players, regardless of the colors of
the squares they stand on. -/
theorem C9_two_bishops_owner_branch (b : Board) (x y : Piece)
    (hp : (kindPieces b .pawn).length = 0)
    (hr : (kindPieces b .rook).length = 0)
    (hq : (kindPieces b .queen).length = 0)
    (hn : (kindPieces b .knight).length = 0)
    (hb : kindPieces b .bishop = [x, y]) :
    handleInsufficientMaterial b
      = some (if x.info.player ≠ y.info.player
          then { b with winner := some .draw } else b) :=
  two_bishops_branch b x y hp hr hq hn hb

/-- Witness for claim C9 at a concrete input: `kbkbOpp`. -/
theorem C9_witness :
    handleInsufficientMaterial kbkbOpp
      = some (if (mkP 1 .bishop .white 3 1).info.player
            ≠ (mkP 2 .bishop .black 3 8).info.player
          then { kbkbOpp with winner := some .draw } else kbkbOpp) :=
  C9_two_bishops_owner_branch kbkbOpp (mkP 1 .bishop .white 3 1)
    (mkP 2 .bishop .black 3 8) (by decide) (by decide) (by decide) (by decide) (by decide)

/-- Counterexample to claim C9 as frozen: on `kbkbOpp` the two bishops stand
on mismatched square-color complexes (c1 is dark, c8 is light), yet the
insufficient-material step does set a draw — the branch never looks at
square colors. -/
theorem C9_counterexample :
    (kindPieces kbkbOpp .bishop).map (fun p => (p.info.file + p.info.rank) % 2)
        = [0, 1]
      ∧ (handleInsufficientMaterial kbkbOpp).map Board.winner = some (some .draw) := by
  refine ⟨by decide, by decide⟩

theorem capturePhase_snd (b : Board) (m : Move) :
    (capturePhase b m).2 = { m with capture := capResolved b m } := by
  unfold capturePhase capResolved
  dsimp only
  cases hc : (b.piece_at m.targetFile m.targetRank).isSome <;> rfl

theorem moveTail_snd {b : Board} {m m1 : Move} {bm : Board × Move}
    (h : moveTail b m m1 = some bm) : bm.2 = m1 := by
  unfold moveTail at h
  split at h
  · exact Option.noConfusion h
  · cases h; rfl

theorem logicalMove_snd {b : Board} {m : Move} {bm : Board × Move}
    (h : logicalMove b m = some bm) : bm.2 = { m with capture := capResolved b m } := by
  unfold logicalMove at h
  dsimp only at h
  split at h
  · exact Option.noConfusion h
  · exact (moveTail_snd h).trans (capturePhase_snd b m)

theorem validated_true {b : Board} {cand m : Move} (h : m ∈ validated b cand) :
    b.is_validB cand = some (true, m) := by
  unfold validated at h
  split at h
  · next heq =>
    rw [List.mem_singleton] at h
    rw [h]
    exact heq
  · exact absurd h (List.not_mem_nil m)

theorem is_validB_true_shape {b : Board} {cand m : Move}
    (h : b.is_validB cand = some (true, m)) :
    m = { cand with capture := capResolved b cand } := by
  unfold Board.is_validB at h
  rw [Option.map_eq_some'] at h
  obtain ⟨x, hfull, hpair⟩ := h
  obtain ⟨v, b2, m1⟩ := x
  have hv : v = true := congrArg Prod.fst hpair
  have hm1 : m1 = m := congrArg (fun z => z.2) hpair
  subst hv hm1
  unfold Board.is_validFull at hfull
  dsimp only at hfull
  split at hfull
  · have hfb : (false : Bool) = true :=
      congrArg (fun z => (Option.getD z (false, b, cand)).1) hfull
    exact absurd hfb (by decide)
  · split at hfull
    · have hfb : (false : Bool) = true :=
        congrArg (fun z => (Option.getD z (false, b, cand)).1) hfull
      exact absurd hfb (by decide)
    · split at hfull
      · exact Option.noConfusion hfull
      · next bm hlm =>
        split at hfull
        · exact Option.noConfusion hfull
        · have h3 : bm.2 = m1 :=
            congrArg (fun z => (Option.getD z (false, b, cand)).2.2) hfull
          rw [← h3]
          exact logicalMove_snd hlm

theorem validated_sound {b : Board} {cand m : Move} (h : m ∈ validated b cand) :
    m = { cand with capture := capResolved b cand } :=
  is_validB_true_shape (validated_true h)

theorem make_move_prev {b b1 : Board} {m : Move} (h : make_move b m = some b1) :
    b1.previousMove = some { m with capture := capResolved b m } := by
  unfold make_move at h
  split at h
  · exact Option.noConfusion h
  · next bm hbm =>
    split at h
    · exact Option.noConfusion h
    · cases h
      show some bm.2 = _
      rw [logicalMove_snd hbm]

theorem pawnMoves_split {b : Board} {p : Piece} {m : Move} (hm : m ∈ pawnMoves b p) :
    ∃ cand, m ∈ validated b cand
      ∧ cand.initialFile = p.info.file ∧ cand.initialRank = p.info.rank
      ∧ cand.promotion = none
      ∧ (PawnPush b p cand ∨ PawnDiag b p cand ∨ PawnEP b p cand) := by
  unfold pawnMoves at hm
  dsimp only at hm
  rw [show (if p.info.player = Player.white then (1 : Int) else -1) = pawnForward p
    from rfl] at hm
  rw [List.mem_append] at hm
  rcases hm with hm | hm
  · split at hm
    · next hemp =>
      rw [List.mem_append] at hm
      rcases hm with hm | hm
      · exact ⟨_, hm, rfl, rfl, rfl, Or.inl ⟨rfl, rfl, hemp, Or.inl rfl⟩⟩
      · split at hm
        · next hg =>
          rw [Bool.and_eq_true, Bool.not_eq_true'] at hg
          exact ⟨_, hm, rfl, rfl, rfl, Or.inl ⟨rfl, rfl, hemp, Or.inr ⟨hg.1, rfl⟩⟩⟩
        · exact absurd hm (List.not_mem_nil m)
    · exact absurd hm (List.not_mem_nil m)
  · rw [List.mem_flatMap] at hm
    obtain ⟨dx, hdx, hm⟩ := hm
    have hdxe : dx = (-1 : Int) ∨ dx = 1 := by simpa using hdx
    rw [List.mem_append] at hm
    rcases hm with hm | hm
    · split at hm
      · next nc hnc =>
        split at hm
        · next hply =>
          exact ⟨_, hm, rfl, rfl, rfl,
            Or.inr (Or.inl ⟨nc, dx, hdxe, rfl, rfl, hnc, hply, rfl⟩)⟩
        · exact absurd hm (List.not_mem_nil m)
      · exact absurd hm (List.not_mem_nil m)
    · split at hm
      · next ep hep =>
        split at hm
        · next hg =>
          simp only [Bool.and_eq_true, decide_eq_true_iff] at hg
          obtain ⟨⟨⟨hkind, hlast⟩, hply⟩, hadv⟩ := hg
          have hlp : ∃ lp, b.last_piece_to_move = some lp ∧ ep.id = lp.id := by
            cases hl : b.last_piece_to_move with
            | none =>
              rw [hl] at hlast
              exact Bool.noConfusion hlast
            | some lp =>
              rw [hl] at hlast
              exact ⟨lp, rfl, of_decide_eq_true hlast⟩
          exact ⟨_, hm, rfl, rfl, rfl,
            Or.inr (Or.inr ⟨ep, dx, hdxe, rfl, rfl, hep, hkind, hlp, hply, hadv, rfl⟩)⟩
        · exact absurd hm (List.not_mem_nil m)
      · exact absurd hm (List.not_mem_nil m)

/-- Claim C8: the en-passant window.  First half: whenever the pawn
generator yields a capture onto an empty square (the en-passant shape), the
captured piece is a laterally adjacent enemy pawn that the board's
`previous_move` records as the most recent mover (compared by entity id
through `last_piece_to_move`) with a two-rank advance.  Second half: every
applied move overwrites `previous_move` with the move just played, so the
guard only ever sees the immediately preceding ply and the capture is
withdrawn once one further ply elapses. -/
theorem C8_en_passant_window :
    (∀ b p m q, m ∈ pawnMoves b p →
        b.piece_at m.targetFile m.targetRank = none →
        m.capture = some q →
        q.kind = .pawn ∧ q.info.player ≠ p.info.player
          ∧ (q.info.rank - q.info.prevRank).natAbs = 2
          ∧ (∃ lp, b.last_piece_to_move = some lp ∧ q.id = lp.id)
          ∧ b.piece_at m.targetFile p.info.rank = some q
          ∧ m.targetRank = p.info.rank + pawnForward p)
      ∧ (∀ b m b1, make_move b m = some b1 →
          b1.previousMove = some { m with capture := capResolved b m }) := by
  constructor
  · intro b p m q hm hempty hcap
    obtain ⟨cand, hv, hif, hir, hpr, hbr⟩ := pawnMoves_split hm
    have hshape := validated_sound hv
    have htfE : m.targetFile = cand.targetFile := by rw [hshape]
    have htrE : m.targetRank = cand.targetRank := by rw [hshape]
    have hemptyC : b.piece_at cand.targetFile cand.targetRank = none := by
      rw [← htfE, ← htrE]; exact hempty
    have hcapE : m.capture = cand.capture := by
      rw [hshape]
      show capResolved b cand = cand.capture
      exact capResolved_empty hemptyC
    rw [hcapE] at hcap
    rcases hbr with hPush | hDiag | hEP
    · rw [hPush.1] at hcap
      exact Option.noConfusion hcap
    · obtain ⟨nc, dx, hdxe, htf, htr, hat, hply, hcapn⟩ := hDiag
      rw [htf, htr, hat] at hemptyC
      exact Option.noConfusion hemptyC
    · obtain ⟨ep, dx, hdxe, htf, htr, hat, hkind, hlp, hply, hadv, hcapn⟩ := hEP
      rw [hcapn] at hcap
      obtain rfl : ep = q := Option.some.inj hcap
      refine ⟨hkind, hply, hadv, hlp, ?_, ?_⟩
      · rw [htfE, htf]
        exact hat
      · rw [htrE, htr]
  · intro b m b1 h
    exact make_move_prev h

/-- Witness for claim C8 at a concrete input: on `epBoard` the white e5 pawn
is offered the en-passant capture d5-d6 of the just-advanced black d-pawn,
and the conclusion facts hold there; after one unrelated further ply (the
white king steps to d1) the en-passant offer is gone and only the plain push
remains. -/
theorem C8_witness :
    ({ mv 5 5 4 6 with capture := some epQ } ∈ pawnMoves epBoard epP)
      ∧ epBoard.piece_at 4 6 = none
      ∧ (epQ.kind = .pawn ∧ epQ.info.player ≠ epP.info.player
          ∧ (epQ.info.rank - epQ.info.prevRank).natAbs = 2
          ∧ (∃ lp, epBoard.last_piece_to_move = some lp ∧ epQ.id = lp.id)
          ∧ epBoard.piece_at 4 5 = some epQ
          ∧ (6 : Int) = epP.info.rank + pawnForward epP)
      ∧ (make_move epBoard (mv 5 1 4 1)).map (fun b2 => pawnMoves b2 epP)
          = some [mv 5 5 5 6] := by
  have hm : { mv 5 5 4 6 with capture := some epQ } ∈ pawnMoves epBoard epP := by decide
  have hempty : epBoard.piece_at 4 6 = none := by decide
  refine ⟨hm, hempty, ?_, by decide⟩
  exact C8_en_passant_window.1 epBoard epP { mv 5 5 4 6 with capture := some epQ } epQ
    hm hempty rfl

/-- Claim C6: with no earlier end-state rule having produced a winner (the
repetition step leaves `winner` unset), if the player about to move next has
no legal move from any of their pieces, `_handle_end_state` ends the game:
the winner is the mover when that player stands in check (checkmate) and a
draw otherwise (stalemate); and if some piece of theirs has a legal move,
the checkmate rule contributes nothing and the outcome is whatever the
insufficient-material step returns. -/
theorem C6_checkmate_stalemate (b b' : Board)
    (hrep : (handleRep b).winner = none)
    (hend : handleEndState b = some b') :
    ((boardPieces (handleRep b)).any (fun p =>
          decide (p.info.player = (handleRep b).turn.other)
            && !(possible_moves (handleRep b) p).isEmpty) = false
        → b'.winner = some (if (handleRep b).in_check (handleRep b).turn.other
            then Winner.player (handleRep b).turn else Winner.draw))
      ∧ ((boardPieces (handleRep b)).any (fun p =>
          decide (p.info.player = (handleRep b).turn.other)
            && !(possible_moves (handleRep b) p).isEmpty) = true
        → handleEndState b = handleInsufficientMaterial (handleRep b)) := by
  have hET : handleEndState b
      = (if (handleCheckmate (handleRep b)).winner.isSome = true
          then some (handleCheckmate (handleRep b))
          else handleInsufficientMaterial (handleCheckmate (handleRep b))) := by
    unfold handleEndState
    dsimp only
    rw [hrep]
    rfl
  cases hg : (boardPieces (handleRep b)).any (fun p =>
      decide (p.info.player = (handleRep b).turn.other)
        && !(possible_moves (handleRep b) p).isEmpty) with
  | false =>
    have hcm : handleCheckmate (handleRep b)
        = { handleRep b with
            winner := some (if !(handleRep b).in_check (handleRep b).turn.other
              then Winner.draw else Winner.player (handleRep b).turn) } := by
      unfold handleCheckmate
      dsimp only
      rw [hg]
      rfl
    have hw2 : (handleCheckmate (handleRep b)).winner.isSome = true := by
      rw [hcm]
      rfl
    rw [hET, if_pos hw2] at hend
    have hb' : b' = handleCheckmate (handleRep b) := (Option.some.inj hend).symm
    constructor
    · intro _
      rw [hb', hcm]
      show some _ = some _
      congr 1
      cases hic : (handleRep b).in_check (handleRep b).turn.other <;> simp [hic]
    · intro hcontra
      exact absurd hcontra (by decide)
  | true =>
    have hcm : handleCheckmate (handleRep b) = handleRep b := by
      unfold handleCheckmate
      dsimp only
      rw [hg]
      rfl
    have hw2 : (handleCheckmate (handleRep b)).winner.isSome = false := by
      rw [hcm, hrep]
      rfl
    have hfin : handleEndState b = handleInsufficientMaterial (handleRep b) := by
      rw [hET, if_neg (by rw [hw2]; exact Bool.false_ne_true), hcm]
    constructor
    · intro hcontra
      exact absurd hcontra (by decide)
    · intro _
      exact hfin

/-- Witness for claim C6 at a concrete input: the back-rank mate position
`mateBoard` (White has just delivered mate with the a8 rook; the turn has
not flipped yet, so the victim is Black). -/
theorem C6_witness :
    (handleRep mateBoard).winner = none
      ∧ ((boardPieces (handleRep mateBoard)).any (fun p =>
            decide (p.info.player = (handleRep mateBoard).turn.other)
              && !(possible_moves (handleRep mateBoard) p).isEmpty) = false)
      ∧ (handleRep mateBoard).in_check (handleRep mateBoard).turn.other = true
      ∧ ((handleEndState mateBoard).getD mateBoard).winner
          = some (Winner.player Player.white) := by
  have h1 : (handleRep mateBoard).winner = none := by decide
  have hg : ((boardPieces (handleRep mateBoard)).any (fun p =>
      decide (p.info.player = (handleRep mateBoard).turn.other)
        && !(possible_moves (handleRep mateBoard) p).isEmpty) = false) := by decide
  have hend : handleEndState mateBoard
      = some ((handleEndState mateBoard).getD mateBoard) := by decide
  have hic : (handleRep mateBoard).in_check (handleRep mateBoard).turn.other = true := by
    decide
  refine ⟨h1, hg, hic, ?_⟩
  have hres := (C6_checkmate_stalemate mateBoard
    ((handleEndState mateBoard).getD mateBoard) h1 hend).1 hg
  rw [hres, hic]
  decide

theorem simCell_refl (op : Player) (c : Option Piece) : simCell op c c := by
  cases c with
  | none => trivial
  | some x => exact ⟨rfl, fun _ => rfl⟩

theorem simCell_trans {op : Player} {a c e : Option Piece}
    (h1 : simCell op a c) (h2 : simCell op c e) : simCell op a e := by
  cases a with
  | none =>
    cases c with
    | none => exact h2
    | some y => exact h1.elim
  | some x =>
    cases c with
    | none => exact h1.elim
    | some y =>
      cases e with
      | none => exact h2.elim
      | some z =>
        obtain ⟨hp1, hk1⟩ := h1
        obtain ⟨hp2, hk2⟩ := h2
        exact ⟨hp1.trans hp2, fun hop => (hk1 hop).trans (hk2 (hp1.symm.trans hop))⟩

theorem rayWalk_sim {b b2 : Board} {op : Player}
    (hsim : ∀ f r, simCell op (b.piece_at f r) (b2.piece_at f r))
    (dx dy : Int) :
    ∀ fuel f r, (rayWalk b dx dy fuel f r).1 = (rayWalk b2 dx dy fuel f r).1
      ∧ (rayWalk b dx dy fuel f r).2.1 = (rayWalk b2 dx dy fuel f r).2.1
      ∧ simCell op (rayWalk b dx dy fuel f r).2.2 (rayWalk b2 dx dy fuel f r).2.2 := by
  intro fuel
  induction fuel with
  | zero => exact fun f r => ⟨rfl, rfl, trivial⟩
  | succ n ih =>
    intro f r
    unfold rayWalk
    by_cases hin : inRange f r = true
    · rw [if_pos hin, if_pos hin]
      have hc := hsim f r
      cases hb1 : b.piece_at f r with
      | some p =>
        rw [hb1] at hc
        cases hb2 : b2.piece_at f r with
        | none => rw [hb2] at hc; exact hc.elim
        | some q =>
          rw [hb2] at hc
          exact ⟨rfl, rfl, hc⟩
      | none =>
        rw [hb1] at hc
        cases hb2 : b2.piece_at f r with
        | some q => rw [hb2] at hc; exact hc.elim
        | none => exact ih (f + dx) (r + dy)
    · rw [if_neg hin, if_neg hin]
      exact ⟨rfl, rfl, trivial⟩

theorem diagControl_sim {b b2 : Board} {op : Player}
    (hsim : ∀ f r, simCell op (b.piece_at f r) (b2.piece_at f r))
    (file rank dx dy : Int) :
    diagControl b file rank op dx dy = diagControl b2 file rank op dx dy := by
  unfold diagControl
  dsimp only
  obtain ⟨h1, h2, h3⟩ := rayWalk_sim hsim dx dy 16 (file + dx) (rank + dy)
  rw [← h1, ← h2]
  cases hb1 : (rayWalk b dx dy 16 (file + dx) (rank + dy)).2.2 with
  | none =>
    rw [hb1] at h3
    cases hb2 : (rayWalk b2 dx dy 16 (file + dx) (rank + dy)).2.2 with
    | none => rfl
    | some q => rw [hb2] at h3; exact h3.elim
  | some p =>
    rw [hb1] at h3
    cases hb2 : (rayWalk b2 dx dy 16 (file + dx) (rank + dy)).2.2 with
    | none => rw [hb2] at h3; exact h3.elim
    | some q =>
      rw [hb2] at h3
      obtain ⟨hp, hk⟩ := h3
      dsimp only
      by_cases hop : p.info.player = op
      · rw [hp, hk hop]
      · rw [decide_eq_false hop, decide_eq_false (fun hc => hop (hp.trans hc))]
        simp

theorem lineControl_sim {b b2 : Board} {op : Player}
    (hsim : ∀ f r, simCell op (b.piece_at f r) (b2.piece_at f r))
    (file rank dx dy : Int) :
    lineControl b file rank op dx dy = lineControl b2 file rank op dx dy := by
  unfold lineControl
  dsimp only
  obtain ⟨h1, h2, h3⟩ := rayWalk_sim hsim dx dy 16 (file + dx) (rank + dy)
  rw [← h1, ← h2]
  cases hb1 : (rayWalk b dx dy 16 (file + dx) (rank + dy)).2.2 with
  | none =>
    rw [hb1] at h3
    cases hb2 : (rayWalk b2 dx dy 16 (file + dx) (rank + dy)).2.2 with
    | none => rfl
    | some q => rw [hb2] at h3; exact h3.elim
  | some p =>
    rw [hb1] at h3
    cases hb2 : (rayWalk b2 dx dy 16 (file + dx) (rank + dy)).2.2 with
    | none => rw [hb2] at h3; exact h3.elim
    | some q =>
      rw [hb2] at h3
      obtain ⟨hp, hk⟩ := h3
      dsimp only
      by_cases hop : p.info.player = op
      · rw [hp, hk hop]
      · rw [decide_eq_false hop, decide_eq_false (fun hc => hop (hp.trans hc))]
        simp

theorem knightProbe_sim {b b2 : Board} {op : Player}
    (hsim : ∀ f r, simCell op (b.piece_at f r) (b2.piece_at f r)) (f r : Int) :
    (match b.piece_at f r with
      | some p => decide (p.kind = PieceKind.knight) && decide (p.info.player = op)
      | none => false)
    = (match b2.piece_at f r with
      | some p => decide (p.kind = PieceKind.knight) && decide (p.info.player = op)
      | none => false) := by
  have hc := hsim f r
  cases hb1 : b.piece_at f r with
  | none =>
    rw [hb1] at hc
    cases hb2 : b2.piece_at f r with
    | none => rfl
    | some q => rw [hb2] at hc; exact hc.elim
  | some p =>
    rw [hb1] at hc
    cases hb2 : b2.piece_at f r with
    | none => rw [hb2] at hc; exact hc.elim
    | some q =>
      rw [hb2] at hc
      obtain ⟨hp, hk⟩ := hc
      dsimp only
      by_cases hop : p.info.player = op
      · rw [hp, hk hop]
      · rw [decide_eq_false hop, decide_eq_false (fun hc2 => hop (hp.trans hc2))]
        simp

theorem is_controlled_sim {b b2 : Board} {op : Player}
    (hsim : ∀ f r, simCell op (b.piece_at f r) (b2.piece_at f r))
    (file rank : Int) :
    b.is_controlled file rank op = b2.is_controlled file rank op := by
  unfold Board.is_controlled
  simp only [List.any_cons, List.any_nil]
  rw [knightProbe_sim hsim (file - 2) (rank - 1), knightProbe_sim hsim (file - 2) (rank + 1),
      knightProbe_sim hsim (file - 1) (rank - 2), knightProbe_sim hsim (file - 1) (rank + 2),
      knightProbe_sim hsim (file + 1) (rank + 2), knightProbe_sim hsim (file + 1) (rank - 2),
      knightProbe_sim hsim (file + 2) (rank + 1), knightProbe_sim hsim (file + 2) (rank - 1),
      diagControl_sim hsim file rank (-1) (-1), diagControl_sim hsim file rank (-1) 1,
      diagControl_sim hsim file rank 1 (-1), diagControl_sim hsim file rank 1 1,
      lineControl_sim hsim file rank 0 1, lineControl_sim hsim file rank 0 (-1),
      lineControl_sim hsim file rank 1 0, lineControl_sim hsim file rank (-1) 0]

theorem touch1_pos {w p : Piece} (h : p.id = w.id) : touch1 w p = p := by
  unfold touch1
  rw [if_pos h]

theorem touch1_neg {w p : Piece} (h : ¬p.id = w.id) : touch1 w p = w := by
  unfold touch1
  rw [if_neg h]

theorem piece_at_grid_eq {b b2 : Board} (h : b2.grid = b.grid) (f r : Int) :
    b2.piece_at f r = b.piece_at f r := by
  rw [piece_at_def, piece_at_def, h]

theorem kgOf_congr {b b2 : Board} (hw : b2.whiteKing = b.whiteKing)
    (hb : b2.blackKing = b.blackKing) (pl : Player) : kgOf b2 pl = kgOf b pl := by
  unfold kgOf
  rw [hw, hb]

theorem KCoh_transfer {b b2 : Board} (hg : b2.grid = b.grid)
    (hw : b2.whiteKing = b.whiteKing) (hb : b2.blackKing = b.blackKing)
    {pl : Player} (hk : KCoh b pl) : KCoh b2 pl := by
  intro f r q hq hid
  rw [kgOf_congr hw hb]
  rw [piece_at_grid_eq hg] at hq
  rw [kgOf_congr hw hb] at hid
  exact hk f r q hq hid

theorem handleRep_fields (b : Board) : (handleRep b).grid = b.grid
    ∧ (handleRep b).whiteKing = b.whiteKing ∧ (handleRep b).blackKing = b.blackKing
    ∧ (handleRep b).nextId = b.nextId :=
  ⟨rfl, rfl, rfl, rfl⟩

theorem handleCheckmate_fields (b : Board) : (handleCheckmate b).grid = b.grid
    ∧ (handleCheckmate b).whiteKing = b.whiteKing
    ∧ (handleCheckmate b).blackKing = b.blackKing
    ∧ (handleCheckmate b).nextId = b.nextId := by
  unfold handleCheckmate
  dsimp only
  split <;> exact ⟨rfl, rfl, rfl, rfl⟩

theorem handleInsufficientMaterial_fields {b b1 : Board}
    (h : handleInsufficientMaterial b = some b1) :
    b1.grid = b.grid ∧ b1.whiteKing = b.whiteKing ∧ b1.blackKing = b.blackKing
      ∧ b1.nextId = b.nextId := by
  unfold handleInsufficientMaterial at h
  dsimp only at h
  split at h
  · cases h; exact ⟨rfl, rfl, rfl, rfl⟩
  · split at h
    · cases h; exact ⟨rfl, rfl, rfl, rfl⟩
    · split at h
      · cases h; exact ⟨rfl, rfl, rfl, rfl⟩
      · split at h
        · exact Option.noConfusion h
        · split at h <;> (cases h; exact ⟨rfl, rfl, rfl, rfl⟩)

theorem handleEndState_fields {b b1 : Board} (h : handleEndState b = some b1) :
    b1.grid = b.grid ∧ b1.whiteKing = b.whiteKing ∧ b1.blackKing = b.blackKing
      ∧ b1.nextId = b.nextId := by
  unfold handleEndState at h
  dsimp only at h
  split at h
  · cases h; exact handleRep_fields b
  · split at h
    · cases h
      obtain ⟨h1, h2, h3, h4⟩ := handleCheckmate_fields (handleRep b)
      exact ⟨h1, h2, h3, h4⟩
    · obtain ⟨h1, h2, h3, h4⟩ := handleInsufficientMaterial_fields h
      obtain ⟨g1, g2, g3, g4⟩ := handleCheckmate_fields (handleRep b)
      exact ⟨h1.trans g1, h2.trans g2, h3.trans g3, h4.trans g4⟩

theorem finalizeCore_spec {b bOut : Board} {m : Move}
    (h : finalizeCore b m = some bOut) :
    ∃ p, b.piece_at m.targetFile m.targetRank = some p
      ∧ bOut = Board.touchKingCache
          { b with grid := setCell b.grid m.targetFile m.targetRank
                     (some (prevUpd p m.initialFile m.initialRank)) }
          (prevUpd p m.initialFile m.initialRank) := by
  unfold finalizeCore at h
  dsimp only at h
  split at h
  · exact Option.noConfusion h
  · next p hp =>
    cases h
    exact ⟨p, hp, rfl⟩

theorem finalizeCore_step {b bOut : Board} {m : Move} (pl : Player)
    (hg : gridShape b.grid = true) (hk : KCoh b pl)
    (h : finalizeCore b m = some bOut) :
    gridShape bOut.grid = true ∧ KCoh bOut pl
      ∧ (kgOf bOut pl).info.file = (kgOf b pl).info.file
      ∧ (kgOf bOut pl).info.rank = (kgOf b pl).info.rank
      ∧ (∀ op f r, simCell op (b.piece_at f r) (bOut.piece_at f r))
      ∧ (∀ f r, (bOut.piece_at f r).map (fun q => q.info.player)
          = (b.piece_at f r).map (fun q => q.info.player))
      ∧ bOut.nextId = b.nextId := by
  obtain ⟨p, hp, hbo⟩ := finalizeCore_spec h
  have htgtIn := inRange_of_piece_at hp
  have hcell : ∀ f r, bOut.piece_at f r
      = if f = m.targetFile ∧ r = m.targetRank
        then some (prevUpd p m.initialFile m.initialRank)
        else b.piece_at f r := by
    intro f r
    by_cases hin : inRange f r = true
    · rw [hbo, piece_at_inRange hin]
      show cellGet (setCell b.grid m.targetFile m.targetRank _) f r = _
      by_cases heq : f = m.targetFile ∧ r = m.targetRank
      · rw [if_pos heq, heq.1, heq.2, cellGet_setCell_same hg htgtIn]
      · rw [if_neg heq,
          cellGet_setCell_ne hg htgtIn hin (fun hc => heq ⟨hc.1.symm, hc.2.symm⟩),
          ← piece_at_inRange hin]
    · rw [@piece_at_out bOut f r hin,
        if_neg (fun hc => hin (by rw [hc.1, hc.2]; exact htgtIn)),
        @piece_at_out b f r hin]
  have hkg : kgOf bOut pl = touch1 (kgOf b pl)
      (prevUpd p m.initialFile m.initialRank) := by
    rw [hbo]
    cases pl <;> rfl
  have hid_eq : (kgOf bOut pl).id = (kgOf b pl).id
      ∧ (kgOf bOut pl).info.file = (kgOf b pl).info.file
      ∧ (kgOf bOut pl).info.rank = (kgOf b pl).info.rank := by
    rw [hkg]
    by_cases hid : (prevUpd p m.initialFile m.initialRank).id = (kgOf b pl).id
    · rw [touch1_pos hid]
      have hco := hk m.targetFile m.targetRank p hp hid
      exact ⟨hid, hco.1, hco.2⟩
    · rw [touch1_neg hid]
      exact ⟨rfl, rfl, rfl⟩
  have hkco : KCoh bOut pl := by
    intro f r q hq hqid
    rw [hcell] at hq
    rw [hid_eq.1] at hqid
    rw [hid_eq.2.1, hid_eq.2.2]
    by_cases heq : f = m.targetFile ∧ r = m.targetRank
    · rw [if_pos heq] at hq
      obtain rfl : _ = q := Option.some.inj hq
      exact hk m.targetFile m.targetRank p hp hqid
    · rw [if_neg heq] at hq
      exact hk f r q hq hqid
  have hsims : ∀ op f r, simCell op (b.piece_at f r) (bOut.piece_at f r) := by
    intro op f r
    rw [hcell]
    by_cases heq : f = m.targetFile ∧ r = m.targetRank
    · rw [if_pos heq, heq.1, heq.2, hp]
      exact ⟨rfl, fun _ => rfl⟩
    · rw [if_neg heq]
      exact simCell_refl op _
  have hpm : ∀ f r, (bOut.piece_at f r).map (fun q => q.info.player)
      = (b.piece_at f r).map (fun q => q.info.player) := by
    intro f r
    rw [hcell]
    by_cases heq : f = m.targetFile ∧ r = m.targetRank
    · rw [if_pos heq, heq.1, heq.2, hp]
      rfl
    · rw [if_neg heq]
  refine ⟨?_, hkco, hid_eq.2.1, hid_eq.2.2, hsims, hpm, ?_⟩
  · rw [hbo]
    exact gridShape_setCell hg _ _ _
  · rw [hbo]
    rfl

theorem handlePromotion_spec {b bOut : Board} {m : Move}
    (h : handlePromotion b m = some bOut) :
    ∃ p k, b.piece_at m.targetFile m.targetRank = some p ∧ m.promotion = some k
      ∧ bOut = { b with
          grid := setCell b.grid m.targetFile
                    (if p.info.player = Player.white then 8 else 1)
                    (some (promoPiece b.nextId k p.info.player m.targetFile
                      (if p.info.player = Player.white then 8 else 1))),
          nextId := b.nextId + 1 } := by
  unfold handlePromotion at h
  dsimp only at h
  split at h
  · exact Option.noConfusion h
  · next p hp =>
    split at h
    · exact Option.noConfusion h
    · next k hk2 =>
      cases h
      exact ⟨p, k, hp, hk2, rfl⟩

theorem handlePromotion_step {b bOut : Board} {m : Move} (pl : Player)
    (hg : gridShape b.grid = true)
    (hplay : (b.piece_at m.targetFile m.targetRank).map (fun q => q.info.player) = some pl)
    (hrank : m.targetRank = (if pl = Player.white then (8 : Int) else 1))
    (h : handlePromotion b m = some bOut) :
    gridShape bOut.grid = true
      ∧ kgOf bOut pl = kgOf b pl
      ∧ (∀ f r, simCell (Player.other pl) (b.piece_at f r) (bOut.piece_at f r)) := by
  obtain ⟨p, k, hp, hk2, hbo⟩ := handlePromotion_spec h
  have hpl : p.info.player = pl := by
    rw [hp] at hplay
    exact Option.some.inj hplay
  have htgtIn := inRange_of_piece_at hp
  have hwr : (if p.info.player = Player.white then (8 : Int) else 1) = m.targetRank := by
    rw [hpl, hrank]
  rw [hwr] at hbo
  have hcell : ∀ f r, bOut.piece_at f r
      = if f = m.targetFile ∧ r = m.targetRank
        then some (promoPiece b.nextId k p.info.player m.targetFile m.targetRank)
        else b.piece_at f r := by
    intro f r
    by_cases hin : inRange f r = true
    · rw [hbo, piece_at_inRange hin]
      show cellGet (setCell b.grid m.targetFile m.targetRank _) f r = _
      by_cases heq : f = m.targetFile ∧ r = m.targetRank
      · rw [if_pos heq, heq.1, heq.2, cellGet_setCell_same hg htgtIn]
      · rw [if_neg heq,
          cellGet_setCell_ne hg htgtIn hin (fun hc => heq ⟨hc.1.symm, hc.2.symm⟩),
          ← piece_at_inRange hin]
    · rw [@piece_at_out bOut f r hin,
        if_neg (fun hc => hin (by rw [hc.1, hc.2]; exact htgtIn)),
        @piece_at_out b f r hin]
  have hwk : bOut.whiteKing = b.whiteKing := by rw [hbo]
  have hbk : bOut.blackKing = b.blackKing := by rw [hbo]
  refine ⟨?_, kgOf_congr hwk hbk pl, ?_⟩
  · rw [hbo]
    exact gridShape_setCell hg _ _ _
  · intro f r
    rw [hcell]
    by_cases heq : f = m.targetFile ∧ r = m.targetRank
    · rw [if_pos heq, heq.1, heq.2, hp]
      exact ⟨rfl, fun hop => absurd (hpl.symm.trans hop) (by cases pl <;> decide)⟩
    · rw [if_neg heq]
      exact simCell_refl _ _

theorem finalizeNC_step {b bOut : Board} {mr : Move} (pl : Player)
    (hg : gridShape b.grid = true) (hk : KCoh b pl) (hpr : mr.promotion = none)
    (h : finalizeNC b mr = some bOut) :
    gridShape bOut.grid = true ∧ KCoh bOut pl
      ∧ (kgOf bOut pl).info.file = (kgOf b pl).info.file
      ∧ (kgOf bOut pl).info.rank = (kgOf b pl).info.rank
      ∧ (∀ op f r, simCell op (b.piece_at f r) (bOut.piece_at f r))
      ∧ (∀ f r, (bOut.piece_at f r).map (fun q => q.info.player)
          = (b.piece_at f r).map (fun q => q.info.player)) := by
  unfold finalizeNC at h
  split at h
  · exact Option.noConfusion h
  · next bA hA =>
    rw [hpr] at h
    rw [show ((if (Option.isSome (none : Option PieceKind)) = true
        then handlePromotion bA mr else some bA) : Option Board) = some bA from rfl] at h
    have hE : handleEndState bA = some bOut := h
    obtain ⟨hgA, hkA, hfA, hrA, hsA, hpA, _⟩ := finalizeCore_step pl hg hk hA
    obtain ⟨hgr, hwk, hbk, _⟩ := handleEndState_fields hE
    refine ⟨?_, KCoh_transfer hgr hwk hbk hkA, ?_, ?_, ?_, ?_⟩
    · rw [hgr]
      exact hgA
    · rw [kgOf_congr hwk hbk pl]
      exact hfA
    · rw [kgOf_congr hwk hbk pl]
      exact hrA
    · intro op f r
      rw [piece_at_grid_eq hgr f r]
      exact hsA op f r
    · intro f r
      rw [piece_at_grid_eq hgr f r]
      exact hpA f r

theorem finalizeMove_check_inv {b bOut : Board} {m : Move} (pl : Player)
    (hg : gridShape b.grid = true) (hk : KCoh b pl)
    (hplay : (b.piece_at m.targetFile m.targetRank).map (fun q => q.info.player) = some pl)
    (hrank : m.promotion.isSome = true →
      m.targetRank = (if pl = Player.white then (8 : Int) else 1))
    (h : finalizeMove b m = some bOut) :
    (kgOf bOut pl).info.file = (kgOf b pl).info.file
      ∧ (kgOf bOut pl).info.rank = (kgOf b pl).info.rank
      ∧ (∀ f r, simCell (Player.other pl) (b.piece_at f r) (bOut.piece_at f r)) := by
  unfold finalizeMove at h
  split at h
  · exact Option.noConfusion h
  · next bA hA =>
    have hAfacts : gridShape bA.grid = true ∧ KCoh bA pl
        ∧ (kgOf bA pl).info.file = (kgOf b pl).info.file
        ∧ (kgOf bA pl).info.rank = (kgOf b pl).info.rank
        ∧ (∀ op f r, simCell op (b.piece_at f r) (bA.piece_at f r))
        ∧ (∀ f r, (bA.piece_at f r).map (fun q => q.info.player)
            = (b.piece_at f r).map (fun q => q.info.player)) := by
      split at hA
      · exact finalizeNC_step pl hg hk (castlesRookMove_fields m).2.2.2.2.2 hA
      · cases hA
        exact ⟨hg, hk, rfl, rfl, fun op f r => simCell_refl op _, fun f r => rfl⟩
    obtain ⟨hgA, hkA, hfA, hrA, hsA, hpA⟩ := hAfacts
    split at h
    · exact Option.noConfusion h
    · next bB hB =>
      obtain ⟨hgB, hkB, hfB, hrB, hsB, hpB, _⟩ := finalizeCore_step pl hgA hkA hB
      split at h
      · exact Option.noConfusion h
      · next bC hC =>
        have hCfacts : gridShape bC.grid = true
            ∧ (kgOf bC pl).info.file = (kgOf bB pl).info.file
            ∧ (kgOf bC pl).info.rank = (kgOf bB pl).info.rank
            ∧ (∀ f r, simCell (Player.other pl) (bB.piece_at f r) (bC.piece_at f r)) := by
          split at hC
          · next hps =>
            have hplayB : (bB.piece_at m.targetFile m.targetRank).map
                (fun q => q.info.player) = some pl := by
              rw [hpB, hpA]
              exact hplay
            obtain ⟨hg3, hkg3, hs3⟩ := handlePromotion_step pl hgB hplayB (hrank hps) hC
            exact ⟨hg3, by rw [hkg3], by rw [hkg3], hs3⟩
          · cases hC
            exact ⟨hgB, rfl, rfl, fun f r => simCell_refl _ _⟩
        obtain ⟨hgC, hfC, hrC, hsC⟩ := hCfacts
        obtain ⟨hgrD, hwkD, hbkD, _⟩ := handleEndState_fields h
        refine ⟨?_, ?_, ?_⟩
        · rw [kgOf_congr hwkD hbkD pl, hfC, hfB, hfA]
        · rw [kgOf_congr hwkD hbkD pl, hrC, hrB, hrA]
        · intro f r
          rw [piece_at_grid_eq hgrD f r]
          exact simCell_trans (simCell_trans (hsA _ f r) (hsB _ f r)) (hsC f r)

theorem piece_at_of_empty {b : Board} {f r : Int} (h : b.is_empty f r = true) :
    b.piece_at f r = none := by
  unfold Board.piece_at
  rw [h]
  exact if_pos rfl

theorem pawnsOK_spec {g : Grid} (h : pawnsOK g = true) {f r : Int} (hin : inRange f r = true)
    {p : Piece} (hp : cellGet g f r = some p) (hpk : p.kind = PieceKind.pawn) :
    (p.info.player = Player.white → r ≤ 7 ∧ (p.hasMoved = true ∨ r = 2))
      ∧ (p.info.player = Player.black → 2 ≤ r ∧ (p.hasMoved = true ∨ r = 7)) := by
  have hin' := inRange_iff.1 hin
  simp only [pawnsOK, List.all_eq_true, List.mem_range] at h
  have hh := h (r - 1).toNat (by omega) (f - 1).toNat (by omega)
  rw [show ((((f - 1).toNat : Int)) + 1) = f by omega,
      show ((((r - 1).toNat : Int)) + 1) = r by omega, hp] at hh
  dsimp only at hh
  rw [hpk, if_pos rfl] at hh
  constructor
  · intro hw2
    rw [hw2, if_pos rfl] at hh
    simp only [Bool.and_eq_true, Bool.or_eq_true, decide_eq_true_iff] at hh
    exact hh
  · intro hb2
    rw [hb2,
      if_neg (show ¬Player.black = Player.white from fun hc => Player.noConfusion hc)] at hh
    simp only [Bool.and_eq_true, Bool.or_eq_true, decide_eq_true_iff] at hh
    exact hh

theorem kingsOK_spec {g : Grid} (h : kingsOK g = true) {f r : Int} (hin : inRange f r = true)
    {p : Piece} (hp : cellGet g f r = some p) (hpk : p.kind = PieceKind.king)
    (hmv : p.hasMoved = false) :
    p.info.file = 5 ∧ p.info.rank = (if p.info.player = Player.white then (1 : Int) else 8) := by
  have hin' := inRange_iff.1 hin
  simp only [kingsOK, List.all_eq_true, List.mem_range] at h
  have hh := h (r - 1).toNat (by omega) (f - 1).toNat (by omega)
  rw [show ((((f - 1).toNat : Int)) + 1) = f by omega,
      show ((((r - 1).toNat : Int)) + 1) = r by omega, hp] at hh
  dsimp only at hh
  rw [hpk, hmv] at hh
  simpa using hh

theorem isCastles_promo (b : Board) (m : Move) (c : Option Piece) (pr : Option PieceKind) :
    b.isCastles { m with capture := c, promotion := pr } = b.isCastles m := rfl

theorem castlesRookMove_promo (m : Move) (c : Option Piece) (pr : Option PieceKind) :
    castlesRookMove { m with capture := c, promotion := pr } = castlesRookMove m := rfl

theorem moveTail_coords {b : Board} (m m' m1 : Move)
    (hf : m'.initialFile = m.initialFile) (hr : m'.initialRank = m.initialRank)
    (htf : m'.targetFile = m.targetFile) (htr : m'.targetRank = m.targetRank) :
    moveTail b m' m1 = moveTail b m m1 := by
  unfold moveTail
  rw [hf, hr, htf, htr]

theorem moveTail_promo (b : Board) (m m1 : Move) (pr : Option PieceKind) :
    moveTail b m { m1 with promotion := pr }
      = (moveTail b m m1).map (fun z => (z.1, { z.2 with promotion := pr })) := by
  unfold moveTail
  split <;> rfl

theorem capturePhase_resolved (b : Board) (m : Move) (pr : Option PieceKind) :
    capturePhase b { m with capture := capResolved b m, promotion := pr }
      = ((capturePhase b m).1, { (capturePhase b m).2 with promotion := pr }) := by
  unfold capturePhase capResolved
  dsimp only
  cases hc : (b.piece_at m.targetFile m.targetRank).isSome <;> rfl

theorem logicalMove_resolved (b : Board) (m : Move) (pr : Option PieceKind) :
    logicalMove b { m with capture := capResolved b m, promotion := pr }
      = (logicalMove b m).map (fun z => (z.1, { z.2 with promotion := pr })) := by
  unfold logicalMove
  dsimp only
  rw [capturePhase_resolved b m pr]
  dsimp only
  rw [isCastles_promo, castlesRookMove_promo]
  split
  · rfl
  · exact moveTail_promo _ _ _ pr

theorem is_validB_true_noOwn {b : Board} {cand m : Move} {p : Piece}
    (hsrc : b.piece_at cand.initialFile cand.initialRank = some p)
    (h : b.is_validB cand = some (true, m)) :
    ∀ t, b.piece_at cand.targetFile cand.targetRank = some t →
      t.info.player ≠ p.info.player := by
  intro t ht hEq
  unfold Board.is_validB at h
  rw [Option.map_eq_some'] at h
  obtain ⟨x, hfull, hpair⟩ := h
  unfold Board.is_validFull at hfull
  rw [hsrc] at hfull
  dsimp only at hfull
  rw [ht] at hfull
  dsimp only at hfull
  rw [decide_eq_true hEq, if_pos rfl] at hfull
  obtain rfl : (false, b, cand) = x := Option.some.inj hfull
  have hfb : (false : Bool) = true := congrArg Prod.fst hpair
  exact Bool.noConfusion hfb

theorem KCoh_B1_plain {b : Board} {m : Move} {p : Piece} {B1 : Board}
    (hw : wfBoard b = true) (hm : MoveOK b m p) (F : PlainMoveFacts b m p B1)
    (pl : Player) : KCoh B1 pl := by
  obtain ⟨hgs, hcells, hids, hcache, _⟩ := wfBoard_spec hw
  have hkgAt : b.piece_at (kgOf b pl).info.file (kgOf b pl).info.rank = some (kgOf b pl) := by
    obtain ⟨hw1, _, _, hb1, _, _⟩ := cacheOK_spec hcache
    cases pl
    · exact hb1
    · exact hw1
  have hsrcIn := inRange_of_piece_at hm.src
  have hpcoords := cellsOK_spec hcells hsrcIn
    (by rw [← piece_at_inRange hsrcIn]; exact hm.src)
  have hkg1 : kgOf B1 pl = touch1 (kgOf b pl) (reloc p m.targetFile m.targetRank) := by
    cases pl
    · exact F.bk
    · exact F.wk
  intro f r q hq hqid
  have hfr := inRange_of_piece_at hq
  rw [hkg1] at hqid ⊢
  by_cases htg : f = m.targetFile ∧ r = m.targetRank
  · have hqe : q = reloc p m.targetFile m.targetRank := by
      rw [htg.1, htg.2, F.tgt] at hq
      exact (Option.some.inj hq).symm
    by_cases hpk2 : p.id = (kgOf b pl).id
    · rw [@touch1_pos (kgOf b pl) (reloc p m.targetFile m.targetRank) hpk2]
      rw [hqe]
      exact ⟨rfl, rfl⟩
    · rw [@touch1_neg (kgOf b pl) (reloc p m.targetFile m.targetRank) hpk2] at hqid
      rw [hqe] at hqid
      exact absurd hqid hpk2
  · by_cases hsr : f = m.initialFile ∧ r = m.initialRank
    · rw [hsr.1, hsr.2, F.srcE] at hq
      exact Option.noConfusion hq
    · have hqb : b.piece_at f r = some q := by
        by_cases hcs : ∀ q', capResolved b m = some q' → ¬(f = q'.info.file ∧ r = q'.info.rank)
        · rw [← F.others f r hfr hsr htg hcs]
          exact hq
        · push_neg at hcs
          obtain ⟨q', hq', hfq, hrq⟩ := hcs
          exfalso
          cases htO : b.piece_at m.targetFile m.targetRank with
          | some t =>
            have hcr : capResolved b m = some t := capResolved_occupied htO
            have htq : t = q' := Option.some.inj (hcr.symm.trans hq')
            have htIn := inRange_of_piece_at htO
            have htc := cellsOK_spec hcells htIn
              (by rw [← piece_at_inRange htIn]; exact htO)
            exact htg ⟨by rw [hfq, ← htq, htc.1], by rw [hrq, ← htq, htc.2]⟩
          | none =>
            have hcc := F.capCell q' htO (by rw [← capResolved_empty htO]; exact hq')
            rw [← hfq, ← hrq] at hcc
            rw [hcc] at hq
            exact Option.noConfusion hq
      by_cases hpk2 : p.id = (kgOf b pl).id
      · rw [@touch1_pos (kgOf b pl) (reloc p m.targetFile m.targetRank) hpk2] at hqid ⊢
        have hqp : q = p := grid_id_eq hw hqb hm.src hqid
        exfalso
        apply hsr
        have hqc := cellsOK_spec hcells hfr (by rw [← piece_at_inRange hfr]; exact hqb)
        constructor
        · rw [← hpcoords.1, ← hqp]
          exact hqc.1.symm
        · rw [← hpcoords.2, ← hqp]
          exact hqc.2.symm
      · rw [@touch1_neg (kgOf b pl) (reloc p m.targetFile m.targetRank) hpk2] at hqid ⊢
        have hqk : q = kgOf b pl := grid_id_eq hw hqb hkgAt hqid
        rw [hqk]
        exact ⟨rfl, rfl⟩

theorem KCoh_B1_castle {b : Board} {m : Move} {p x : Piece} {B1 : Board}
    (hw : wfBoard b = true) (hm : MoveOK b m p) (hsh : castleShape m p = true)
    (hxat : b.piece_at (cornerFile m) m.initialRank = some x)
    (F : CastleMoveFacts b m p x B1)
    (pl : Player) : KCoh B1 pl := by
  obtain ⟨hgs, hcells, hids, hcache, _⟩ := wfBoard_spec hw
  have hkgAt : b.piece_at (kgOf b pl).info.file (kgOf b pl).info.rank = some (kgOf b pl) := by
    obtain ⟨hw1, _, _, hb1, _, _⟩ := cacheOK_spec hcache
    cases pl
    · exact hb1
    · exact hw1
  have hsrcIn := inRange_of_piece_at hm.src
  have hxIn := inRange_of_piece_at hxat
  have hpcoords := cellsOK_spec hcells hsrcIn
    (by rw [← piece_at_inRange hsrcIn]; exact hm.src)
  have hxcoords := cellsOK_spec hcells hxIn
    (by rw [← piece_at_inRange hxIn]; exact hxat)
  obtain ⟨hking, hif5, htf37⟩ := castleShape_files hsh
  have hcorner57 : cornerFile m ≠ 5 := by
    unfold cornerFile
    rcases htf37 with h3 | h7 <;> [rw [if_pos h3]; rw [if_neg (by omega)]] <;> decide
  have hpx : p.id ≠ x.id := by
    intro hc
    have hpxe : p = x := grid_id_eq hw hm.src hxat hc
    apply hcorner57
    rw [← hxcoords.1, ← hpxe, hpcoords.1, hif5]
  have hkg1 : kgOf B1 pl = touch1 (touch1 (kgOf b pl)
      (reloc x (rookDestFile m) m.targetRank)) (reloc p m.targetFile m.targetRank) := by
    cases pl
    · exact F.bk
    · exact F.wk
  intro f r q hq hqid
  have hfr := inRange_of_piece_at hq
  rw [hkg1] at hqid ⊢
  by_cases hpk2 : p.id = (kgOf b pl).id
  · -- the mover is the cached king; the outer touch rules
    have hmid_id : (touch1 (kgOf b pl) (reloc x (rookDestFile m) m.targetRank)).id
        = (kgOf b pl).id := by
      by_cases hx2 : (reloc x (rookDestFile m) m.targetRank).id = (kgOf b pl).id
      · rw [touch1_pos hx2]
        exact hx2
      · rw [touch1_neg hx2]
    have houter : touch1 (touch1 (kgOf b pl) (reloc x (rookDestFile m) m.targetRank))
        (reloc p m.targetFile m.targetRank) = reloc p m.targetFile m.targetRank :=
      @touch1_pos (touch1 (kgOf b pl) (reloc x (rookDestFile m) m.targetRank))
        (reloc p m.targetFile m.targetRank) (hpk2.trans hmid_id.symm)
    rw [houter] at hqid ⊢
    by_cases htg : f = m.targetFile ∧ r = m.targetRank
    · rw [htg.1, htg.2, F.tgt] at hq
      rw [(Option.some.inj hq).symm]
      exact ⟨rfl, rfl⟩
    · by_cases hsr : f = m.initialFile ∧ r = m.initialRank
      · rw [hsr.1, hsr.2, F.srcE] at hq
        exact Option.noConfusion hq
      · by_cases hcn : f = cornerFile m ∧ r = m.initialRank
        · rw [hcn.1, hcn.2, F.cornerE] at hq
          exact Option.noConfusion hq
        · by_cases hrd : f = rookDestFile m ∧ r = m.targetRank
          · rw [hrd.1, hrd.2, F.rookD] at hq
            have hqx : q = reloc x (rookDestFile m) m.targetRank := (Option.some.inj hq).symm
            exact (hpx (by rw [hqx] at hqid; exact hqid.symm)).elim
          · have hqb : b.piece_at f r = some q := by
              by_cases hcs : ∀ q', capResolved b m = some q' →
                  ¬(f = q'.info.file ∧ r = q'.info.rank)
              · rw [← F.others f r hfr hsr htg hcn hrd hcs]
                exact hq
              · push_neg at hcs
                obtain ⟨q', hq', hfq, hrq⟩ := hcs
                exfalso
                cases htO : b.piece_at m.targetFile m.targetRank with
                | some t =>
                  have hcr : capResolved b m = some t := capResolved_occupied htO
                  have htq : t = q' := Option.some.inj (hcr.symm.trans hq')
                  have htIn := inRange_of_piece_at htO
                  have htc := cellsOK_spec hcells htIn
                    (by rw [← piece_at_inRange htIn]; exact htO)
                  exact htg ⟨by rw [hfq, ← htq, htc.1], by rw [hrq, ← htq, htc.2]⟩
                | none =>
                  have hcc := F.capCell q' htO (by rw [← capResolved_empty htO]; exact hq')
                  rw [← hfq, ← hrq] at hcc
                  rw [hcc] at hq
                  exact Option.noConfusion hq
            have hqp : q = p := grid_id_eq hw hqb hm.src hqid
            exfalso
            apply hsr
            have hqc := cellsOK_spec hcells hfr (by rw [← piece_at_inRange hfr]; exact hqb)
            constructor
            · rw [← hpcoords.1, ← hqp]
              exact hqc.1.symm
            · rw [← hpcoords.2, ← hqp]
              exact hqc.2.symm
  · -- the mover is not the cached king: the outer touch is inert
    have houter : ∀ w : Piece, w.id = (kgOf b pl).id →
        touch1 w (reloc p m.targetFile m.targetRank) = w := by
      intro w hwid
      exact @touch1_neg w (reloc p m.targetFile m.targetRank)
        (fun hc => hpk2 (hc.trans hwid))
    by_cases hxk : x.id = (kgOf b pl).id
    · have hinner : touch1 (kgOf b pl) (reloc x (rookDestFile m) m.targetRank)
          = reloc x (rookDestFile m) m.targetRank :=
        @touch1_pos (kgOf b pl) (reloc x (rookDestFile m) m.targetRank) hxk
      rw [hinner, houter (reloc x (rookDestFile m) m.targetRank) hxk] at hqid ⊢
      by_cases htg : f = m.targetFile ∧ r = m.targetRank
      · rw [htg.1, htg.2, F.tgt] at hq
        have hqe : q = reloc p m.targetFile m.targetRank := (Option.some.inj hq).symm
        exfalso
        apply hpx
        rw [hqe] at hqid
        exact hqid
      · by_cases hsr : f = m.initialFile ∧ r = m.initialRank
        · rw [hsr.1, hsr.2, F.srcE] at hq
          exact Option.noConfusion hq
        · by_cases hcn : f = cornerFile m ∧ r = m.initialRank
          · rw [hcn.1, hcn.2, F.cornerE] at hq
            exact Option.noConfusion hq
          · by_cases hrd : f = rookDestFile m ∧ r = m.targetRank
            · rw [hrd.1, hrd.2, F.rookD] at hq
              rw [(Option.some.inj hq).symm]
              exact ⟨rfl, rfl⟩
            · have hqb : b.piece_at f r = some q := by
                by_cases hcs : ∀ q', capResolved b m = some q' →
                    ¬(f = q'.info.file ∧ r = q'.info.rank)
                · rw [← F.others f r hfr hsr htg hcn hrd hcs]
                  exact hq
                · push_neg at hcs
                  obtain ⟨q', hq', hfq, hrq⟩ := hcs
                  exfalso
                  cases htO : b.piece_at m.targetFile m.targetRank with
                  | some t =>
                    have hcr : capResolved b m = some t := capResolved_occupied htO
                    have htq : t = q' := Option.some.inj (hcr.symm.trans hq')
                    have htIn := inRange_of_piece_at htO
                    have htc := cellsOK_spec hcells htIn
                      (by rw [← piece_at_inRange htIn]; exact htO)
                    exact htg ⟨by rw [hfq, ← htq, htc.1], by rw [hrq, ← htq, htc.2]⟩
                  | none =>
                    have hcc := F.capCell q' htO
                      (by rw [← capResolved_empty htO]; exact hq')
                    rw [← hfq, ← hrq] at hcc
                    rw [hcc] at hq
                    exact Option.noConfusion hq
              have hqx : q = x := grid_id_eq hw hqb hxat (show q.id = x.id from hqid)
              exfalso
              apply hcn
              have hqc := cellsOK_spec hcells hfr
                (by rw [← piece_at_inRange hfr]; exact hqb)
              constructor
              · rw [← hxcoords.1, ← hqx]
                exact hqc.1.symm
              · rw [← hxcoords.2, ← hqx]
                exact hqc.2.symm
    · have hinner : touch1 (kgOf b pl) (reloc x (rookDestFile m) m.targetRank)
          = kgOf b pl :=
        @touch1_neg (kgOf b pl) (reloc x (rookDestFile m) m.targetRank) (fun hc => hxk hc)
      rw [hinner, houter (kgOf b pl) rfl] at hqid ⊢
      by_cases htg : f = m.targetFile ∧ r = m.targetRank
      · rw [htg.1, htg.2, F.tgt] at hq
        have hqe : q = reloc p m.targetFile m.targetRank := (Option.some.inj hq).symm
        exfalso
        apply hpk2
        rw [hqe] at hqid
        exact hqid
      · by_cases hsr : f = m.initialFile ∧ r = m.initialRank
        · rw [hsr.1, hsr.2, F.srcE] at hq
          exact Option.noConfusion hq
        · by_cases hcn : f = cornerFile m ∧ r = m.initialRank
          · rw [hcn.1, hcn.2, F.cornerE] at hq
            exact Option.noConfusion hq
          · by_cases hrd : f = rookDestFile m ∧ r = m.targetRank
            · rw [hrd.1, hrd.2, F.rookD] at hq
              have hqe : q = reloc x (rookDestFile m) m.targetRank := (Option.some.inj hq).symm
              exfalso
              apply hxk
              rw [hqe] at hqid
              exact hqid
            · have hqb : b.piece_at f r = some q := by
                by_cases hcs : ∀ q', capResolved b m = some q' →
                    ¬(f = q'.info.file ∧ r = q'.info.rank)
                · rw [← F.others f r hfr hsr htg hcn hrd hcs]
                  exact hq
                · push_neg at hcs
                  obtain ⟨q', hq', hfq, hrq⟩ := hcs
                  exfalso
                  cases htO : b.piece_at m.targetFile m.targetRank with
                  | some t =>
                    have hcr : capResolved b m = some t := capResolved_occupied htO
                    have htq : t = q' := Option.some.inj (hcr.symm.trans hq')
                    have htIn := inRange_of_piece_at htO
                    have htc := cellsOK_spec hcells htIn
                      (by rw [← piece_at_inRange htIn]; exact htO)
                    exact htg ⟨by rw [hfq, ← htq, htc.1], by rw [hrq, ← htq, htc.2]⟩
                  | none =>
                    have hcc := F.capCell q' htO
                      (by rw [← capResolved_empty htO]; exact hq')
                    rw [← hfq, ← hrq] at hcc
                    rw [hcc] at hq
                    exact Option.noConfusion hq
              have hqk : q = kgOf b pl := grid_id_eq hw hqb hkgAt hqid
              rw [hqk]
              exact ⟨rfl, rfl⟩

theorem rayGen_ok (b : Board) (file rank dx dy : Int) :
    ∀ fuel f r m, m ∈ rayGen b file rank dx dy fuel f r →
      ∃ tf tr, inRange tf tr = true ∧ m ∈ validated b (mv file rank tf tr) := by
  intro fuel
  induction fuel with
  | zero => exact fun f r m hm => absurd hm (List.not_mem_nil m)
  | succ n ih =>
    intro f r m hm
    unfold rayGen at hm
    split at hm
    · next hin =>
      rw [List.mem_append] at hm
      rcases hm with hm | hm
      · exact ⟨f, r, hin, hm⟩
      · split at hm
        · exact absurd hm (List.not_mem_nil m)
        · exact ih (f + dx) (r + dy) m hm
    · exact absurd hm (List.not_mem_nil m)

theorem nonKing_castle {b : Board} {cand : Move} {p : Piece}
    (hnk : ¬p.kind = PieceKind.king) :
    castleShape cand p = true → CastleOK b cand :=
  fun hsh => absurd (castleShape_files hsh).1 hnk

theorem nonKing_invCastle {cand : Move} {p : Piece}
    (hnk : ¬p.kind = PieceKind.king) :
    ¬(p.kind = PieceKind.king ∧ cand.targetFile = 5
      ∧ (cand.initialFile - cand.targetFile).natAbs = 2) :=
  fun hc => hnk hc.1

theorem knightGen_ok {b : Board} {p : Piece} {m : Move} (hpk : p.kind = PieceKind.knight)
    (hm : m ∈ knightMoves b p) :
    ∃ cand, m ∈ validated b cand ∧ GenOK b cand p := by
  have hnk : ¬p.kind = PieceKind.king := by
    rw [hpk]; exact fun hc => PieceKind.noConfusion hc
  unfold knightMoves at hm
  dsimp only at hm
  rw [List.mem_flatMap] at hm
  obtain ⟨d, _, hm⟩ := hm
  split at hm
  · next hin =>
    exact ⟨_, hm, rfl, rfl, hin, fun _ => Or.inl rfl,
      nonKing_castle hnk, nonKing_invCastle hnk⟩
  · exact absurd hm (List.not_mem_nil m)

theorem bishopGen_ok {b : Board} {p : Piece} {m : Move} (hpk : p.kind = PieceKind.bishop)
    (hm : m ∈ bishopMoves b p) :
    ∃ cand, m ∈ validated b cand ∧ GenOK b cand p := by
  have hnk : ¬p.kind = PieceKind.king := by
    rw [hpk]; exact fun hc => PieceKind.noConfusion hc
  unfold bishopMoves at hm
  rw [List.mem_flatMap] at hm
  obtain ⟨d, _, hm⟩ := hm
  obtain ⟨tf, tr, hin, hv⟩ := rayGen_ok b p.info.file p.info.rank d.1 d.2 16 _ _ m hm
  exact ⟨_, hv, rfl, rfl, hin, fun _ => Or.inl rfl,
    nonKing_castle hnk, nonKing_invCastle hnk⟩

theorem rookGen_ok {b : Board} {p : Piece} {m : Move} (hpk : p.kind = PieceKind.rook)
    (hm : m ∈ rookMoves b p) :
    ∃ cand, m ∈ validated b cand ∧ GenOK b cand p := by
  have hnk : ¬p.kind = PieceKind.king := by
    rw [hpk]; exact fun hc => PieceKind.noConfusion hc
  unfold rookMoves at hm
  rw [List.mem_flatMap] at hm
  obtain ⟨d, _, hm⟩ := hm
  obtain ⟨tf, tr, hin, hv⟩ := rayGen_ok b p.info.file p.info.rank d.1 d.2 16 _ _ m hm
  exact ⟨_, hv, rfl, rfl, hin, fun _ => Or.inl rfl,
    nonKing_castle hnk, nonKing_invCastle hnk⟩

theorem queenGen_ok {b : Board} {p : Piece} {m : Move} (hpk : p.kind = PieceKind.queen)
    (hm : m ∈ queenMoves b p) :
    ∃ cand, m ∈ validated b cand ∧ GenOK b cand p := by
  have hnk : ¬p.kind = PieceKind.king := by
    rw [hpk]; exact fun hc => PieceKind.noConfusion hc
  unfold queenMoves at hm
  rw [List.mem_flatMap] at hm
  obtain ⟨d, _, hm⟩ := hm
  obtain ⟨tf, tr, hin, hv⟩ := rayGen_ok b p.info.file p.info.rank d.1 d.2 16 _ _ m hm
  exact ⟨_, hv, rfl, rfl, hin, fun _ => Or.inl rfl,
    nonKing_castle hnk, nonKing_invCastle hnk⟩

theorem pawnGen_ok {b : Board} {p : Piece} {m : Move}
    (hw : wfBoard b = true) (hpw : pawnsOK b.grid = true)
    (hp : b.piece_at p.info.file p.info.rank = some p) (hpk : p.kind = PieceKind.pawn)
    (hm : m ∈ pawnMoves b p) :
    ∃ cand, m ∈ validated b cand ∧ GenOK b cand p := by
  obtain ⟨cand, hv, hif, hir, hpr, hbr⟩ := pawnMoves_split hm
  obtain ⟨hgs, hcells, _, _, _⟩ := wfBoard_spec hw
  have hpIn := inRange_of_piece_at hp
  have hpIn' := inRange_iff.1 hpIn
  have hpawn := pawnsOK_spec hpw hpIn (by rw [← piece_at_inRange hpIn]; exact hp) hpk
  have hnk : ¬p.kind = PieceKind.king := by
    rw [hpk]; exact fun hc => PieceKind.noConfusion hc
  have hfwd : 1 ≤ p.info.rank + pawnForward p ∧ p.info.rank + pawnForward p ≤ 8 := by
    cases hpl : p.info.player with
    | black =>
      have hb2 := hpawn.2 hpl
      have hfd : pawnForward p = -1 := by unfold pawnForward; rw [hpl]; rfl
      omega
    | white =>
      have hw2 := hpawn.1 hpl
      have hfd : pawnForward p = 1 := by unfold pawnForward; rw [hpl]; rfl
      omega
  refine ⟨cand, hv, ?_, ?_, ?_, ?_, nonKing_castle hnk, nonKing_invCastle hnk⟩
  · exact hif
  · exact hir
  · -- in-range destination
    rcases hbr with hPush | hDiag | hEP
    · obtain ⟨hcap, htf, hemp, hor⟩ := hPush
      rcases hor with h1 | ⟨hmv, h2⟩
      · rw [htf, h1]
        rw [inRange_iff]
        omega
      · have hd2 : 1 ≤ p.info.rank + 2 * pawnForward p
            ∧ p.info.rank + 2 * pawnForward p ≤ 8 := by
          cases hpl : p.info.player with
          | black =>
            have hb2 := hpawn.2 hpl
            have hfd : pawnForward p = -1 := by unfold pawnForward; rw [hpl]; rfl
            rcases hb2.2 with hmm | h7
            · rw [hmv] at hmm
              exact absurd hmm (by decide)
            · omega
          | white =>
            have hw2 := hpawn.1 hpl
            have hfd : pawnForward p = 1 := by unfold pawnForward; rw [hpl]; rfl
            rcases hw2.2 with hmm | h2'
            · rw [hmv] at hmm
              exact absurd hmm (by decide)
            · omega
        rw [htf, h2]
        rw [inRange_iff]
        omega
    · obtain ⟨nc, dx, hdxe, htf, htr, hat, hply, hcapn⟩ := hDiag
      rw [htf, htr]
      exact inRange_of_piece_at hat
    · obtain ⟨ep, dx, hdxe, htf, htr, hat, hkind, hlp, hply, hadv, hcapn⟩ := hEP
      have hatIn := inRange_iff.1 (inRange_of_piece_at hat)
      rw [htf, htr, inRange_iff]
      omega
  · -- capture sanity
    intro hnone
    rcases hbr with hPush | hDiag | hEP
    · exact Or.inl hPush.1
    · obtain ⟨nc, dx, hdxe, htf, htr, hat, hply, hcapn⟩ := hDiag
      rw [htf, htr, hat] at hnone
      exact Option.noConfusion hnone
    · obtain ⟨ep, dx, hdxe, htf, htr, hat, hkind, hlp, hply, hadv, hcapn⟩ := hEP
      have hatIn := inRange_of_piece_at hat
      have hepc := cellsOK_spec hcells hatIn
        (by rw [← piece_at_inRange hatIn]; exact hat)
      refine Or.inr ⟨ep, hcapn, ?_, ?_⟩
      · rw [hepc.1, hepc.2]
        exact hat
      · intro hc
        rw [hif] at hc
        rcases hdxe with h | h <;> (rw [h] at hepc; omega)

theorem kingGen_ok {b : Board} {p : Piece} {m : Move}
    (hw : wfBoard b = true) (hkOK : kingsOK b.grid = true)
    (hp : b.piece_at p.info.file p.info.rank = some p) (hpk : p.kind = PieceKind.king)
    (hm : m ∈ kingMoves b p) :
    ∃ cand, m ∈ validated b cand ∧ GenOK b cand p := by
  obtain ⟨hgs, hcells, _, _, _⟩ := wfBoard_spec hw
  have hpIn := inRange_of_piece_at hp
  have hpIn' := inRange_iff.1 hpIn
  unfold kingMoves at hm
  dsimp only at hm
  rw [List.mem_append] at hm
  rcases hm with hm | hm
  · -- single steps
    rw [List.mem_flatMap] at hm
    obtain ⟨d, hd, hm⟩ := hm
    have hd1 : (d.1 = -1 ∨ d.1 = 0 ∨ d.1 = 1) := by
      simp only [List.mem_cons, List.not_mem_nil, or_false] at hd
      rcases hd with h|h|h|h|h|h|h|h <;> rw [h] <;> simp
    split at hm
    · next hin =>
      refine ⟨_, hm, rfl, rfl, hin, fun _ => Or.inl rfl, ?_, ?_⟩
      · intro hsh
        obtain ⟨_, hif5, htf37⟩ := castleShape_files hsh
        have e1 : p.info.file = 5 := hif5
        have e2 : p.info.file + d.1 = 3 ∨ p.info.file + d.1 = 7 := htf37
        exfalso
        omega
      · intro hc
        have e1 : p.info.file + d.1 = 5 := hc.2.1
        have e2 : (p.info.file - (p.info.file + d.1)).natAbs = 2 := hc.2.2
        omega
    · exact absurd hm (List.not_mem_nil m)
  · -- castling candidates
    split at hm
    · exact absurd hm (List.not_mem_nil m)
    · next hmvT =>
      have hmv : p.hasMoved = false := by
        cases hh : p.hasMoved
        · rfl
        · exact absurd hh hmvT
      have hK := kingsOK_spec hkOK hpIn (by rw [← piece_at_inRange hpIn]; exact hp) hpk hmv
      have hr18 : p.info.rank = 1 ∨ p.info.rank = 8 := by
        cases hpl : p.info.player with
        | black => rw [hpl] at hK; right; simpa using hK.2
        | white => rw [hpl] at hK; left; simpa using hK.2
      rw [List.mem_flatMap] at hm
      obtain ⟨corner, hcorner, hm⟩ := hm
      have hce : corner = 1 ∨ corner = 8 := by simpa using hcorner
      rcases hce with rfl | rfl
      · have hdx : (if (1 : Int) = 1 then (-1 : Int) else 1) = -1 := by norm_num
        rw [hdx, hK.1] at hm
        split at hm
        · next hg =>
          simp only [Bool.and_eq_true] at hg
          obtain ⟨⟨⟨hmatch, _⟩, _⟩, hemp⟩ := hg
          obtain ⟨rk, hrkAt⟩ : ∃ rk, b.piece_at 1 p.info.rank = some rk := by
            cases hh : b.piece_at 1 p.info.rank with
            | some rk => exact ⟨rk, rfl⟩
            | none =>
              rw [hh] at hmatch
              exact Bool.noConfusion hmatch
          refine ⟨_, hm, ?_, rfl, ?_, fun _ => Or.inl rfl, ?_, ?_⟩
          · exact hK.1.symm
          · refine inRange_iff.2 ?_
            show (1 : Int) ≤ 5 + 2 * -1 ∧ (5 + 2 * -1 : Int) ≤ 8
              ∧ 1 ≤ p.info.rank ∧ p.info.rank ≤ 8
            omega
          · intro _
            refine ⟨⟨rk, ?_⟩, ?_, fun q hq => Option.noConfusion hq⟩
            · show b.piece_at (1 : Int) p.info.rank = some rk
              exact hrkAt
            · show b.piece_at (4 : Int) p.info.rank = none
              have h4 : (4 : Int) = 5 + -1 := by norm_num
              rw [h4]
              exact piece_at_of_empty hemp
          · intro hc
            have e1 : (5 + 2 * -1 : Int) = 5 := hc.2.1
            omega
        · exact absurd hm (List.not_mem_nil m)
      · have hdx : (if (8 : Int) = 1 then (-1 : Int) else 1) = 1 := by norm_num
        rw [hdx, hK.1] at hm
        split at hm
        · next hg =>
          simp only [Bool.and_eq_true] at hg
          obtain ⟨⟨⟨hmatch, _⟩, _⟩, hemp⟩ := hg
          obtain ⟨rk, hrkAt⟩ : ∃ rk, b.piece_at 8 p.info.rank = some rk := by
            cases hh : b.piece_at 8 p.info.rank with
            | some rk => exact ⟨rk, rfl⟩
            | none =>
              rw [hh] at hmatch
              exact Bool.noConfusion hmatch
          refine ⟨_, hm, ?_, rfl, ?_, fun _ => Or.inl rfl, ?_, ?_⟩
          · exact hK.1.symm
          · refine inRange_iff.2 ?_
            show (1 : Int) ≤ 5 + 2 * 1 ∧ (5 + 2 * 1 : Int) ≤ 8
              ∧ 1 ≤ p.info.rank ∧ p.info.rank ≤ 8
            omega
          · intro _
            refine ⟨⟨rk, ?_⟩, ?_, fun q hq => Option.noConfusion hq⟩
            · show b.piece_at (8 : Int) p.info.rank = some rk
              exact hrkAt
            · show b.piece_at (6 : Int) p.info.rank = none
              have h6 : (6 : Int) = 5 + 1 := by norm_num
              rw [h6]
              exact piece_at_of_empty hemp
          · intro hc
            have e1 : (5 + 2 * 1 : Int) = 5 := hc.2.1
            omega
        · exact absurd hm (List.not_mem_nil m)

theorem possible_moves_sound {b : Board} {p : Piece} {m : Move}
    (hw : wfBoard b = true) (hpw : pawnsOK b.grid = true) (hkOK : kingsOK b.grid = true)
    (hp : b.piece_at p.info.file p.info.rank = some p)
    (hm : m ∈ possible_moves b p) :
    ∃ cand, m ∈ validated b cand ∧ GenOK b cand p := by
  unfold possible_moves at hm
  cases hpk : p.kind with
  | pawn => rw [hpk] at hm; exact pawnGen_ok hw hpw hp hpk hm
  | knight => rw [hpk] at hm; exact knightGen_ok hpk hm
  | bishop => rw [hpk] at hm; exact bishopGen_ok hpk hm
  | rook => rw [hpk] at hm; exact rookGen_ok hpk hm
  | queen => rw [hpk] at hm; exact queenGen_ok hpk hm
  | king => rw [hpk] at hm; exact kingGen_ok hw hkOK hp hpk hm

theorem in_check_sim {b b2 : Board} (pl : Player)
    (hkF : (kgOf b2 pl).info.file = (kgOf b pl).info.file)
    (hkR : (kgOf b2 pl).info.rank = (kgOf b pl).info.rank)
    (hsim : ∀ f r, simCell (Player.other pl) (b.piece_at f r) (b2.piece_at f r)) :
    b2.in_check pl = b.in_check pl := by
  unfold Board.in_check
  dsimp only
  have hop : (if pl = .black then Player.white else Player.black) = Player.other pl := by
    cases pl <;> rfl
  rw [hop,
    show (if pl = .black then b2.blackKing else b2.whiteKing) = kgOf b2 pl from rfl,
    show (if pl = .black then b.blackKing else b.whiteKing) = kgOf b pl from rfl,
    hkF, hkR]
  exact (is_controlled_sim hsim _ _).symm

/-- Claim C2: a legal move never leaves the mover's own king in check.  On a
well-formed, reachable position (`wfBoard` plus the pawn- and
king-placement reachability invariants), for any move yielded by a piece's
`possible_moves` generator — with the `promotion` field optionally filled
in afterwards, as the UI does, only for a move onto the promotion rank —
if `make_move` returns a position at all, the mover is not in check there:
the generator's `is_valid` call already vetoed the speculative position,
and no finalization step (prev-coordinate bookkeeping, the paired castle
rook move's finalization, promotion-piece replacement, end-state
recomputation) changes any attack-relevant cell content or the mover's
cached king square. -/
theorem C2_no_self_check (b b' : Board) (p : Piece) (m : Move) (pr : Option PieceKind)
    (hw : wfBoard b = true) (hpw : pawnsOK b.grid = true) (hkOK : kingsOK b.grid = true)
    (hp : b.piece_at p.info.file p.info.rank = some p)
    (hm : m ∈ possible_moves b p)
    (hpr : pr.isSome = true →
      m.targetRank = (if p.info.player = Player.white then (8 : Int) else 1))
    (hmk : make_move b { m with promotion := pr } = some b') :
    b'.in_check p.info.player = false := by
  obtain ⟨cand, hv, G⟩ := possible_moves_sound hw hpw hkOK hp hm
  have hval := validated_true hv
  have hsrc : b.piece_at cand.initialFile cand.initialRank = some p := by
    rw [G.srcF, G.srcR]
    exact hp
  have hnoOwn := is_validB_true_noOwn hsrc hval
  have hMO : MoveOK b cand p := ⟨hsrc, G.tgtIn, hnoOwn, G.capSane, G.castle, G.invCastle⟩
  obtain ⟨B1, hlm, hvfull⟩ := is_valid_exact hw hMO
  have hmEq : m = { cand with capture := capResolved b cand } := is_validB_true_shape hval
  have hchk : B1.in_check p.info.player = false := by
    have hvb : b.is_validB cand
        = some (!(B1.in_check p.info.player), { cand with capture := capResolved b cand }) := by
      unfold Board.is_validB
      rw [hvfull]
      rfl
    have hcomb := hval.symm.trans hvb
    have h1 : (true : Bool) = !(B1.in_check p.info.player) :=
      congrArg (fun z => (Option.getD z (false, m)).1) hcomb
    cases hic : B1.in_check p.info.player
    · rfl
    · rw [hic] at h1
      exact absurd h1 (by decide)
  have hm2 : ({ m with promotion := pr } : Move)
      = { cand with capture := capResolved b cand, promotion := pr } := by
    rw [hmEq]
  have hlm' : logicalMove b { m with promotion := pr }
      = some (B1, { m with promotion := pr }) := by
    rw [hm2, logicalMove_resolved b cand pr, hlm]
    rfl
  have htfEq : ({ m with promotion := pr } : Move).targetFile = cand.targetFile := by
    rw [hmEq]
  have htrEq : ({ m with promotion := pr } : Move).targetRank = cand.targetRank := by
    rw [hmEq]
  unfold make_move at hmk
  rw [hlm'] at hmk
  dsimp only at hmk
  split at hmk
  · exact Option.noConfusion hmk
  · next b2 hfin =>
    have hb' : b' = { b2 with turn := b2.turn.other, previousMove := some ({ m with promotion := pr } : Move) } :=
      (Option.some.inj hmk).symm
    have hB1facts : gridShape B1.grid = true ∧ KCoh B1 p.info.player
        ∧ B1.piece_at cand.targetFile cand.targetRank
          = some (reloc p cand.targetFile cand.targetRank) := by
      cases hsh : castleShape cand p with
      | false =>
        obtain ⟨B1p, hlmp, F⟩ := logicalMove_plain hw hMO hsh
        have hB : B1p = B1 := congrArg Prod.fst (Option.some.inj (hlmp.symm.trans hlm))
        rw [hB] at F
        exact ⟨F.shape, KCoh_B1_plain hw hMO F p.info.player, F.tgt⟩
      | true =>
        obtain ⟨B1c, x, hxat, hlmc, F⟩ := logicalMove_castle hw hMO hsh
        have hB : B1c = B1 := congrArg Prod.fst (Option.some.inj (hlmc.symm.trans hlm))
        rw [hB] at F
        exact ⟨F.shape, KCoh_B1_castle hw hMO hsh hxat F p.info.player, F.tgt⟩
    obtain ⟨hgs1, hk1, htgt1⟩ := hB1facts
    have hplay1 : (B1.piece_at ({ m with promotion := pr } : Move).targetFile
        ({ m with promotion := pr } : Move).targetRank).map (fun q => q.info.player)
        = some p.info.player := by
      rw [htfEq, htrEq, htgt1]
      rfl
    have hrank1 : ({ m with promotion := pr } : Move).promotion.isSome = true →
        ({ m with promotion := pr } : Move).targetRank
          = (if p.info.player = Player.white then (8 : Int) else 1) := by
      intro hps
      exact hpr hps
    obtain ⟨hkf, hkr, hsim⟩ := finalizeMove_check_inv p.info.player hgs1 hk1 hplay1 hrank1 hfin
    have hb2chk : b2.in_check p.info.player = B1.in_check p.info.player :=
      in_check_sim p.info.player hkf hkr hsim
    have hb'chk : b'.in_check p.info.player = b2.in_check p.info.player := by
      rw [hb']
      exact in_check_sim p.info.player rfl rfl (fun f r => simCell_refl _ _)
    rw [hb'chk, hb2chk]
    exact hchk

/-- Witness for claim C2 at a concrete input: the double pawn push e2-e4
from the initial position, with no promotion request. -/
theorem C2_witness :
    wfBoard initBoard = true ∧ pawnsOK initBoard.grid = true
      ∧ kingsOK initBoard.grid = true
      ∧ mv 5 2 5 4 ∈ possible_moves initBoard (mkP 8 .pawn .white 5 2)
      ∧ ((make_move initBoard { mv 5 2 5 4 with promotion := none }).getD initBoard).in_check
          (mkP 8 .pawn .white 5 2).info.player = false := by
  refine ⟨by decide, by decide, by decide, by decide, ?_⟩
  exact C2_no_self_check initBoard
    ((make_move initBoard { mv 5 2 5 4 with promotion := none }).getD initBoard)
    (mkP 8 .pawn .white 5 2) (mv 5 2 5 4) none
    (by decide) (by decide) (by decide) (by decide) (by decide)
    (fun hps => absurd hps (by decide)) (by decide)

end Chess
